import Mathlib

/-!
Verification of the SASS-Assembler ISA-description parser.

This file gives a shallow embedding, in Lean 4, of the lexer, the integer
literal evaluator, the data-model containers (decision tables, register
groups, bit masks) and the recursive-descent section parser of the
SASS-Assembler repository, together with theorems settling the claims about
their behaviour.

Conventions of the embedding:
* source text is a `List Char`; byte positions are `Nat`;
* machine integers are `Nat` with explicit `% 2 ^ w` wherever the C++
  performs wrapping unsigned arithmetic;
* fallible routines return `Option`; the diagnostic side channel is an
  explicit `List Diag` threaded through a parser state;
* loops of the C++ become fuel-indexed recursion.  When fuel runs out the
  function returns exactly what the corresponding loop exit would have
  produced from the current state, so statements proved for all fuel values
  describe every finite prefix of the loop's execution.

Definitions `Modelled from the spec:` stand in for repository code whose
definition files are not available (the keyword/punctuator `.def` tables,
the multi-kind `expect_token` overloads and `get_identifier_or_string`);
they follow the documented contracts.  `functional_unit.hpp` leaves the
`encoding_width_` member uninitialized in the defaulted constructor, so the
embedding takes the indeterminate initial contents of that cell as an
explicit parameter `w0` and proves every statement for all values of it.
-/

/-! ## Character classification (C locale, as used by the lexer) -/

def isSpaceC (c : Char) : Bool :=
  c.toNat = 32 || c.toNat = 9 || c.toNat = 10 || c.toNat = 11 ||
    c.toNat = 12 || c.toNat = 13

def isDigitC (c : Char) : Bool :=
  48 ≤ c.toNat && c.toNat ≤ 57

def isAlphaC (c : Char) : Bool :=
  (65 ≤ c.toNat && c.toNat ≤ 90) || (97 ≤ c.toNat && c.toNat ≤ 122)

/-- `std::isalnum(c) || c == '_'`, the identifier/integer continuation set. -/
def isAlnumUnderC (c : Char) : Bool :=
  isAlphaC c || isDigitC c || c = '_'

/-- ASCII `std::tolower`. -/
def toLowerC (c : Char) : Char :=
  if 65 ≤ c.toNat && c.toNat ≤ 90 then Char.ofNat (c.toNat + 32) else c

/-- The sliceAt `[b, b+len)` of a character buffer. -/
def sliceAt (s : List Char) (b len : Nat) : List Char :=
  (s.drop b).take len

/-- Length of the maximal prefix whose characters satisfy `p`
(`std::ranges::find_if_not` expressed as a distance). -/
def spanWhile (p : Char → Bool) : List Char → Nat
  | [] => 0
  | c :: rest => if p c then spanWhile p rest + 1 else 0

/-! ## Tokens -/

/-- Token kinds: the special kinds of `Token::TokenKind`, one constructor
per keyword and one per punctuator.  The keyword/punctuator `.def` files are
not in the sources; the constructor list is modelled from the spec's keyword
grammar and punctuator inventory, plus the kinds referenced by the code
(`KeywordEncoding`, `PunctuatorDotDot`). -/
inductive TokenKind where
  | Unknown
  | End
  | Identifier
  | Integer
  | String
  | KeywordArchitecture
  | KeywordCondition
  | KeywordTypes
  | KeywordParameters
  | KeywordConstants
  | KeywordStringMap
  | KeywordRegisters
  | KeywordTables
  | KeywordOperation
  | KeywordProperties
  | KeywordPredicates
  | KeywordFUnit
  | KeywordEncoding
  | PunctuatorLeftSquare
  | PunctuatorRightSquare
  | PunctuatorLeftParen
  | PunctuatorRightParen
  | PunctuatorLeftBrace
  | PunctuatorRightBrace
  | PunctuatorPlus
  | PunctuatorMinus
  | PunctuatorArrow
  | PunctuatorStar
  | PunctuatorSlash
  | PunctuatorPercent
  | PunctuatorTilde
  | PunctuatorExclaim
  | PunctuatorExclaimEqual
  | PunctuatorLess
  | PunctuatorLessEqual
  | PunctuatorLessLess
  | PunctuatorGreater
  | PunctuatorGreaterEqual
  | PunctuatorGreaterGreater
  | PunctuatorEqual
  | PunctuatorEqualEqual
  | PunctuatorAmp
  | PunctuatorAmpAmp
  | PunctuatorPipe
  | PunctuatorPipePipe
  | PunctuatorDot
  | PunctuatorDotDot
  | PunctuatorQuestion
  | PunctuatorColon
  | PunctuatorSemi
  | PunctuatorComma
  | PunctuatorAt
  | PunctuatorDollar
  | PunctuatorBackTick
  deriving DecidableEq

/-- A lexical token: kind, content (a sliceAt of the source text) and the byte
offset of its first character (`location_`). -/
structure Token where
  kind : TokenKind
  content : List Char
  loc : Nat
  deriving DecidableEq

def Token.location_begin (t : Token) : Nat := t.loc

def Token.location_end (t : Token) : Nat := t.loc + t.content.length

def Token.is (t : Token) (k : TokenKind) : Bool := t.kind = k

def Token.is_not (t : Token) (k : TokenKind) : Bool := t.kind ≠ k

/-- `Token::is_keyword`. -/
def Token.is_keyword (t : Token) : Bool :=
  match t.kind with
  | .KeywordArchitecture | .KeywordCondition | .KeywordTypes
  | .KeywordParameters | .KeywordConstants | .KeywordStringMap
  | .KeywordRegisters | .KeywordTables | .KeywordOperation
  | .KeywordProperties | .KeywordPredicates | .KeywordFUnit
  | .KeywordEncoding => true
  | _ => false

/-- Modelled from the spec: the keyword table of `keyword.def` (spelling,
kind), as listed in the grammar skeleton plus `ENCODING`. -/
def keywordList : List (List Char × TokenKind) :=
  [ ("ARCHITECTURE".toList, .KeywordArchitecture),
    ("CONDITION".toList, .KeywordCondition),
    ("TYPES".toList, .KeywordTypes),
    ("PARAMETERS".toList, .KeywordParameters),
    ("CONSTANTS".toList, .KeywordConstants),
    ("STRING_MAP".toList, .KeywordStringMap),
    ("REGISTERS".toList, .KeywordRegisters),
    ("TABLES".toList, .KeywordTables),
    ("OPERATION".toList, .KeywordOperation),
    ("PROPERTIES".toList, .KeywordProperties),
    ("PREDICATES".toList, .KeywordPredicates),
    ("FUNIT".toList, .KeywordFUnit),
    ("ENCODING".toList, .KeywordEncoding) ]

/-- `adjust_identifer_kind`: exact-match lookup of an identifier's content in
the keyword table, reclassifying it on a hit. -/
def adjust_identifier_kind (t : Token) : Token :=
  match (keywordList.find? fun p => p.1 = t.content) with
  | some p => { t with kind := p.2 }
  | none => t

/-- `Token::kind_description`, used in diagnostic messages.  Keyword and
punctuator spellings are modelled from the spec's tables. -/
def kind_description (k : TokenKind) : String :=
  match k with
  | .End => "`EOF`"
  | .Identifier => "identifier"
  | .Integer => "integer"
  | .String => "string"
  | .KeywordArchitecture => "keyword `ARCHITECTURE`"
  | .KeywordCondition => "keyword `CONDITION`"
  | .KeywordTypes => "keyword `TYPES`"
  | .KeywordParameters => "keyword `PARAMETERS`"
  | .KeywordConstants => "keyword `CONSTANTS`"
  | .KeywordStringMap => "keyword `STRING_MAP`"
  | .KeywordRegisters => "keyword `REGISTERS`"
  | .KeywordTables => "keyword `TABLES`"
  | .KeywordOperation => "keyword `OPERATION`"
  | .KeywordProperties => "keyword `PROPERTIES`"
  | .KeywordPredicates => "keyword `PREDICATES`"
  | .KeywordFUnit => "keyword `FUNIT`"
  | .KeywordEncoding => "keyword `ENCODING`"
  | .PunctuatorLeftSquare => "`[`"
  | .PunctuatorRightSquare => "`]`"
  | .PunctuatorLeftParen => "`(`"
  | .PunctuatorRightParen => "`)`"
  | .PunctuatorLeftBrace => "`\x7b`"
  | .PunctuatorRightBrace => "`\x7d`"
  | .PunctuatorPlus => "`+`"
  | .PunctuatorMinus => "`-`"
  | .PunctuatorArrow => "`->`"
  | .PunctuatorStar => "`*`"
  | .PunctuatorSlash => "`/`"
  | .PunctuatorPercent => "`%`"
  | .PunctuatorTilde => "`~`"
  | .PunctuatorExclaim => "`!`"
  | .PunctuatorExclaimEqual => "`!=`"
  | .PunctuatorLess => "`<`"
  | .PunctuatorLessEqual => "`<=`"
  | .PunctuatorLessLess => "`<<`"
  | .PunctuatorGreater => "`>`"
  | .PunctuatorGreaterEqual => "`>=`"
  | .PunctuatorGreaterGreater => "`>>`"
  | .PunctuatorEqual => "`=`"
  | .PunctuatorEqualEqual => "`==`"
  | .PunctuatorAmp => "`&`"
  | .PunctuatorAmpAmp => "`&&`"
  | .PunctuatorPipe => "`|`"
  | .PunctuatorPipePipe => "`||`"
  | .PunctuatorDot => "`.`"
  | .PunctuatorDotDot => "`..`"
  | .PunctuatorQuestion => "`?`"
  | .PunctuatorColon => "`:`"
  | .PunctuatorSemi => "`;`"
  | .PunctuatorComma => "`,`"
  | .PunctuatorAt => "`@`"
  | .PunctuatorDollar => "`$`"
  | .PunctuatorBackTick => "l-quote"
  | _ => "unknown"

/-- `Token::merge`.  The C++ computes the merged content from the raw data
pointers of the two tokens into the shared source buffer; here a data
pointer is the token's begin offset into `source`. -/
def Token.merge (source : List Char) (t other : Token) (new_kind : TokenKind) : Token :=
  let location := min t.loc other.loc
  let beg := if t.loc < other.loc then t.loc else other.loc
  let size :=
    max (t.loc + t.content.length) (other.loc + other.content.length) - location
  { kind := new_kind, content := sliceAt source beg size, loc := location }

/-! ## The lexer -/

structure Lexer where
  source : List Char
  pos : Nat
  cur_token : Token
  deriving DecidableEq

/-- `Lexer::form_token`: a token of kind `k` spanning `[b, e)`. -/
def Lexer.form_token (lx : Lexer) (k : TokenKind) (b e : Nat) : Token :=
  { kind := k, content := sliceAt lx.source b (e - b), loc := b }

def quoteD : Char := Char.ofNat 34

def quoteS : Char := Char.ofNat 39

def newlineC : Char := Char.ofNat 10

def backTickC : Char := Char.ofNat 96

/-- `lex_string_literal`: starting just after the opening quote `q` at the
suffix `rest`, the number of characters of the token after the opening
quote (scan to the matching quote or a newline or end of input; a found
closing quote is consumed, a newline or end of input is not). -/
def lex_string_tail (q : Char) (rest : List Char) : Nat :=
  let k := spanWhile (fun ch => ch ≠ q && ch ≠ newlineC) rest
  match (rest.drop k).head? with
  | some ch => if ch = q then k + 1 else k
  | none => k

/-- Classification of the character `c` (with following characters `rest`)
into a token kind and the number of source characters consumed beyond `c`. -/
def classifyChar (c : Char) (rest : List Char) : TokenKind × Nat :=
  if isDigitC c then (.Integer, spanWhile isAlnumUnderC rest)
  else if isAlphaC c || c = '_' then (.Identifier, spanWhile isAlnumUnderC rest)
  else if c = quoteD || c = quoteS then (.String, lex_string_tail c rest)
  else if c = '[' then (.PunctuatorLeftSquare, 0)
  else if c = ']' then (.PunctuatorRightSquare, 0)
  else if c = '(' then (.PunctuatorLeftParen, 0)
  else if c = ')' then (.PunctuatorRightParen, 0)
  else if c.toNat = 123 then (.PunctuatorLeftBrace, 0)
  else if c.toNat = 125 then (.PunctuatorRightBrace, 0)
  else if c = '+' then (.PunctuatorPlus, 0)
  else if c = '-' then
    if rest.head? = some '>' then (.PunctuatorArrow, 1) else (.PunctuatorMinus, 0)
  else if c = '*' then (.PunctuatorStar, 0)
  else if c = '/' then (.PunctuatorSlash, 0)
  else if c = '%' then (.PunctuatorPercent, 0)
  else if c = '~' then (.PunctuatorTilde, 0)
  else if c = '!' then
    if rest.head? = some '=' then (.PunctuatorExclaimEqual, 1) else (.PunctuatorExclaim, 0)
  else if c = '<' then
    if rest.head? = some '=' then (.PunctuatorLessEqual, 1)
    else if rest.head? = some '<' then (.PunctuatorLessLess, 1)
    else (.PunctuatorLess, 0)
  else if c = '>' then
    if rest.head? = some '=' then (.PunctuatorGreaterEqual, 1)
    else if rest.head? = some '>' then (.PunctuatorGreaterGreater, 1)
    else (.PunctuatorGreater, 0)
  else if c = '=' then
    if rest.head? = some '=' then (.PunctuatorEqualEqual, 1) else (.PunctuatorEqual, 0)
  else if c = '&' then
    if rest.head? = some '&' then (.PunctuatorAmpAmp, 1) else (.PunctuatorAmp, 0)
  else if c = '|' then
    if rest.head? = some '|' then (.PunctuatorPipePipe, 1) else (.PunctuatorPipe, 0)
  else if c = '.' then (.PunctuatorDot, 0)
  else if c = '?' then (.PunctuatorQuestion, 0)
  else if c = ':' then (.PunctuatorColon, 0)
  else if c = ';' then (.PunctuatorSemi, 0)
  else if c = ',' then (.PunctuatorComma, 0)
  else if c = '@' then (.PunctuatorAt, 0)
  else if c = '$' then (.PunctuatorDollar, 0)
  else if c = backTickC then (.PunctuatorBackTick, 0)
  else (.Unknown, 0)

/-- `Lexer::next_token`: consume whitespace, classify the next character and
form the token, reclassifying identifiers that spell keywords. -/
def Lexer.next_token (lx : Lexer) : Lexer :=
  let ws := spanWhile isSpaceC (lx.source.drop lx.pos)
  let b := lx.pos + ws
  match (lx.source.drop b).head? with
  | none =>
      { lx with pos := b, cur_token := lx.form_token .End b b }
  | some c =>
      let rest := lx.source.drop (b + 1)
      let (k, extra) := classifyChar c rest
      let e := b + 1 + extra
      let tok := lx.form_token k b e
      let tok := if k = .Identifier then adjust_identifier_kind tok else tok
      { lx with pos := e, cur_token := tok }

/-- A fresh lexer over `source` (`Lexer::Lexer`); `cur_token` starts as a
default token exactly as the default-constructed C++ member. -/
def Lexer.init (source : List Char) : Lexer :=
  { source := source, pos := 0,
    cur_token := { kind := .Unknown, content := [], loc := 0 } }

/-- `Lexer::lex_until` with a state-carrying predicate (the C++ overload
takes an arbitrary callable, which some call sites use to accumulate merged
tokens).  Fuel-indexed; exhausted fuel returns like the end-of-input exit. -/
def Lexer.lex_until_fold {α : Type} (cond : α → Token → Bool × α) (consume : Bool)
    (lx : Lexer) (acc : α) : Nat → Bool × α × Lexer
  | 0 => (false, acc, lx)
  | fuel + 1 =>
      if lx.cur_token.is .End then (false, acc, lx)
      else
        let (stop, acc) := cond acc lx.cur_token
        if stop then
          if consume then (true, acc, lx.next_token) else (true, acc, lx)
        else
          Lexer.lex_until_fold cond consume lx.next_token acc fuel

/-- `Lexer::lex_until` on a fixed token kind. -/
def Lexer.lex_until_kind (k : TokenKind) (consume : Bool) (lx : Lexer) (fuel : Nat) :
    Bool × Lexer :=
  let r := Lexer.lex_until_fold (fun (_ : Unit) t => (t.is k, ())) consume lx () fuel
  (r.1, r.2.2)

/-! ## Diagnostics -/

inductive DiagLevel where
  | Error
  | Warning
  | Note
  | Help
  deriving DecidableEq

/-- A diagnostic: level, primary message, annotated byte ranges (begin, end,
label) of the primary source, and chained note entries, each with its own
message and annotated ranges. -/
structure Diag where
  level : DiagLevel
  message : String
  annotations : List (Nat × Nat × String)
  notes : List (DiagLevel × String × List (Nat × Nat × String))
  deriving DecidableEq

/-- `Parser::create_diag_at_token` on an explicit byte range: one primary
annotation carrying `label`, and one chained note when `note` is nonempty. -/
def create_diag_at_range (b e : Nat) (level : DiagLevel)
    (message label note : String) : Diag :=
  { level := level, message := message, annotations := [(b, e, label)],
    notes := if note = "" then [] else [(DiagLevel.Note, note, [])] }

/-- `Parser::create_diag_at_token` on a token. -/
def create_diag_at_token (t : Token) (level : DiagLevel)
    (message label note : String) : Diag :=
  create_diag_at_range t.location_begin t.location_end level message label note

/-! ## Parser state and shared helpers -/

/-- The state shared by all parsing routines: the lexer and the accumulated
diagnostics (`diagnostics_`).  The string pool of the C++ is a lifetime
workaround with no observable content and is not modelled. -/
structure PState where
  lx : Lexer
  diags : List Diag
  deriving DecidableEq

def PState.emit (st : PState) (d : Diag) : PState :=
  { st with diags := d :: st.diags }

def PState.next (st : PState) : PState :=
  { st with lx := st.lx.next_token }

def PState.cur (st : PState) : Token :=
  st.lx.cur_token

/-- `Parser::expect_token` (single kind): `true` and a diagnostic when the
token is **not** of kind `k`. -/
def expect_token (st : PState) (t : Token) (k : TokenKind) : Bool × PState :=
  if t.is_not k then
    (true,
     st.emit (create_diag_at_token t .Error "Unexpected token"
       ("expected " ++ kind_description k ++ ", but got " ++
         kind_description t.kind) ""))
  else
    (false, st)

/-- Modelled from the spec: the multi-kind `expect_token` overloads (their
definitions are not in the sources).  Per the header contract they return
whether the token is of none of the expected kinds, emitting one diagnostic
in that case. -/
def expect_token_many (st : PState) (t : Token) (ks : List TokenKind) :
    Bool × PState :=
  if ks.contains t.kind then
    (false, st)
  else
    (true,
     st.emit (create_diag_at_token t .Error "Unexpected token"
       ("expected one of the allowed kinds, but got " ++
         kind_description t.kind) ""))

def expect_current_token (st : PState) (k : TokenKind) : Bool × PState :=
  expect_token st st.cur k

def expect_next_token (st : PState) (k : TokenKind) : Bool × PState :=
  let st := st.next
  expect_token st st.cur k

def expect_current_token_many (st : PState) (ks : List TokenKind) : Bool × PState :=
  expect_token_many st st.cur ks

def expect_next_token_many (st : PState) (ks : List TokenKind) : Bool × PState :=
  let st := st.next
  expect_token_many st st.cur ks

/-- `Parser::get_string_literal`: strip the surrounding quotes, or diagnose
an invalid (unterminated) string literal. -/
def get_string_literal (st : PState) (t : Token) : Option (List Char) × PState :=
  if 1 < t.content.length && t.content.head? == t.content.getLast? then
    (some (t.content.drop 1).dropLast, st)
  else
    (none,
     st.emit (create_diag_at_token t .Error "Invalid string literal"
       "string literal must be enclosed in quotes" ""))

def expect_string_literal (st : PState) (t : Token) : Option (List Char) × PState :=
  let (failed, st) := expect_token st t .String
  if failed then (none, st) else get_string_literal st t

/-- Modelled from the spec: `get_identifier_or_string` (definition not in
the sources).  Per the header contract: an identifier yields its spelling,
otherwise the content of the string literal is extracted. -/
def get_identifier_or_string (st : PState) (t : Token) :
    Option (List Char) × PState :=
  if t.kind = .Identifier then (some t.content, st) else get_string_literal st t

/-- Modelled from the spec: `expect_identifier_or_string` (definition not in
the sources): check the kind is `Identifier` or `String` first. -/
def expect_identifier_or_string (st : PState) (t : Token) :
    Option (List Char) × PState :=
  let (failed, st) := expect_token_many st t [.Identifier, .String]
  if failed then (none, st) else get_identifier_or_string st t

/-! ## The integer literal evaluator (`IntegerParser`) -/

def U64 : Nat := 2 ^ 64

def U32 : Nat := 2 ^ 32

structure IntegerParser where
  content : List Char
  bits : Nat
  signedness : Bool
  cur_pos : Nat
  negative : Bool
  base : Nat
  deriving DecidableEq

/-- The note attached to a malformed-literal diagnostic: the annotated byte
range and the message (`IntegerParser::DiagMessage`). -/
structure DiagMessage where
  annotation_begin : Nat
  annotation_end : Nat
  message : String
  deriving DecidableEq

def IntegerParser.mk_init (t : Token) (bits : Nat) (signedness : Bool) :
    IntegerParser :=
  { content := t.content, bits := bits, signedness := signedness,
    cur_pos := t.loc, negative := false, base := 10 }

/-- `IntegerParser::parse_sign`: strip a leading sign, then any whitespace
introduced by token merging. -/
def IntegerParser.parse_sign (ip : IntegerParser) : IntegerParser :=
  let ip :=
    match ip.content.head? with
    | some c =>
        if c = '-' then
          { ip with content := ip.content.drop 1, cur_pos := ip.cur_pos + 1,
                    negative := true }
        else if c = '+' then
          { ip with content := ip.content.drop 1, cur_pos := ip.cur_pos + 1 }
        else ip
    | none => ip
  let w := spanWhile isSpaceC ip.content
  { ip with content := ip.content.drop w, cur_pos := ip.cur_pos + w }

/-- `IntegerParser::parse_base`: determine the base from the prefix. -/
def IntegerParser.parse_base (ip : IntegerParser) : IntegerParser :=
  if ip.content.head? = some '0' then
    let ip := { ip with content := ip.content.drop 1, cur_pos := ip.cur_pos + 1 }
    match ip.content.head? with
    | some c =>
        if c = 'b' || c = 'B' then
          { ip with content := ip.content.drop 1, cur_pos := ip.cur_pos + 1,
                    base := 2 }
        else if c = 'x' || c = 'X' then
          { ip with content := ip.content.drop 1, cur_pos := ip.cur_pos + 1,
                    base := 16 }
        else
          { ip with base := 8 }
    | none => ip
  else ip

def is_separator (c : Char) : Bool := c = '_'

def check_separator_go (cur_pos len : Nat) : List Char → Nat → Bool →
    Option DiagMessage
  | [], _, _ => none
  | c :: rest, i, prevSep =>
      if is_separator c then
        if i = 0 || i = len - 1 then
          some { annotation_begin := cur_pos + i, annotation_end := cur_pos + i + 1,
                 message := "because the digit separator cannot be here" }
        else if prevSep then
          some { annotation_begin := cur_pos + i - 1,
                 annotation_end := cur_pos + i + 1,
                 message := "because the digit separator cannot be used consecutively" }
        else
          check_separator_go cur_pos len rest (i + 1) true
      else
        check_separator_go cur_pos len rest (i + 1) false

/-- `IntegerParser::check_separator`: `_` may not appear first, last, or
next to another `_`. -/
def IntegerParser.check_separator (ip : IntegerParser) : Option DiagMessage :=
  check_separator_go ip.cur_pos ip.content.length ip.content 0 false

/-- The digit-validity test of `IntegerParser::check_digit`, character code
arithmetic exactly as in the source (`std::ranges::min` of the bounds). -/
def digit_invalid (base : Nat) (c : Char) : Bool :=
  let n := c.toNat
  (n < 48 || n > min 57 (48 + base)) &&
  (n < 97 || n > min 102 (97 + base - 10)) &&
  (n < 65 || n > min 70 (65 + base - 10))

def check_digit_go (cur_pos base : Nat) : List Char → Nat → Option DiagMessage
  | [], _ => none
  | c :: rest, i =>
      if is_separator c then check_digit_go cur_pos base rest (i + 1)
      else if digit_invalid base c then
        some { annotation_begin := cur_pos + i, annotation_end := cur_pos + i + 1,
               message := "because this is not a valid digit in base " ++
                 toString base }
      else check_digit_go cur_pos base rest (i + 1)

/-- `IntegerParser::check_digit`. -/
def IntegerParser.check_digit (ip : IntegerParser) : Option DiagMessage :=
  check_digit_go ip.cur_pos ip.base ip.content 0

/-- `IntegerParser::get_max_value`. -/
def IntegerParser.get_max_value (ip : IntegerParser) : Nat :=
  if ip.negative then 2 ^ (ip.bits - 1)
  else if ip.signedness then 2 ^ (ip.bits - 1) - 1
  else if ip.bits = 64 then U64 - 1
  else 2 ^ ip.bits - 1

/-- `IntegerParser::always_fits_into_64bits`. -/
def IntegerParser.always_fits_into_64bits (ip : IntegerParser) : Bool :=
  let digits := ip.content.length - ip.content.count '_'
  if ip.base = 2 then digits ≤ 64
  else if ip.base = 8 then digits ≤ 64 / 3
  else if ip.base = 10 then digits ≤ 19
  else if ip.base = 16 then digits ≤ 64 / 4
  else false

/-- `IntegerParser::digit_value` (unreachable branch mapped to 0). -/
def digit_value (c : Char) : Nat :=
  let n := c.toNat
  if 48 ≤ n && n ≤ 57 then n - 48
  else if 97 ≤ n && n ≤ 102 then n - 97 + 10
  else if 65 ≤ n && n ≤ 70 then n - 65 + 10
  else 0

/-- The unchecked accumulation loop (`uint64_t` arithmetic wraps). -/
def accum_fast (base : Nat) : Nat → List Char → Nat
  | r, [] => r
  | r, c :: rest =>
      if is_separator c then accum_fast base r rest
      else accum_fast base ((r * base + digit_value c) % U64) rest

/-- The overflow-checked accumulation loop: multiply, detect wrap by
dividing back; add, detect wrap by comparing against the addend. -/
def accum_checked (base : Nat) : Nat → List Char → Option Nat
  | r, [] => some r
  | r, c :: rest =>
      if is_separator c then accum_checked base r rest
      else
        let d := digit_value c
        let r1 := (r * base) % U64
        let ov1 := decide (r1 / base ≠ r)
        let r2 := (r1 + d) % U64
        if ov1 || decide (r2 < d) then none
        else accum_checked base r2 rest

/-- `IntegerParser::parse_integer`. -/
def IntegerParser.parse_integer (ip : IntegerParser) : Option Nat :=
  let max_value := ip.get_max_value
  let result :=
    if ip.always_fits_into_64bits then some (accum_fast ip.base 0 ip.content)
    else accum_checked ip.base 0 ip.content
  match result with
  | none => none
  | some r =>
      if r > max_value then none
      else if ip.negative then some ((U64 - r) % U64) else some r

/-- The note text of the overflow diagnostic (`the valid range is [lo, hi]`). -/
def valid_range_note (bits : Nat) (signedness : Bool) : String :=
  if signedness then
    "the valid range is [" ++ toString (-(2 ^ (bits - 1) : Int)) ++ ", " ++
      toString ((2 : Int) ^ (bits - 1) - 1) ++ "]"
  else
    "the valid range is [0, " ++
      toString (if bits = 64 then U64 - 1 else 2 ^ bits - 1) ++ "]"

/-- `Parser::get_integer_constant`: run the sign/base/separator/digit stages
and the accumulation, emitting the malformed-literal or overflow diagnostic
on failure. -/
def int_checks (ip : IntegerParser) : Option DiagMessage :=
  match ip.check_separator with
  | some n => some n
  | none => ip.check_digit

def get_integer_constant (st : PState) (t : Token) (bits : Nat)
    (signedness : Bool) : Option Nat × PState :=
  match int_checks (((IntegerParser.mk_init t bits signedness).parse_sign).parse_base) with
  | some note =>
      (none,
       st.emit { create_diag_at_token t .Error "Invalid integer constant" "" "" with
         notes := [(DiagLevel.Note, note.message,
           [(note.annotation_begin, note.annotation_end, "")])] })
  | none =>
      match (((IntegerParser.mk_init t bits signedness).parse_sign).parse_base).parse_integer with
      | some v => (some v, st)
      | none =>
          (none,
           st.emit { create_diag_at_token t .Error "Invalid integer constant" "" "" with
             notes := [(DiagLevel.Note, "because the integer constant overflows", []),
                       (DiagLevel.Note, valid_range_note bits signedness, [])] })

def expect_integer_constant (st : PState) (t : Token) (bits : Nat)
    (signedness : Bool) : Option Nat × PState :=
  let (failed, st) := expect_token st t .Integer
  if failed then (none, st) else get_integer_constant st t bits signedness

/-! ## Data model containers -/

/-- `std::unordered_map` keyed by strings, modelled as an association list;
`try_emplace` inserts only when the key is absent and reports whether it
inserted. -/
abbrev AssocMap (α : Type) := List (List Char × α)

def AssocMap.find? {α : Type} (m : AssocMap α) (k : List Char) : Option α :=
  (List.find? (fun p => p.1 = k) m).map (fun p => p.2)

def AssocMap.try_emplace {α : Type} (m : AssocMap α) (k : List Char) (v : α) :
    Bool × AssocMap α :=
  match m.find? k with
  | some _ => (false, m)
  | none => (true, m ++ [(k, v)])

/-- `Register`: a name/value pair. -/
structure Register where
  name : List Char
  value : Nat
  deriving DecidableEq

/-- `RegisterGroup`: the append-ordered register list of one category. -/
structure RegisterGroup where
  registers : List Register
  deriving DecidableEq

def RegisterGroup.empty : RegisterGroup := { registers := [] }

def RegisterGroup.append_register (g : RegisterGroup) (name : List Char)
    (value : Nat) : RegisterGroup :=
  { registers := g.registers ++ [{ name := name, value := value }] }

/-- The one-argument `append_register` overload: the value defaults to the
last register's value + 1 (32-bit wrapping), or 0 for an empty group. -/
def RegisterGroup.append_register_default (g : RegisterGroup) (name : List Char) :
    RegisterGroup :=
  g.append_register name
    (match g.registers.getLast? with
     | none => 0
     | some r => (r.value + 1) % U32)

def RegisterGroup.concat_with (g other : RegisterGroup) : RegisterGroup :=
  { registers := g.registers ++ other.registers }

/-- Case-insensitive string equality: `std::ranges::equal` with `tolower`
projections on both sides. -/
def ciEqual (a b : List Char) : Bool :=
  a.map toLowerC == b.map toLowerC

def find_from_back (name : List Char) : List Register → Option Nat
  | [] => none
  | r :: rest => if ciEqual r.name name then some r.value else find_from_back name rest

/-- `RegisterGroup::find`: scan from the most recently appended register
backward, comparing names case-insensitively. -/
def RegisterGroup.find (g : RegisterGroup) (name : List Char) : Option Nat :=
  find_from_back name g.registers.reverse

/-- `Table`: all keys and values flattened into one sequence, `key_size`
keys then one value per row. -/
structure Table where
  content : List Nat
  key_size : Nat
  deriving DecidableEq

def MATCH_ANY : Nat := U32 - 1

def Table.empty : Table := { content := [], key_size := 0 }

def Table.set_key_size (t : Table) (n : Nat) : Table := { t with key_size := n }

def Table.append_item (t : Table) (keys : List Nat) (value : Nat) : Table :=
  { t with content := t.content ++ keys ++ [value] }

/-- The element-wise key comparison of `Table::get_value`: a stored key
matches when it equals the queried key or is the wildcard. -/
def keysMatch : List Nat → List Nat → Bool
  | [], [] => true
  | k :: ks, q :: qs => (k == q || k == MATCH_ANY) && keysMatch ks qs
  | _, _ => false

def get_value_go (key_size : Nat) (keys : List Nat) : Nat → List Nat → Option Nat
  | _, [] => none
  | 0, _ :: _ => none
  | fuel + 1, c :: rest =>
      if keysMatch ((c :: rest).take key_size) keys then
        (c :: rest).drop key_size |>.head?
      else
        get_value_go key_size keys fuel (rest.drop key_size)

/-- `Table::get_value`: scan the rows in insertion order, returning the
value of the first matching row.  Each loop step consumes `key_size + 1 ≥ 1`
stored elements, so the content length bounds the iteration count. -/
def Table.get_value (t : Table) (keys : List Nat) : Option Nat :=
  get_value_go t.key_size keys t.content.length t.content

/-- `BitRange`: a contiguous run of set bits. -/
structure BitRange where
  start : Nat
  size : Nat
  deriving DecidableEq

abbrev BitMask := List BitRange

def bitmask_build_go (zero one : Char) : Nat → List Char → List BitRange
  | 0, _ => []
  | fuel + 1, l =>
      let l1 := l.dropWhile (fun c => c != one)
      if l1.isEmpty then []
      else
        let range_end := l1.length
        let l2 := l1.dropWhile (fun c => c != zero)
        let range_begin := l2.length
        { start := range_begin, size := range_end - range_begin } ::
          bitmask_build_go zero one fuel l2

/-- `BitMask::BitMask(str, zero, one)`: each iteration finds the next `one`
character, then the next `zero` character, and records the run between them;
`std::ranges::distance(iter, end)` is the length of the remaining suffix. -/
def BitMask.build (desc : List Char) (zero one : Char) : BitMask :=
  bitmask_build_go zero one (desc.length + 1) desc

/-- The single-argument `BitMask` constructor call in `parse_bitmask`:
`functional_unit.hpp` declares `BitMask(std::string_view str_description,
char zero = '.', char one = 'X')`, so the call uses `zero = '.'` and
`one = 'X'`. -/
def BitMask.ofString (desc : List Char) : BitMask :=
  BitMask.build desc '.' 'X'

/-- `ConditionType::Kind`. -/
inductive CTKind where
  | Error
  | Warning
  | Info
  deriving DecidableEq

structure ConditionType where
  kind : CTKind
  name : List Char
  deriving DecidableEq

def KIND_STR_MAP : List (List Char × CTKind) :=
  [("ERROR".toList, .Error), ("WARNING".toList, .Warning), ("INFO".toList, .Info)]

/-- `ConditionType::from_string`. -/
def ConditionType.from_string (kind name : List Char) : Option ConditionType :=
  match KIND_STR_MAP.find? (fun p => p.1 = kind) with
  | none => none
  | some p => some { kind := p.2, name := name }

structure ArchitectureDetail where
  name : List Char
  value : List Char
  deriving DecidableEq

structure Architecture where
  name : List Char
  details : List ArchitectureDetail
  deriving DecidableEq

def Architecture.init : Architecture := { name := [], details := [] }

/-- `FunctionalUnit` of `functional_unit.hpp`: name, encoding width and
uniquely named bitmasks; `add_bitmask` wraps `try_emplace` and reports
whether the name was fresh.  The defaulted constructor leaves the
`encoding_width_` member uninitialized, so `FunctionalUnit.init` takes the
cell's indeterminate initial contents as an explicit parameter `w0`. -/
structure FunctionalUnit where
  name : List Char
  encoding_width : Nat
  bitmasks : AssocMap BitMask
  deriving DecidableEq

def FunctionalUnit.init (w0 : Nat) : FunctionalUnit :=
  { name := [], encoding_width := w0, bitmasks := [] }

def FunctionalUnit.set_name (fu : FunctionalUnit) (n : List Char) : FunctionalUnit :=
  { fu with name := n }

def FunctionalUnit.set_encoding_width (fu : FunctionalUnit) (w : Nat) :
    FunctionalUnit :=
  { fu with encoding_width := w }

def FunctionalUnit.add_bitmask (fu : FunctionalUnit) (n : List Char)
    (mask : BitMask) : Bool × FunctionalUnit :=
  let (inserted, m) := fu.bitmasks.try_emplace n mask
  (inserted, { fu with bitmasks := m })

/-- The aggregate ISA model, field by field as in `isa.hpp`. -/
structure ISA where
  architecture : Architecture
  condition_types : List ConditionType
  parameters : AssocMap Nat
  constants : AssocMap Nat
  string_map : AssocMap (List Char)
  registers : AssocMap RegisterGroup
  tables : AssocMap Table
  operation_properties : List (List Char)
  operation_predicates : List (List Char)
  functional_unit : FunctionalUnit
  deriving DecidableEq

def ISA.init (w0 : Nat) : ISA :=
  { architecture := Architecture.init, condition_types := [], parameters := [],
    constants := [], string_map := [], registers := [], tables := [],
    operation_properties := [], operation_predicates := [],
    functional_unit := FunctionalUnit.init w0 }

/-! ## ISAParser: section routines -/

/-- `ISAParser::recover_until`: lex until a token of kind `k`; if end of
input is reached instead, diagnose it.  (The routine in the source returns
`std::nullopt` always; here it returns the updated state.) -/
def recover_until (st : PState) (k : TokenKind) (consume : Bool) (fuel : Nat) :
    PState :=
  let r := Lexer.lex_until_kind k consume st.lx fuel
  let st := { st with lx := r.2 }
  if r.1 then st
  else
    st.emit (create_diag_at_token st.cur .Error
      ("Expected `" ++ kind_description k ++ "`") "" "")

/-- The state after the top-level driver's recovery
`lexer_.lex_until(&Token::is_keyword, false)`. -/
def recover_to_keyword (st : PState) (fuel : Nat) : PState :=
  let r := Lexer.lex_until_fold (fun (_ : Unit) t => (t.is_keyword, ())) false
    st.lx () fuel
  { st with lx := r.2.2 }

def parse_architecture_go (res : Architecture) (has_errors : Bool) (st : PState) :
    Nat → Option Architecture × PState
  | 0 => (if has_errors then none else some res, st)
  | fuel + 1 =>
      if st.next.cur.kind = .Identifier then
        if st.next.next.cur.kind = .PunctuatorSemi then
          parse_architecture_go res true
            (st.next.next.emit (create_diag_at_token st.next.next.cur .Error
              "Expected content" "missing value for architecture item" "")) fuel
        else
          match Lexer.lex_until_fold
              (fun (acc : Token) (tok : Token) =>
                if tok.is .PunctuatorSemi then (true, acc)
                else (false, Token.merge st.next.next.lx.source acc tok .String))
              false st.next.next.lx st.next.next.cur fuel with
          | (true, item_value, lx2) =>
              parse_architecture_go
                { res with details := res.details ++
                    [{ name := st.next.cur.content,
                       value := item_value.content }] }
                has_errors { st.next.next with lx := lx2 } fuel
          | (false, item_value, lx2) =>
              parse_architecture_go res true
                ({ st.next.next with lx := lx2 }.emit
                  (create_diag_at_token item_value .Error "Expected `;`" "" ""))
                fuel
      else
        (if has_errors then none else some res, st.next)

/-- `ISAParser::parse_architecture`. -/
def parse_architecture (st : PState) (fuel : Nat) : Option Architecture × PState :=
  match expect_string_literal st.next st.next.cur with
  | (some n, st2) =>
      parse_architecture_go { Architecture.init with name := n } false st2 fuel
  | (none, st2) => parse_architecture_go Architecture.init true st2 fuel

def parse_condition_types_go (results : List ConditionType) (has_errors : Bool)
    (st : PState) : Nat → Option (List ConditionType) × PState
  | 0 => (if has_errors then none else some results, st)
  | fuel + 1 =>
      if st.next.cur.kind = .Identifier then
        match expect_next_token st.next .PunctuatorColon with
        | (true, st1) => (none, st1)
        | (false, st1) =>
            match expect_next_token st1 .Identifier with
            | (true, st2) => (none, st2)
            | (false, st2) =>
                match ConditionType.from_string st2.cur.content
                    st.next.cur.content with
                | some ct =>
                    parse_condition_types_go (results ++ [ct]) has_errors st2 fuel
                | none =>
                    parse_condition_types_go results true
                      (st2.emit (create_diag_at_token st2.cur .Error
                        "Invalid kind of condition type" ""
                        "Valid kinds are: `ERROR`, `WARNING`, `INFO`")) fuel
      else
        (if has_errors then none else some results, st.next)

/-- `ISAParser::parse_condition_types`. -/
def parse_condition_types (st : PState) (fuel : Nat) :
    Option (List ConditionType) × PState :=
  parse_condition_types_go [] false st fuel

def parse_constant_map_go (m : AssocMap Nat) (has_errors : Bool) (st : PState) :
    Nat → Option (AssocMap Nat) × PState
  | 0 => (if has_errors then none else some m, st)
  | fuel + 1 =>
      if (st.next).cur.kind = .Identifier then
        match expect_next_token st.next .PunctuatorEqual with
        | (true, st1) => parse_constant_map_go m true st1 fuel
        | (false, st1) =>
            match expect_integer_constant st1.next st1.next.cur 32 true with
            | (some c, st3) =>
                match m.try_emplace (st.next).cur.content (c % U32) with
                | (true, m2) => parse_constant_map_go m2 has_errors st3 fuel
                | (false, _) =>
                    parse_constant_map_go m true
                      (st3.emit (create_diag_at_token (st.next).cur .Error
                        "Duplicate constant name" "" "")) fuel
            | (none, st3) => parse_constant_map_go m true st3 fuel
      else
        (if has_errors then none else some m, st.next)

/-- `ISAParser::parse_constant_map`: the shared body of `PARAMETERS` and
`CONSTANTS`.  The stored `int` value is the low 32 bits of the sign-extended
parse result. -/
def parse_constant_map (st : PState) (fuel : Nat) : Option (AssocMap Nat) × PState :=
  parse_constant_map_go [] false st fuel

def parse_parameters (st : PState) (fuel : Nat) : Option (AssocMap Nat) × PState :=
  parse_constant_map st fuel

def parse_constants (st : PState) (fuel : Nat) : Option (AssocMap Nat) × PState :=
  parse_constant_map st fuel

def parse_string_map_go (m : AssocMap (List Char)) (has_errors : Bool)
    (st : PState) : Nat → Option (AssocMap (List Char)) × PState
  | 0 => (if has_errors then none else some m, st)
  | fuel + 1 =>
      if st.next.cur.kind = .Identifier then
        match expect_next_token st.next .PunctuatorArrow with
        | (true, st1) => parse_string_map_go m true st1 fuel
        | (false, st1) =>
            match expect_next_token st1 .Identifier with
            | (true, st2) => parse_string_map_go m true st2 fuel
            | (false, st2) =>
                match m.try_emplace st.next.cur.content st2.cur.content with
                | (true, m2) => parse_string_map_go m2 has_errors st2 fuel
                | (false, _) =>
                    parse_string_map_go m true
                      (st2.emit (create_diag_at_token st.next.cur .Error
                        "Duplicate string map item" "" "")) fuel
      else
        (if has_errors then none else some m, st.next)

/-- `ISAParser::parse_string_map`. -/
def parse_string_map (st : PState) (fuel : Nat) :
    Option (AssocMap (List Char)) × PState :=
  parse_string_map_go [] false st fuel

def parse_register_category_concatenation_go (register_table : AssocMap RegisterGroup)
    (result : RegisterGroup) (st : PState) : Nat → Option RegisterGroup × PState
  | 0 => (some result, st)
  | fuel + 1 =>
      match expect_next_token st .Identifier with
      | (true, st1) => (none, st1)
      | (false, st1) =>
          match register_table.find? st1.cur.content with
          | some grp =>
              if st1.next.cur.kind = .PunctuatorPlus then
                parse_register_category_concatenation_go register_table
                  (result.concat_with grp) st1.next fuel
              else (some (result.concat_with grp), st1.next)
          | none =>
              (none, st1.emit (create_diag_at_token st1.cur .Error
                "Unknown register category" "" ""))

/-- `ISAParser::parse_register_category_concatenation`. -/
def parse_register_category_concatenation (register_table : AssocMap RegisterGroup)
    (st : PState) (fuel : Nat) : Option RegisterGroup × PState :=
  parse_register_category_concatenation_go register_table RegisterGroup.empty st fuel

/-- `ISAParser::RangeExpr`: a byte range plus the inclusive value range
`lo..hi` (the iota view `[lo, hi+1)`). -/
structure RangeExpr where
  loc_begin : Nat
  loc_end : Nat
  lo : Nat
  hi : Nat
  deriving DecidableEq

def RangeExpr.size (r : RangeExpr) : Nat := r.hi + 1 - r.lo

def RangeExpr.isEmpty (r : RangeExpr) : Bool := r.size = 0

/-- `RangeExpr::empty_range()`: the range `(1, 0)`. -/
def empty_range : RangeExpr := { loc_begin := 0, loc_end := 0, lo := 1, hi := 0 }

/-- `ISAParser::parse_range_expr`. -/
def parse_range_expr (st : PState) : Option RangeExpr × PState :=
  match expect_integer_constant st.next st.next.cur 32 false with
  | (none, st2) => (none, st2)
  | (some bval, st2) =>
      match expect_next_token st2 .PunctuatorDotDot with
      | (true, st3) => (none, st3)
      | (false, st3) =>
          match expect_integer_constant st3.next st3.next.cur 32 false with
          | (none, st5) => (none, st5)
          | (some eval_, st5) =>
              match expect_next_token st5 .PunctuatorRightParen with
              | (true, st6) => (none, st6)
              | (false, st6) =>
                  if bval > eval_ then
                    (none, st6.next.emit (create_diag_at_range
                      st.cur.location_begin st6.cur.location_end .Error
                      "The start of the range is greater than the end" "" ""))
                  else
                    (some { loc_begin := st.cur.location_begin,
                            loc_end := st6.cur.location_end,
                            lo := bval, hi := eval_ }, st6.next)

/-- `ISAParser::RegisterName`: the byte range, the name prefix and the
optional associated range (the empty range when absent). -/
structure RegisterName where
  loc_begin : Nat
  loc_end : Nat
  name_prefix : List Char
  range : RangeExpr
  deriving DecidableEq

def RegisterName.has_associated_range (rn : RegisterName) : Bool :=
  !rn.range.isEmpty

def RegisterName.name_count (rn : RegisterName) : Nat :=
  if rn.has_associated_range then rn.range.size else 1

/-- `ISAParser::parse_register_name`. -/
def parse_register_name (st : PState) : Option RegisterName × PState :=
  match get_identifier_or_string st st.cur with
  | (none, st1) => (none, st1)
  | (some nm, st1) =>
      match st1.next.cur.kind with
      | .PunctuatorLeftParen =>
          match parse_range_expr st1.next with
          | (none, st3) => (none, st3)
          | (some r, st3) =>
              (some { loc_begin := st.cur.location_begin, loc_end := r.loc_end,
                      name_prefix := nm, range := r }, st3)
      | .PunctuatorStar =>
          (some { loc_begin := st.cur.location_begin,
                  loc_end := st1.next.next.cur.location_end,
                  name_prefix := nm, range := empty_range }, st1.next.next)
      | _ =>
          (some { loc_begin := st.cur.location_begin,
                  loc_end := st1.next.cur.location_end,
                  name_prefix := nm, range := empty_range }, st1.next)

/-- `ISAParser::parse_register_value`. -/
def parse_register_value (st : PState) : Option RangeExpr × PState :=
  match expect_current_token_many st [.PunctuatorLeftParen, .Integer] with
  | (true, st1) => (none, st1)
  | (false, st1) =>
      if st1.cur.kind = .PunctuatorLeftParen then parse_range_expr st1
      else
        match expect_integer_constant st1 st1.cur 32 false with
        | (some v, st2) =>
            (some { loc_begin := st1.cur.location_begin,
                    loc_end := st1.cur.location_end, lo := v, hi := v }, st2.next)
        | (none, st2) => (none, st2)

/-- The explicit-value loop of `parse_register_list`: register `i` is named
`prefix` ++ decimal of `idx + i` with value `val + i`. -/
def append_indexed (g : RegisterGroup) (pfx : List Char) (idx val : Nat) :
    Nat → RegisterGroup
  | 0 => g
  | n + 1 =>
      append_indexed (g.append_register (pfx ++ (toString idx).toList) val)
        pfx (idx + 1) (val + 1) n

/-- The defaulted-value loop of `parse_register_list`. -/
def append_auto_indexed (g : RegisterGroup) (pfx : List Char) (idx : Nat) :
    Nat → RegisterGroup
  | 0 => g
  | n + 1 =>
      append_auto_indexed (g.append_register_default (pfx ++ (toString idx).toList))
        pfx (idx + 1) n

/-- The name/value count mismatch diagnostic of `parse_register_list`. -/
def mismatch_diag (names : RegisterName) (values : RangeExpr)
    (name_count value_count : Nat) : Diag :=
  { level := .Error,
    message := "The number of register names and initial values do not match",
    annotations :=
      [(names.loc_begin, names.loc_end,
        toString name_count ++ " name" ++ (if name_count > 1 then "s" else "")),
       (values.loc_begin, values.loc_end,
        toString value_count ++ " value" ++ (if value_count > 1 then "s" else ""))],
    notes := [] }

def parse_register_list_go (result : RegisterGroup) (st : PState) :
    Nat → Option RegisterGroup × PState
  | 0 => (some result, st)
  | fuel + 1 =>
      match parse_register_name st with
      | (none, st1) => (none, st1)
      | (some names, st1) =>
          if st1.cur.kind = .PunctuatorEqual then
            match parse_register_value st1.next with
            | (none, st3) => (none, st3)
            | (some values, st3) =>
                if names.name_count ≠ values.size then
                  (none, st3.emit (mismatch_diag names values names.name_count
                    values.size))
                else
                  if st3.cur.kind = .PunctuatorComma then
                    parse_register_list_go
                      (if names.has_associated_range then
                        append_indexed result names.name_prefix names.range.lo
                          values.lo names.name_count
                      else result.append_register names.name_prefix values.lo)
                      st3.next fuel
                  else
                    (some (if names.has_associated_range then
                        append_indexed result names.name_prefix names.range.lo
                          values.lo names.name_count
                      else result.append_register names.name_prefix values.lo),
                     st3)
          else
            if st1.cur.kind = .PunctuatorComma then
              parse_register_list_go
                (if names.has_associated_range then
                  append_auto_indexed result names.name_prefix names.range.lo
                    names.range.size
                else result.append_register_default names.name_prefix)
                st1.next fuel
            else
              (some (if names.has_associated_range then
                  append_auto_indexed result names.name_prefix names.range.lo
                    names.range.size
                else result.append_register_default names.name_prefix), st1)

/-- `ISAParser::parse_register_list`. -/
def parse_register_list (st : PState) (fuel : Nat) : Option RegisterGroup × PState :=
  parse_register_list_go RegisterGroup.empty st fuel

/-- `ISAParser::parse_register_category`. -/
def parse_register_category (register_table : AssocMap RegisterGroup)
    (st : PState) (fuel : Nat) : Option RegisterGroup × PState :=
  match expect_next_token_many st [.Identifier, .PunctuatorEqual, .String] with
  | (true, st1) => (none, st1)
  | (false, st1) =>
      if st1.cur.kind = .PunctuatorEqual then
        parse_register_category_concatenation register_table st1 fuel
      else
        parse_register_list st1 fuel

def parse_registers_go (result : AssocMap RegisterGroup) (has_errors : Bool)
    (st : PState) : Nat → Option (AssocMap RegisterGroup) × PState
  | 0 => (if has_errors then none else some result, st)
  | fuel + 1 =>
      if st.next.cur.kind = .Identifier then
        match parse_register_category result st.next fuel with
        | (some grp, st1) =>
            match result.try_emplace st.next.cur.content grp with
            | (true, result2) =>
                match expect_current_token st1 .PunctuatorSemi with
                | (false, st3) => parse_registers_go result2 has_errors st3 fuel
                | (true, st3) =>
                    parse_registers_go result2 true
                      (recover_until st3 .PunctuatorSemi false fuel) fuel
            | (false, result2) =>
                match expect_current_token
                    (st1.emit (create_diag_at_token st.next.cur .Error
                      "Duplicate register category name" "" "")) .PunctuatorSemi with
                | (false, st3) => parse_registers_go result2 true st3 fuel
                | (true, st3) =>
                    parse_registers_go result2 true
                      (recover_until st3 .PunctuatorSemi false fuel) fuel
        | (none, st1) =>
            parse_registers_go result true
              (recover_until st1 .PunctuatorSemi false fuel) fuel
      else
        (if has_errors then none else some result, st.next)

/-- `ISAParser::parse_registers`. -/
def parse_registers (st : PState) (fuel : Nat) :
    Option (AssocMap RegisterGroup) × PState :=
  parse_registers_go [] false st fuel

/-- The `Identifier`/`String` arm of `resolve_table_element`: cases like
`Predicate@P0` or a bare single-character element. -/
def resolve_category_element (register_table : AssocMap RegisterGroup)
    (st : PState) : Option Nat × PState :=
  match get_identifier_or_string st st.cur with
  | (none, st1) => (none, st1)
  | (some cat, st1) =>
      if st1.next.cur.kind = .PunctuatorAt then
        match expect_identifier_or_string st1.next.next st1.next.next.cur with
        | (none, st4) => (none, st4)
        | (some nm, st4) =>
            match register_table.find? cat with
            | some grp =>
                match grp.find nm with
                | some v => (some v, st4)
                | none =>
                    (none, st4.emit (create_diag_at_token st4.cur .Error
                      "Unknown register name" "" ""))
            | none =>
                (none, st4.emit (create_diag_at_token st.cur
                  .Error "Unknown register category" "" ""))
      else
        match cat with
        | [c] => (some c.toNat, st1.next)
        | _ =>
            (none, st1.next.emit (create_diag_at_token st.cur
              .Error "Invalid table element" "" ""))

/-- The body of `ISAParser::resolve_table_element` inside the scope of
`ConsumeTokenRAII`, i.e. without the guard's final advance. -/
def resolve_table_element_core (register_table : AssocMap RegisterGroup)
    (st : PState) : Option Nat × PState :=
  match st.cur.kind with
  | .Integer => expect_integer_constant st st.cur 32 false
  | .Identifier | .String => resolve_category_element register_table st
  | .PunctuatorMinus => (some MATCH_ANY, st)
  | _ => (none, st)

/-- `ISAParser::resolve_table_element`: the initial kind check, then the
body under a scope guard that advances the lexer once on exit. -/
def resolve_table_element (register_table : AssocMap RegisterGroup)
    (st : PState) : Option Nat × PState :=
  let (f, st1) := expect_current_token_many st
    [.Integer, .Identifier, .String, .PunctuatorMinus]
  if f then (none, st1)
  else
    let (r, st2) := resolve_table_element_core register_table st1
    (r, st2.next)

/-- The key-collection loop of `parse_single_table` (up to the `->`),
returning the keys and their byte ranges. -/
def collect_keys_go (register_table : AssocMap RegisterGroup)
    (keys : List Nat) (key_ranges : List (Nat × Nat)) (st : PState) :
    Nat → Option (List Nat × List (Nat × Nat)) × PState
  | 0 => (some (keys, key_ranges), st)
  | fuel + 1 =>
      if st.cur.kind ≠ .PunctuatorArrow then
        match resolve_table_element register_table st with
        | (some k, st1) =>
            collect_keys_go register_table (keys ++ [k])
              (key_ranges ++ [(st.cur.location_begin, st.cur.location_end)]) st1
              fuel
        | (none, st1) => (none, st1)
      else (some (keys, key_ranges), st)

/-- The key-count mismatch diagnostic of `parse_single_table`. -/
def key_count_diag (key_size : Nat) (keys : List Nat)
    (key_ranges : List (Nat × Nat)) : Diag :=
  let message :=
    "The table expects " ++ toString key_size ++ " key" ++
      (if key_size > 1 then "s" else "") ++ ", but " ++
      toString keys.length ++ " " ++
      (if keys.length > 1 then "are" else "is") ++ " provided."
  let last := key_ranges.getLastD (0, 0)
  let annotations :=
    if key_size < keys.length then
      (((key_ranges.take (key_ranges.length - 1)).drop key_size).map
        (fun r => (r.1, r.2, ""))) ++ [(last.1, last.2, "unexpected keys")]
    else
      [(last.2, last.2,
        "missing " ++ toString (key_size - keys.length) ++ " key" ++
          (if key_size - keys.length > 1 then "s" else ""))]
  { level := .Error, message := message, annotations := annotations, notes := [] }

def parse_single_table_go (register_table : AssocMap RegisterGroup)
    (result : Table) (st : PState) : Nat → Option Table × PState
  | 0 => (some result, st)
  | fuel + 1 =>
      if st.cur.kind ≠ .PunctuatorSemi then
        match collect_keys_go register_table [] [] st fuel with
        | (none, st1) => (none, recover_until st1 .PunctuatorSemi false fuel)
        | (some (keys, key_ranges), st1) =>
            if result.key_size = 0 then
              match resolve_table_element register_table st1.next with
              | (some v, st3) =>
                  parse_single_table_go register_table
                    ((result.set_key_size keys.length).append_item keys v) st3 fuel
              | (none, st3) => (none, recover_until st3 .PunctuatorSemi false fuel)
            else if result.key_size ≠ keys.length then
              (none, recover_until
                (st1.emit (key_count_diag result.key_size keys key_ranges))
                .PunctuatorSemi false fuel)
            else
              match resolve_table_element register_table st1.next with
              | (some v, st3) =>
                  parse_single_table_go register_table (result.append_item keys v)
                    st3 fuel
              | (none, st3) => (none, recover_until st3 .PunctuatorSemi false fuel)
      else (some result, st)

/-- `ISAParser::parse_single_table`. -/
def parse_single_table (register_table : AssocMap RegisterGroup) (st : PState)
    (fuel : Nat) : Option Table × PState :=
  parse_single_table_go register_table Table.empty st fuel

def parse_tables_go (register_table : AssocMap RegisterGroup)
    (result : AssocMap Table) (has_errors : Bool) (st : PState) :
    Nat → Option (AssocMap Table) × PState
  | 0 => (if has_errors then none else some result, st)
  | fuel + 1 =>
      if st.next.cur.kind = .Identifier then
        match parse_single_table register_table st.next.next fuel with
        | (some tbl, st2) =>
            match result.try_emplace st.next.cur.content tbl with
            | (true, result2) =>
                parse_tables_go register_table result2 has_errors st2 fuel
            | (false, result2) =>
                parse_tables_go register_table result2 true
                  (st2.emit (create_diag_at_token st.next.cur .Error
                    "Duplicate table name" "" "")) fuel
        | (none, st2) => parse_tables_go register_table result true st2 fuel
      else (if has_errors then none else some result, st.next)

/-- `ISAParser::parse_tables`. -/
def parse_tables (register_table : AssocMap RegisterGroup) (st : PState)
    (fuel : Nat) : Option (AssocMap Table) × PState :=
  parse_tables_go register_table [] false st fuel

def parse_identifier_list_go (result : List (List Char)) (st : PState) :
    Nat → Option (List (List Char)) × PState
  | 0 => (some result, st)
  | fuel + 1 =>
      let (f, st1) := expect_current_token_many st [.Identifier, .PunctuatorSemi]
      if f then (none, recover_until st1 .PunctuatorSemi true fuel)
      else
        let result := result ++ [st1.cur.content]
        let st2 := st1.next
        if st2.cur.kind ≠ .PunctuatorSemi then
          parse_identifier_list_go result st2 fuel
        else (some result, st2.next)

/-- `ISAParser::parse_identifier_list`. -/
def parse_identifier_list (st : PState) (fuel : Nat) :
    Option (List (List Char)) × PState :=
  parse_identifier_list_go [] st fuel

/-- `ISAParser::parse_operation_properties`. -/
def parse_operation_properties (st : PState) (fuel : Nat) :
    Option (List (List Char)) × PState :=
  parse_identifier_list st.next fuel

/-- `ISAParser::parse_operation_predicates`. -/
def parse_operation_predicates (st : PState) (fuel : Nat) :
    Option (List (List Char)) × PState :=
  parse_identifier_list st.next fuel

/-- `ISAParser::parse_encoding_width`. -/
def parse_encoding_width (st : PState) (fuel : Nat) : Option Nat × PState :=
  let (v?, st1) := expect_integer_constant st st.cur 32 false
  match v? with
  | some v =>
      if v = 0 || v > 128 then
        let st2 := st1.emit (create_diag_at_token st1.cur .Error
          "Invalid encoding width" "" "")
        (none, recover_until st2 .PunctuatorSemi false fuel)
      else
        let (f, st2) := expect_next_token st1 .PunctuatorSemi
        if !f then (some v, st2)
        else (none, recover_until st2 .PunctuatorSemi false fuel)
  | none => (none, recover_until st1 .PunctuatorSemi false fuel)

/-- `ISAParser::parse_bitmask`. -/
def parse_bitmask (encoding_width : Nat) (st : PState) : Option BitMask × PState :=
  let bitmask_token := st.cur
  let (s?, st1) := get_string_literal st bitmask_token
  match s? with
  | none => (none, st1)
  | some s =>
      if s.length ≠ encoding_width then
        (none, st1.emit (create_diag_at_token bitmask_token .Error
          ("The bitmask must be " ++ toString encoding_width ++
            " bits long, but got " ++ toString s.length ++ " bits") "" ""))
      else
        match s.find? (fun ch => ch ≠ '.' && ch ≠ 'X') with
        | some bad =>
            let idx := (s.takeWhile (fun ch => !(ch ≠ '.' && ch ≠ 'X'))).length
            let char_pos := bitmask_token.location_begin + 1 + idx
            (none, st1.emit
              { level := .Error,
                message := "Invalid character `" ++ toString bad ++ "` in bitmask",
                annotations := [(char_pos, char_pos + 1, "")],
                notes := [(.Note, "Only `X` and `.` are allowed", [])] })
        | none => (some (BitMask.ofString s), st1)

def parse_functional_unit_go (result : FunctionalUnit) (has_errors : Bool)
    (st : PState) : Nat → Option FunctionalUnit × PState
  | 0 => (if has_errors then none else some result, st)
  | fuel + 1 =>
      if st.next.cur.kind = .Identifier || st.next.cur.kind = .KeywordEncoding then
        match Lexer.lex_until_fold
            (fun (acc : Token) (tok : Token) =>
              if tok.is .Identifier then
                (false, Token.merge st.next.next.lx.source acc tok .Identifier)
              else (true, acc))
            false st.next.next.lx st.next.cur fuel with
        | (_, item_name, lx2) =>
            if item_name.content = "ENCODING WIDTH".toList then
              match parse_encoding_width { lx := lx2, diags := st.next.next.diags } fuel with
              | (some w, st3) =>
                  parse_functional_unit_go (result.set_encoding_width w)
                    has_errors st3 fuel
              | (none, st3) => parse_functional_unit_go result true st3 fuel
            else
              if ({ lx := lx2, diags := st.next.next.diags } : PState).cur.kind = .String then
                match parse_bitmask result.encoding_width
                    { lx := lx2, diags := st.next.next.diags } with
                | (some bm, st3) =>
                    match result.add_bitmask item_name.content bm with
                    | (true, result2) =>
                        parse_functional_unit_go result2 has_errors st3 fuel
                    | (false, result2) =>
                        parse_functional_unit_go result2 true
                          (st3.emit (create_diag_at_token item_name .Error
                            "Duplicate bitmask name" "" "")) fuel
                | (none, st3) => parse_functional_unit_go result true st3 fuel
              else
                parse_functional_unit_go result has_errors
                  (recover_until { lx := lx2, diags := st.next.next.diags }
                    .PunctuatorSemi false fuel) fuel
      else (if has_errors then none else some result, st.next)

/-- `ISAParser::parse_functional_unit`; `w0` is the indeterminate initial
contents of the local result's uninitialized `encoding_width_` member. -/
def parse_functional_unit (w0 : Nat) (st : PState) (fuel : Nat) :
    Option FunctionalUnit × PState :=
  match expect_next_token st .Identifier with
  | (true, st1) =>
      parse_functional_unit_go (FunctionalUnit.init w0) true st1 fuel
  | (false, st1) =>
      parse_functional_unit_go ((FunctionalUnit.init w0).set_name st1.cur.content)
        false st1 fuel

/-! ## ISAParser: top-level driver -/

def parse_go (w0 : Nat) (result : ISA) (has_errors : Bool) (st : PState) :
    Nat → Option ISA × PState
  | 0 => (if has_errors then none else some result, st)
  | fuel + 1 =>
      if st.cur.kind ≠ .End then
        if !st.cur.is_keyword then
          (none, st.emit (create_diag_at_token st.cur .Error "Unexpected token"
            ("expected a keyword, but got `" ++ kind_description st.cur.kind ++
              "`") ""))
        else
          match st.cur.kind with
          | .KeywordArchitecture =>
              match parse_architecture st fuel with
              | (some a, st1) =>
                  parse_go w0 { result with architecture := a } has_errors st1 fuel
              | (none, st1) =>
                  parse_go w0 result true (recover_to_keyword st1 fuel) fuel
          | .KeywordParameters =>
              match parse_parameters st fuel with
              | (some a, st1) =>
                  parse_go w0 { result with parameters := a } has_errors st1 fuel
              | (none, st1) =>
                  parse_go w0 result true (recover_to_keyword st1 fuel) fuel
          | .KeywordConstants =>
              match parse_constants st fuel with
              | (some a, st1) =>
                  parse_go w0 { result with constants := a } has_errors st1 fuel
              | (none, st1) =>
                  parse_go w0 result true (recover_to_keyword st1 fuel) fuel
          | .KeywordStringMap =>
              match parse_string_map st fuel with
              | (some a, st1) =>
                  parse_go w0 { result with string_map := a } has_errors st1 fuel
              | (none, st1) =>
                  parse_go w0 result true (recover_to_keyword st1 fuel) fuel
          | .KeywordRegisters =>
              match parse_registers st fuel with
              | (some a, st1) =>
                  parse_go w0 { result with registers := a } has_errors st1 fuel
              | (none, st1) =>
                  parse_go w0 result true (recover_to_keyword st1 fuel) fuel
          | .KeywordFUnit =>
              match parse_functional_unit w0 st fuel with
              | (some a, st1) =>
                  parse_go w0 { result with functional_unit := a } has_errors st1 fuel
              | (none, st1) =>
                  parse_go w0 result true (recover_to_keyword st1 fuel) fuel
          | .KeywordCondition =>
              match expect_next_token st .KeywordTypes with
              | (false, st1) =>
                  match parse_condition_types st1 fuel with
                  | (some a, st2) =>
                      parse_go w0 { result with condition_types := a } has_errors
                        st2 fuel
                  | (none, st2) =>
                      parse_go w0 result true (recover_to_keyword st2 fuel) fuel
              | (true, st1) =>
                  parse_go w0 result true (recover_to_keyword st1 fuel) fuel
          | .KeywordTables =>
              match parse_tables result.registers st fuel with
              | (some a, st1) =>
                  parse_go w0 { result with tables := a } has_errors st1 fuel
              | (none, st1) =>
                  parse_go w0 result true (recover_to_keyword st1 fuel) fuel
          | .KeywordOperation =>
              match expect_next_token_many st
                  [.KeywordProperties, .KeywordPredicates] with
              | (false, st1) =>
                  if st1.cur.kind = .KeywordProperties then
                    match parse_operation_properties st1 fuel with
                    | (some a, st2) =>
                        parse_go w0 { result with operation_properties := a }
                          has_errors st2 fuel
                    | (none, st2) =>
                        parse_go w0 result true (recover_to_keyword st2 fuel) fuel
                  else
                    match parse_operation_predicates st1 fuel with
                    | (some a, st2) =>
                        parse_go w0 { result with operation_predicates := a }
                          has_errors st2 fuel
                    | (none, st2) =>
                        parse_go w0 result true (recover_to_keyword st2 fuel) fuel
              | (true, st1) =>
                  parse_go w0 result true (recover_to_keyword st1 fuel) fuel
          | _ => (if has_errors then none else some result, st)
      else (if has_errors then none else some result, st)

/-- `ISAParser::parse` with explicit fuel, starting from a fresh parser over
`source` (empty diagnostics, first token produced). -/
def ISAParser.parse (w0 : Nat) (source : List Char) (fuel : Nat) :
    Option ISA × PState :=
  let st0 : PState := { lx := (Lexer.init source).next_token, diags := [] }
  parse_go w0 (ISA.init w0) false st0 fuel

/-- The top-level entry point, with fuel amply larger than any number of
loop iterations an input of this size can drive. -/
def parseISA (w0 : Nat) (source : List Char) : Option ISA × PState :=
  ISAParser.parse w0 source (2 * source.length + 64)

/-! ## Claim-side specification definitions

These definitions follow the wording of the spec sentences under scrutiny;
the theorems below compare them with the embedded code. -/

/-- A row of a decision table as the spec describes it: a key list and a
value. -/
abbrev TableRow := List Nat × Nat

/-- Spec wording: a row matches when every stored key equals the
corresponding query key or is the wildcard `MATCH_ANY`. -/
def spec_row_match (ks qs : List Nat) : Bool :=
  ks.length == qs.length &&
    (List.zip ks qs).all (fun p => p.1 == p.2 || p.1 == MATCH_ANY)

/-- Spec wording: scan rows in insertion order and return the value of the
first matching row; absent when none matches. -/
def spec_first_match (rows : List TableRow) (q : List Nat) : Option Nat :=
  (rows.find? (fun row => spec_row_match row.1 q)).map (fun row => row.2)

/-- A `Table` built by fixing the key size and appending the rows in order,
exactly as the table parser populates it. -/
def table_of_rows (key_size : Nat) (rows : List TableRow) : Table :=
  rows.foldl (fun t row => t.append_item row.1 row.2)
    (Table.empty.set_key_size key_size)

/-- The flattened storage the rows produce. -/
def rows_flatten : List TableRow → List Nat
  | [] => []
  | r :: rest => r.1 ++ r.2 :: rows_flatten rest

/-- Spec wording for register lookup: scan from the most recently appended
entry backward and return the first whose name equals the query up to ASCII
case. -/
def spec_ci_find (g : RegisterGroup) (name : List Char) : Option Nat :=
  (g.registers.reverse.find?
    (fun r => r.name.map toLowerC = name.map toLowerC)).map (fun r => r.value)

/-- Spec wording for bit masks: one `BitRange` per maximal run of set
characters, in scan order; the `start` of a run is the 0-based bit index of
its lowest-order bit, i.e. the length of the suffix after the run (the
rightmost character of the string is bit 0), and the `size` is the run
length. -/
def x_runs_go : List Char → List BitRange
  | [] => []
  | c :: t =>
      if c = 'X' then
        if t.head? = some 'X' then
          match x_runs_go t with
          | r :: rs => { start := r.start, size := r.size + 1 } :: rs
          | [] => [{ start := t.length, size := 1 }]
        else { start := t.length, size := 1 } :: x_runs_go t
      else x_runs_go t

/-- Spec reading of a mask string: a set character either extends the
maximal run that continues at the next character, or starts a new run of
size 1; a character at distance `t.length` from the right end occupies bit
index `t.length` (rightmost character = bit 0), so a run's `start` is the
bit index of its lowest-order (rightmost) character and its `size` is the
run length, runs listed in scan order.  (When the next character is set the
recursive result is never empty; the `[]` fallback is unreachable.) -/
def x_runs (s : List Char) : List BitRange := x_runs_go s

/-- The number of non-separator characters of an integer literal. -/
def count_digits (l : List Char) : Nat :=
  (l.filter (fun c => is_separator c = false)).length

/-- The mathematical (unbounded) value of the digit characters of a
literal, separators skipped, starting from accumulator `r`. -/
def literal_value_acc (base : Nat) (r : Nat) : List Char → Nat
  | [] => r
  | c :: rest =>
      if is_separator c then literal_value_acc base r rest
      else literal_value_acc base (r * base + digit_value c) rest

/-- The magnitude denoted by the digit characters of a literal. -/
def literal_value (base : Nat) (l : List Char) : Nat :=
  literal_value_acc base 0 l

/-- Well-formed digit string for a base: every non-separator character both
passes the code's digit check and denotes a digit strictly below the base
(the two coincide for bases 10 and 16 but not for 2 and 8). -/
def wf_digits (base : Nat) (l : List Char) : Prop :=
  ∀ c ∈ l, is_separator c = false →
    digit_invalid base c = false ∧ digit_value c < base

/-- Iterated `next_token`, for the token-count bound of the lexer claim. -/
def iterate_next (lx : Lexer) : Nat → Lexer
  | 0 => lx
  | n + 1 => iterate_next lx.next_token n


/-- The `IntegerParser` state on which `get_integer_constant` runs its
checks and accumulation: the token's content after the sign and base-prefix
stages. -/
def ipOf (t : Token) (w : Nat) (sgn : Bool) : IntegerParser :=
  ((IntegerParser.mk_init t w sgn).parse_sign).parse_base

def C4st : PState := { lx := Lexer.init [], diags := [] }

def C4tok1 : Token := { kind := TokenKind.Integer, content := ['0', 'x', '1', 'F'], loc := 0 }

def C4tok2 : Token := { kind := TokenKind.Integer, content := ['2', '5', '6'], loc := 0 }

def C4tokm1 : Token := { kind := TokenKind.Integer, content := ['-', '1'], loc := 0 }

/-- Source text `FUNIT uC foo 123` (no trailing semicolon), on which the
driver succeeds while still emitting a diagnostic. -/
def C1cex : List Char :=
  ['F','U','N','I','T',' ','u','C',' ','f','o','o',' ','1','2','3']

/-! ## Theorems -/

/-! ### C2: decision-table lookup -/

theorem keysMatch_eq_spec : ∀ ks qs : List Nat, keysMatch ks qs = spec_row_match ks qs := by
  intro ks
  induction ks with
  | nil =>
      intro qs
      cases qs <;> simp [keysMatch, spec_row_match]
  | cons k ks ih =>
      intro qs
      cases qs with
      | nil => simp [keysMatch, spec_row_match]
      | cons q qs =>
          simp only [keysMatch, spec_row_match, List.zip, List.zipWith_cons_cons,
            List.all_cons, List.length_cons, Nat.add_right_cancel_iff]
          rw [ih qs]
          simp only [spec_row_match, List.zip]
          cases h1 : (k == q || k == MATCH_ANY) <;>
            cases h2 : (ks.length == qs.length) <;>
            simp [h1, h2]

theorem foldl_append_item_content (rows : List TableRow) :
    ∀ t : Table,
      (rows.foldl (fun t row => t.append_item row.1 row.2) t).content =
        t.content ++ rows_flatten rows ∧
      (rows.foldl (fun t row => t.append_item row.1 row.2) t).key_size =
        t.key_size := by
  induction rows with
  | nil => intro t; simp [rows_flatten]
  | cons r rest ih =>
      intro t
      simp only [List.foldl_cons, rows_flatten]
      rcases ih (t.append_item r.1 r.2) with ⟨h1, h2⟩
      refine ⟨?_, by simpa [Table.append_item] using h2⟩
      rw [h1]
      simp [Table.append_item]

theorem get_value_go_rows (key_size : Nat) (q : List Nat)
    (hq : q.length = key_size) :
    ∀ (rows : List TableRow) (fuel : Nat),
      (∀ r ∈ rows, r.1.length = key_size) →
      (rows_flatten rows).length ≤ fuel →
      get_value_go key_size q fuel (rows_flatten rows) = spec_first_match rows q := by
  intro rows
  induction rows with
  | nil =>
      intro fuel _ _
      cases fuel <;> simp [rows_flatten, get_value_go, spec_first_match]
  | cons r rest ih =>
      intro fuel hrows hfuel
      have hr1 : r.1.length = key_size := hrows r (by simp)
      have hlen : 0 < (rows_flatten (r :: rest)).length := by
        simp only [rows_flatten, List.length_append, List.length_cons]
        omega
      cases fuel with
      | zero => omega
      | succ f =>
          have hflat : rows_flatten (r :: rest) = r.1 ++ r.2 :: rows_flatten rest := rfl
          have hrest : ∀ x ∈ rest, x.1.length = key_size := by
            intro x hx; exact hrows x (by simp [hx])
          have hfrest : (rows_flatten rest).length ≤ f := by
            rw [hflat] at hfuel
            simp only [List.length_append, List.length_cons] at hfuel
            omega
          cases hr : r.1 with
          | nil =>
              have hks : key_size = 0 := by rw [hr] at hr1; simpa using hr1.symm
              have hqnil : q = [] := by
                subst hks; exact List.length_eq_zero.mp hq
              rw [hflat, hr]
              simp only [List.nil_append]
              rw [get_value_go]
              subst hks hqnil
              simp [keysMatch, spec_first_match, List.find?, spec_row_match, hr]
          | cons k ks =>
              rw [hflat, hr]
              simp only [List.cons_append]
              rw [get_value_go]
              rw [← List.cons_append, ← hr]
              have htake : ((r.1 ++ r.2 :: rows_flatten rest).take key_size) = r.1 := by
                rw [← hr1]; exact List.take_left r.1 _
              have hdrop : ((r.1 ++ r.2 :: rows_flatten rest).drop key_size) =
                  r.2 :: rows_flatten rest := by
                rw [← hr1]; exact List.drop_left r.1 _
              rw [htake, hdrop, keysMatch_eq_spec]
              have hdrop2 : ((ks ++ r.2 :: rows_flatten rest).drop key_size) =
                  rows_flatten rest := by
                have : key_size = ks.length + 1 := by
                  rw [hr] at hr1; simpa using hr1.symm
                rw [this]
                rw [show ks.length + 1 = ks.length + 1 from rfl]
                rw [List.drop_append_eq_append_drop]
                simp
              cases hmatch : spec_row_match r.1 q with
              | true =>
                  simp only [if_pos rfl, List.head?]
                  simp [spec_first_match, List.find?, hmatch]
              | false =>
                  simp only [Bool.false_eq_true, if_false]
                  rw [hdrop2, ih f hrest hfrest]
                  simp [spec_first_match, List.find?, hmatch]

/-- C2: for every table whose rows all carry `key_size` keys and every query
of exactly `key_size` keys, `Table::get_value` scans rows in insertion order
and returns the value of the first row each of whose keys equals the
corresponding query key or the sentinel `MATCH_ANY`, and returns absent when
no row matches. -/
theorem table_get_value_first_match (key_size : Nat) (rows : List TableRow)
    (q : List Nat) (hrows : ∀ r ∈ rows, r.1.length = key_size)
    (hq : q.length = key_size) :
    (table_of_rows key_size rows).get_value q = spec_first_match rows q := by
  have h := foldl_append_item_content rows (Table.empty.set_key_size key_size)
  unfold Table.get_value
  unfold table_of_rows
  rw [h.1, h.2]
  simp only [Table.empty, Table.set_key_size, List.nil_append]
  exact get_value_go_rows key_size q hq rows _ hrows le_rfl

/-- C2 witness: the spec's concrete examples, via the theorem: with rows
`[(1,0)->5, (2,2)->9]` the query `(2,2)` yields 9, and a wildcard row
`(-,-)->0` inserted before all others makes every query yield 0. -/
theorem table_get_value_first_match_witness :
    (table_of_rows 2 [([1, 0], 5), ([2, 2], 9)]).get_value [2, 2] = some 9 ∧
    (table_of_rows 2 [([MATCH_ANY, MATCH_ANY], 0), ([1, 0], 5), ([2, 2], 9)]).get_value
      [2, 2] = some 0 ∧
    (table_of_rows 2 [([MATCH_ANY, MATCH_ANY], 0), ([1, 0], 5), ([2, 2], 9)]).get_value
      [15, 27] = some 0 := by
  refine ⟨?_, ?_, ?_⟩ <;>
    rw [table_get_value_first_match _ _ _ (by decide) (by decide)] <;> decide

/-! ### C3: register name lookup -/

theorem find_from_back_eq (name : List Char) :
    ∀ l : List Register,
      find_from_back name l =
        (l.find? (fun r => r.name.map toLowerC = name.map toLowerC)).map
          (fun r => r.value) := by
  intro l
  induction l with
  | nil => simp [find_from_back]
  | cons r rest ih =>
      by_cases hc : r.name.map toLowerC = name.map toLowerC
      · have hci : ciEqual r.name name = true := by
          simp [ciEqual, hc]
        simp [find_from_back, hci, List.find?, hc]
      · have hci : ciEqual r.name name = false := by
          simp [ciEqual, hc]
        simp [find_from_back, hci, List.find?, hc, ih]

theorem find_from_back_append (name : List Char) :
    ∀ a b : List Register,
      find_from_back name (a ++ b) =
        (if (find_from_back name a).isSome then find_from_back name a
         else find_from_back name b) := by
  intro a b
  induction a with
  | nil => simp [find_from_back]
  | cons r rest ih =>
      by_cases hci : ciEqual r.name name = true
      · simp [find_from_back, hci]
      · simp only [Bool.not_eq_true] at hci
        simp [find_from_back, hci, ih]

/-- C3: register lookup compares names case-insensitively and scans entries
from the most recently appended backward, returning the first match — so a
later-appended register shadows an earlier one with the same name, both
within a group (`append_register`) and across concatenation of categories
(`concat_with`). -/
theorem register_find_ci_shadowing :
    (∀ (g : RegisterGroup) (name : List Char), g.find name = spec_ci_find g name) ∧
    (∀ (g : RegisterGroup) (rn : List Char) (v : Nat) (name : List Char),
      ciEqual rn name = true → (g.append_register rn v).find name = some v) ∧
    (∀ (g₁ g₂ : RegisterGroup) (name : List Char),
      (g₁.concat_with g₂).find name =
        (if (g₂.find name).isSome then g₂.find name else g₁.find name)) := by
  refine ⟨?_, ?_, ?_⟩
  · intro g name
    simp [RegisterGroup.find, spec_ci_find, find_from_back_eq]
  · intro g rn v name hci
    simp [RegisterGroup.find, RegisterGroup.append_register, find_from_back, hci]
  · intro g₁ g₂ name
    simp [RegisterGroup.find, RegisterGroup.concat_with, List.reverse_append,
      find_from_back_append]

/-- C3 witness: with registers `[("DC",0),("nodc",1)]`, `find "dc"` is
`some 0`; after appending `("DC",2)`, `find "dc"` is `some 2`. -/
theorem register_find_ci_shadowing_witness :
    ((RegisterGroup.empty.append_register "DC".toList 0).append_register
        "nodc".toList 1).find "dc".toList = some 0 ∧
    (((RegisterGroup.empty.append_register "DC".toList 0).append_register
        "nodc".toList 1).append_register "DC".toList 2).find "dc".toList =
      some 2 := by
  constructor
  · rw [register_find_ci_shadowing.1]
    decide
  · exact register_find_ci_shadowing.2.1 _ _ _ _ (by decide)

/-! ### C10: token merging -/

theorem sliceAt_add (s : List Char) (b m n : Nat) :
    sliceAt s b (m + n) = sliceAt s b m ++ sliceAt s (b + m) n := by
  simp [sliceAt, List.take_add, List.drop_drop, Nat.add_comm]

/-- C10: `Token::merge` is symmetric in its two tokens.  For two tokens that
are slices of the same source buffer and any kind, merging in either order
yields the same token; the merged token's begin offset is the smaller of the
two begin offsets, its content is the source slice extending to the larger
of the two end offsets, and when the first token ends before the second
begins the merged content is the first content, then every intervening
source character, then the second content. -/
theorem token_merge_symmetric (source : List Char) (a b : Token) (k : TokenKind)
    (ha : a.content = sliceAt source a.loc a.content.length)
    (hb : b.content = sliceAt source b.loc b.content.length) :
    Token.merge source a b k = Token.merge source b a k ∧
    (Token.merge source a b k).loc = min a.loc b.loc ∧
    (Token.merge source a b k).content =
      sliceAt source (min a.loc b.loc)
        (max (a.loc + a.content.length) (b.loc + b.content.length) -
          min a.loc b.loc) ∧
    (a.loc + a.content.length ≤ b.loc →
      (Token.merge source a b k).content =
        a.content ++
          sliceAt source (a.loc + a.content.length)
            (b.loc - (a.loc + a.content.length)) ++ b.content) := by
  have hbeg : (if a.loc < b.loc then a.loc else b.loc) = min a.loc b.loc := by
    split <;> omega
  have hbeg' : (if b.loc < a.loc then b.loc else a.loc) = min a.loc b.loc := by
    split <;> omega
  refine ⟨?_, ?_, ?_, ?_⟩
  · simp only [Token.merge, hbeg, hbeg', Nat.min_comm a.loc b.loc,
      Nat.max_comm (a.loc + a.content.length) (b.loc + b.content.length)]
  · simp [Token.merge]
  · simp [Token.merge, hbeg]
  · intro hle
    simp only [Token.merge, hbeg]
    have h1 : min a.loc b.loc = a.loc := by omega
    have h2 : max (a.loc + a.content.length) (b.loc + b.content.length) =
        b.loc + b.content.length := by omega
    rw [h1, h2]
    have h3 : b.loc + b.content.length - a.loc =
        a.content.length + ((b.loc - (a.loc + a.content.length)) +
          b.content.length) := by omega
    rw [h3, sliceAt_add, sliceAt_add]
    rw [← ha]
    have h4 : a.loc + a.content.length + (b.loc - (a.loc + a.content.length)) =
        b.loc := by omega
    rw [h4, ← hb, List.append_assoc]

/-- C10 witness: merging the tokens `ab` (offset 0) and `cd` (offset 3) of
the buffer `ab cd`, in either order, gives the same token spanning the whole
buffer. -/
theorem token_merge_symmetric_witness :
    Token.merge "ab cd".toList
        { kind := .Identifier, content := "ab".toList, loc := 0 }
        { kind := .Identifier, content := "cd".toList, loc := 3 } .String =
      Token.merge "ab cd".toList
        { kind := .Identifier, content := "cd".toList, loc := 3 }
        { kind := .Identifier, content := "ab".toList, loc := 0 } .String ∧
    (Token.merge "ab cd".toList
        { kind := .Identifier, content := "ab".toList, loc := 0 }
        { kind := .Identifier, content := "cd".toList, loc := 3 } .String).content =
      "ab cd".toList := by
  refine ⟨(token_merge_symmetric _ _ _ _ (by decide) (by decide)).1, by decide⟩

/-! ### C6: bit masks from mask strings -/

theorem spanWhile_le (p : Char → Bool) : ∀ l : List Char, spanWhile p l ≤ l.length := by
  intro l
  induction l with
  | nil => simp [spanWhile]
  | cons c t ih =>
      simp only [spanWhile, List.length_cons]
      split <;> omega

theorem x_runs_go_dropWhile : ∀ l : List Char,
    x_runs_go l = x_runs_go (l.dropWhile (fun c => c != 'X')) := by
  intro l
  induction l with
  | nil => rfl
  | cons c t ih =>
      by_cases hc : c = 'X'
      · rw [List.dropWhile_cons, if_neg (by simp [hc])]
      · rw [List.dropWhile_cons, if_pos (by simp [hc])]
        rw [show x_runs_go (c :: t) = x_runs_go t from by simp [x_runs_go, hc]]
        exact ih

theorem dropWhile_x_head_eq : ∀ (l : List Char) (c : Char) (t : List Char),
    l.dropWhile (fun ch => ch != 'X') = c :: t → c = 'X' := by
  intro l
  induction l with
  | nil => intro c t h; simp at h
  | cons d t' ih =>
      intro c t h
      rw [List.dropWhile_cons] at h
      by_cases hd : d = 'X'
      · rw [if_neg (by simp [hd])] at h
        injection h with h1 _
        rw [← h1]; exact hd
      · rw [if_pos (by simp [hd])] at h
        exact ih c t h

theorem x_runs_go_run (rest : List Char) (hrest : rest.head? ≠ some 'X') :
    ∀ k : Nat, k ≠ 0 →
      x_runs_go (List.replicate k 'X' ++ rest) =
        { start := rest.length, size := k } :: x_runs_go rest := by
  intro k
  induction k with
  | zero => intro h; exact absurd rfl h
  | succ k ih =>
      intro _
      rcases Nat.eq_zero_or_pos k with hk | hk
      · subst hk
        simp [x_runs_go, hrest]
      · have hk' : k ≠ 0 := by omega
        have hhead : (List.replicate k 'X' ++ rest).head? = some 'X' := by
          cases k with
          | zero => omega
          | succ n => simp [List.replicate_succ]
        rw [List.replicate_succ, List.cons_append]
        simp [x_runs_go, hhead, ih hk']

theorem spanWhile_x_decomp : ∀ l : List Char,
    l = List.replicate (spanWhile (fun c => c = 'X') l) 'X' ++
      l.drop (spanWhile (fun c => c = 'X') l) := by
  intro l
  induction l with
  | nil => simp [spanWhile]
  | cons c t ih =>
      by_cases hc : c = 'X'
      · subst hc
        have hspan : spanWhile (fun c => c = 'X') ('X' :: t) =
            spanWhile (fun c => c = 'X') t + 1 := by
          simp [spanWhile]
        rw [hspan, List.replicate_succ, List.cons_append, List.drop_succ_cons]
        exact congrArg (List.cons 'X') ih
      · have hspan : spanWhile (fun ch => ch = 'X') (c :: t) = 0 := by
          simp [spanWhile, hc]
        rw [hspan, List.replicate_zero, List.nil_append, List.drop_zero]

theorem drop_spanWhile_x_head : ∀ l : List Char,
    (l.drop (spanWhile (fun c => c = 'X') l)).head? ≠ some 'X' := by
  intro l
  induction l with
  | nil => simp [spanWhile]
  | cons c t ih =>
      by_cases hc : c = 'X'
      · subst hc
        have hspan : spanWhile (fun c => c = 'X') ('X' :: t) =
            spanWhile (fun c => c = 'X') t + 1 := by
          simp [spanWhile]
        rw [hspan, List.drop_succ_cons]
        exact ih
      · have hspan : spanWhile (fun ch => ch = 'X') (c :: t) = 0 := by
          simp [spanWhile, hc]
        rw [hspan, List.drop_zero]
        simp [hc]

theorem dropWhile_dot_eq_drop_span : ∀ l : List Char,
    (∀ c ∈ l, c = '.' ∨ c = 'X') →
    l.dropWhile (fun c => c != '.') = l.drop (spanWhile (fun c => c = 'X') l) := by
  intro l
  induction l with
  | nil => simp
  | cons c t ih =>
      intro halpha
      have ht : ∀ x ∈ t, x = '.' ∨ x = 'X' := fun x hx => halpha x (by simp [hx])
      rcases halpha c (by simp) with hc | hc
      · subst hc
        have hspan : spanWhile (fun c => c = 'X') ('.' :: t) = 0 := by
          simp [spanWhile]
        rw [List.dropWhile_cons, if_neg (by simp), hspan, List.drop_zero]
      · subst hc
        have hspan : spanWhile (fun c => c = 'X') ('X' :: t) =
            spanWhile (fun c => c = 'X') t + 1 := by
          simp [spanWhile]
        rw [List.dropWhile_cons, if_pos (by simp), hspan, List.drop_succ_cons]
        exact ih ht

theorem bitmask_build_go_eq_x_runs : ∀ (fuel : Nat) (l : List Char),
    (∀ c ∈ l, c = '.' ∨ c = 'X') → l.length < fuel →
    bitmask_build_go '.' 'X' fuel l = x_runs_go l := by
  intro fuel
  induction fuel with
  | zero => intro l _ h; omega
  | succ fuel ih =>
      intro l halpha hlen
      simp only [bitmask_build_go]
      cases hl1 : l.dropWhile (fun c => c != 'X') with
      | nil =>
          rw [x_runs_go_dropWhile l, hl1]
          rfl
      | cons c t =>
          have halpha1 : ∀ x ∈ (c :: t), x = '.' ∨ x = 'X' := by
            rw [← hl1]
            exact fun x hx => halpha x ((List.dropWhile_sublist _).subset hx)
          have hlen1 : (c :: t).length ≤ l.length := by
            rw [← hl1]
            exact (List.dropWhile_sublist _).length_le
          have hc : c = 'X' := dropWhile_x_head_eq l c t hl1
          have hkpos : spanWhile (fun ch => ch = 'X') (c :: t) ≠ 0 := by
            simp [spanWhile, hc]
          have hdecomp := spanWhile_x_decomp (c :: t)
          have hresthead := drop_spanWhile_x_head (c :: t)
          have hl2 := dropWhile_dot_eq_drop_span (c :: t) halpha1
          have hkle := spanWhile_le (fun ch => decide (ch = 'X')) (c :: t)
          rw [x_runs_go_dropWhile l, hl1]
          simp only [List.isEmpty_cons, Bool.false_eq_true, if_false]
          rw [hl2]
          conv_rhs => rw [hdecomp]
          rw [x_runs_go_run ((c :: t).drop (spanWhile (fun ch => ch = 'X') (c :: t)))
            hresthead (spanWhile (fun ch => ch = 'X') (c :: t)) hkpos]
          have halpharest : ∀ x ∈ (c :: t).drop (spanWhile (fun ch => ch = 'X') (c :: t)),
              x = '.' ∨ x = 'X' :=
            fun x hx => halpha1 x (List.drop_subset _ _ hx)
          have hlenrest :
              ((c :: t).drop (spanWhile (fun ch => ch = 'X') (c :: t))).length < fuel := by
            simp only [List.length_drop]
            simp only [List.length_cons] at hlen1 ⊢
            omega
          rw [ih _ halpharest hlenrest]
          have hsz : (c :: t).length -
              ((c :: t).drop (spanWhile (fun ch => ch = 'X') (c :: t))).length =
              spanWhile (fun ch => ch = 'X') (c :: t) := by
            simp only [List.length_drop]
            omega
          rw [hsz]

/-- C6: over the alphabet `{'.', 'X'}`, the `BitMask` constructor produces
exactly one `BitRange` per maximal run of set characters, in scan order,
with `start` the 0-based bit index of the run's lowest-order bit (the
rightmost character of the string is bit 0) and `size` the run length. -/
theorem bitmask_from_string_runs (s : List Char)
    (halpha : ∀ c ∈ s, c = '.' ∨ c = 'X') :
    BitMask.ofString s = x_runs s := by
  unfold BitMask.ofString BitMask.build x_runs
  exact bitmask_build_go_eq_x_runs (s.length + 1) s halpha (by omega)

/-- C6 witness: `"XX.."` (width 4) yields exactly one range
`{start := 2, size := 2}`. -/
theorem bitmask_from_string_runs_witness :
    BitMask.ofString "XX..".toList = [{ start := 2, size := 2 }] :=
  (bitmask_from_string_runs "XX..".toList (by decide)).trans (by decide)

/-! ### C5: integer literal malformedness checks -/

/-- C5: evaluation of the digit check at the failing input `0b2`.  The base
is correctly determined as 2 and the separator check passes, but
`check_digit` also accepts the character `2`, which is not a legal binary
digit (the upper bound `min('9', '0' + base)` is off by one, admitting the
digit equal to the base for bases 2 and 8, and `a`/`A` for base 10), so the
whole evaluation returns the value 2 with no diagnostic instead of failing
with a diagnostic naming the base. -/
theorem check_digit_accepts_invalid_binary_digit :
    (((IntegerParser.mk_init { kind := .Integer, content := "0b2".toList, loc := 0 }
        8 false).parse_sign).parse_base).base = 2 ∧
    (((IntegerParser.mk_init { kind := .Integer, content := "0b2".toList, loc := 0 }
        8 false).parse_sign).parse_base).content = ['2'] ∧
    digit_invalid 2 '2' = false ∧
    digit_value '2' = 2 ∧
    (((IntegerParser.mk_init { kind := .Integer, content := "0b2".toList, loc := 0 }
        8 false).parse_sign).parse_base).check_digit = none ∧
    (get_integer_constant { lx := Lexer.init [], diags := [] }
        { kind := .Integer, content := "0b2".toList, loc := 0 } 8 false).1 = some 2 ∧
    (get_integer_constant { lx := Lexer.init [], diags := [] }
        { kind := .Integer, content := "0b2".toList, loc := 0 } 8 false).2.diags = [] := by
  decide

/-! ### C8: lexer advancement of `resolve_table_element` -/

theorem emit_lx (st : PState) (d : Diag) : (st.emit d).lx = st.lx := rfl

theorem expect_token_lx (st : PState) (t : Token) (k : TokenKind) :
    (expect_token st t k).2.lx = st.lx := by
  unfold expect_token
  split <;> rfl

theorem expect_token_many_lx (st : PState) (t : Token) (ks : List TokenKind) :
    (expect_token_many st t ks).2.lx = st.lx := by
  unfold expect_token_many
  split <;> rfl

theorem get_string_literal_lx (st : PState) (t : Token) :
    (get_string_literal st t).2.lx = st.lx := by
  unfold get_string_literal
  split <;> rfl

theorem get_identifier_or_string_lx (st : PState) (t : Token) :
    (get_identifier_or_string st t).2.lx = st.lx := by
  unfold get_identifier_or_string
  split
  · rfl
  · exact get_string_literal_lx st t

theorem expect_identifier_or_string_lx (st : PState) (t : Token) :
    (expect_identifier_or_string st t).2.lx = st.lx := by
  unfold expect_identifier_or_string
  cases hq : expect_token_many st t [.Identifier, .String] with
  | mk f s =>
      have hs : s.lx = st.lx := by
        have h0 := expect_token_many_lx st t [.Identifier, .String]
        rw [hq] at h0
        exact h0
      cases f
      · simpa [hs] using get_identifier_or_string_lx s t
      · simpa using hs

theorem get_integer_constant_lx (st : PState) (t : Token) (b : Nat) (sg : Bool) :
    (get_integer_constant st t b sg).2.lx = st.lx := by
  unfold get_integer_constant
  cases h : int_checks (((IntegerParser.mk_init t b sg).parse_sign).parse_base) with
  | some note => rfl
  | none =>
      cases h2 : (((IntegerParser.mk_init t b sg).parse_sign).parse_base).parse_integer
        <;> rfl

theorem expect_integer_constant_lx (st : PState) (t : Token) (b : Nat) (sg : Bool) :
    (expect_integer_constant st t b sg).2.lx = st.lx := by
  unfold expect_integer_constant
  cases hq : expect_token st t .Integer with
  | mk f s =>
      have hs : s.lx = st.lx := by
        have h0 := expect_token_lx st t .Integer
        rw [hq] at h0
        exact h0
      cases f
      · simpa [hs] using get_integer_constant_lx s t b sg
      · simpa using hs

theorem next_token_pos_le (lx : Lexer) : lx.pos ≤ lx.next_token.pos := by
  unfold Lexer.next_token
  cases h : (lx.source.drop (lx.pos + spanWhile isSpaceC (lx.source.drop lx.pos))).head? with
  | none => simp only [h]; omega
  | some c => simp only [h]; omega

theorem pstate_next_lx (st : PState) : st.next.lx = st.lx.next_token := rfl

/-- C8 (amended): on every exit path reached after the initial kind check
(current token of kind Integer, Identifier, String or `-`), the routine's
final lexer state is exactly one `next_token` step applied to the state at
scope exit — the deferred advance of `ConsumeTokenRAII` runs on every such
path; in particular for Integer and `-` elements the post-call lexer is
exactly one token past the entry state, on success and failure alike.  (The
initial kind-check failure path, by contrast, returns absent without
advancing; see the counterexample.) -/
theorem resolve_table_element_scope_guard (rt : AssocMap RegisterGroup) (st : PState)
    (h : st.cur.kind = .Integer ∨ st.cur.kind = .Identifier ∨
      st.cur.kind = .String ∨ st.cur.kind = .PunctuatorMinus) :
    (resolve_table_element rt st).2.lx =
      ((resolve_table_element_core rt st).2.lx).next_token ∧
    ((st.cur.kind = .Integer ∨ st.cur.kind = .PunctuatorMinus) →
      (resolve_table_element rt st).2.lx = st.lx.next_token) := by
  have hcontains : [TokenKind.Integer, TokenKind.Identifier, TokenKind.String,
      TokenKind.PunctuatorMinus].contains st.cur.kind = true := by
    rcases h with h | h | h | h <;> simp [h]
  have hres : resolve_table_element rt st =
      ((resolve_table_element_core rt st).1,
        (resolve_table_element_core rt st).2.next) := by
    unfold resolve_table_element expect_current_token_many expect_token_many
    simp only [hcontains, if_pos]
    rfl
  refine ⟨by rw [hres]; rfl, ?_⟩
  intro h2
  rw [hres]
  rcases h2 with h2 | h2
  · show (resolve_table_element_core rt st).2.lx.next_token = st.lx.next_token
    unfold resolve_table_element_core
    rw [h2]
    show (expect_integer_constant st st.cur 32 false).2.lx.next_token =
      st.lx.next_token
    rw [expect_integer_constant_lx]
  · show (resolve_table_element_core rt st).2.lx.next_token = st.lx.next_token
    unfold resolve_table_element_core
    rw [h2]

/-- C8 counterexample: when the current token is `;` — not one of the four
accepted kinds — `resolve_table_element` returns absent from the early
kind-check failure path *without* advancing the lexer, contradicting the
claim that every exit path advances by exactly one token. -/
theorem resolve_table_element_no_advance_cex :
    (resolve_table_element []
      { lx := (Lexer.init "; 1".toList).next_token, diags := [] }).1 = none ∧
    (resolve_table_element []
      { lx := (Lexer.init "; 1".toList).next_token, diags := [] }).2.lx =
      ((Lexer.init "; 1".toList).next_token) ∧
    ((Lexer.init "; 1".toList).next_token).cur_token.kind = .PunctuatorSemi := by
  decide

/-- C8 witness: for an Integer element (`7`), the call returns the value and
leaves the lexer exactly one token further. -/
theorem resolve_table_element_scope_guard_witness :
    (resolve_table_element []
      { lx := (Lexer.init "7 ;".toList).next_token, diags := [] }).2.lx =
      ((Lexer.init "7 ;".toList).next_token).next_token :=
  (resolve_table_element_scope_guard []
    { lx := (Lexer.init "7 ;".toList).next_token, diags := [] }
    (Or.inl (by decide))).2 (Or.inl (by decide))

/-! ### C9: lexer progress and termination -/

theorem next_token_source (lx : Lexer) : lx.next_token.source = lx.source := by
  unfold Lexer.next_token
  cases h : (lx.source.drop (lx.pos + spanWhile isSpaceC (lx.source.drop lx.pos))).head?
    <;> simp only [h]

theorem head_some_len {l : List Char} {c : Char} (h : l.head? = some c) :
    1 ≤ l.length := by
  cases l with
  | nil => simp at h
  | cons a t => simp

theorem lex_string_tail_le (q : Char) (rest : List Char) :
    lex_string_tail q rest ≤ rest.length := by
  unfold lex_string_tail
  have hk := spanWhile_le (fun ch => ch ≠ q && ch ≠ newlineC) rest
  cases h : (rest.drop (spanWhile (fun ch => ch ≠ q && ch ≠ newlineC) rest)).head? with
  | none => simp only [h]; exact hk
  | some ch =>
      simp only [h]
      have h1 := head_some_len h
      rw [List.length_drop] at h1
      split <;> omega

theorem classify_extra_le (c : Char) (rest : List Char) :
    (classifyChar c rest).2 ≤ rest.length := by
  unfold classifyChar
  by_cases h1 : isDigitC c = true
  · rw [if_pos h1]; exact spanWhile_le _ _
  rw [if_neg h1]
  by_cases h2 : (isAlphaC c || decide (c = '_')) = true
  · rw [if_pos h2]; exact spanWhile_le _ _
  rw [if_neg h2]
  by_cases h3 : (decide (c = quoteD) || decide (c = quoteS)) = true
  · rw [if_pos h3]; exact lex_string_tail_le _ _
  rw [if_neg h3]
  by_cases h4 : c = '['
  · rw [if_pos h4]; exact Nat.zero_le _
  rw [if_neg h4]
  by_cases h5 : c = ']'
  · rw [if_pos h5]; exact Nat.zero_le _
  rw [if_neg h5]
  by_cases h6 : c = '('
  · rw [if_pos h6]; exact Nat.zero_le _
  rw [if_neg h6]
  by_cases h7 : c = ')'
  · rw [if_pos h7]; exact Nat.zero_le _
  rw [if_neg h7]
  by_cases h8 : c.toNat = 123
  · rw [if_pos h8]; exact Nat.zero_le _
  rw [if_neg h8]
  by_cases h9 : c.toNat = 125
  · rw [if_pos h9]; exact Nat.zero_le _
  rw [if_neg h9]
  by_cases h10 : c = '+'
  · rw [if_pos h10]; exact Nat.zero_le _
  rw [if_neg h10]
  by_cases h11 : c = '-'
  · rw [if_pos h11]
    by_cases h11i1 : rest.head? = some '>'
    · rw [if_pos h11i1]; exact head_some_len h11i1
    rw [if_neg h11i1]
    exact Nat.zero_le _
  rw [if_neg h11]
  by_cases h12 : c = '*'
  · rw [if_pos h12]; exact Nat.zero_le _
  rw [if_neg h12]
  by_cases h13 : c = '/'
  · rw [if_pos h13]; exact Nat.zero_le _
  rw [if_neg h13]
  by_cases h14 : c = '%'
  · rw [if_pos h14]; exact Nat.zero_le _
  rw [if_neg h14]
  by_cases h15 : c = '~'
  · rw [if_pos h15]; exact Nat.zero_le _
  rw [if_neg h15]
  by_cases h16 : c = '!'
  · rw [if_pos h16]
    by_cases h16i1 : rest.head? = some '='
    · rw [if_pos h16i1]; exact head_some_len h16i1
    rw [if_neg h16i1]
    exact Nat.zero_le _
  rw [if_neg h16]
  by_cases h17 : c = '<'
  · rw [if_pos h17]
    by_cases h17i1 : rest.head? = some '='
    · rw [if_pos h17i1]; exact head_some_len h17i1
    rw [if_neg h17i1]
    by_cases h17i2 : rest.head? = some '<'
    · rw [if_pos h17i2]; exact head_some_len h17i2
    rw [if_neg h17i2]
    exact Nat.zero_le _
  rw [if_neg h17]
  by_cases h18 : c = '>'
  · rw [if_pos h18]
    by_cases h18i1 : rest.head? = some '='
    · rw [if_pos h18i1]; exact head_some_len h18i1
    rw [if_neg h18i1]
    by_cases h18i2 : rest.head? = some '>'
    · rw [if_pos h18i2]; exact head_some_len h18i2
    rw [if_neg h18i2]
    exact Nat.zero_le _
  rw [if_neg h18]
  by_cases h19 : c = '='
  · rw [if_pos h19]
    by_cases h19i1 : rest.head? = some '='
    · rw [if_pos h19i1]; exact head_some_len h19i1
    rw [if_neg h19i1]
    exact Nat.zero_le _
  rw [if_neg h19]
  by_cases h20 : c = '&'
  · rw [if_pos h20]
    by_cases h20i1 : rest.head? = some '&'
    · rw [if_pos h20i1]; exact head_some_len h20i1
    rw [if_neg h20i1]
    exact Nat.zero_le _
  rw [if_neg h20]
  by_cases h21 : c = '|'
  · rw [if_pos h21]
    by_cases h21i1 : rest.head? = some '|'
    · rw [if_pos h21i1]; exact head_some_len h21i1
    rw [if_neg h21i1]
    exact Nat.zero_le _
  rw [if_neg h21]
  by_cases h22 : c = '.'
  · rw [if_pos h22]; exact Nat.zero_le _
  rw [if_neg h22]
  by_cases h23 : c = '?'
  · rw [if_pos h23]; exact Nat.zero_le _
  rw [if_neg h23]
  by_cases h24 : c = ':'
  · rw [if_pos h24]; exact Nat.zero_le _
  rw [if_neg h24]
  by_cases h25 : c = ';'
  · rw [if_pos h25]; exact Nat.zero_le _
  rw [if_neg h25]
  by_cases h26 : c = ','
  · rw [if_pos h26]; exact Nat.zero_le _
  rw [if_neg h26]
  by_cases h27 : c = '@'
  · rw [if_pos h27]; exact Nat.zero_le _
  rw [if_neg h27]
  by_cases h28 : c = '$'
  · rw [if_pos h28]; exact Nat.zero_le _
  rw [if_neg h28]
  by_cases h29 : c = backTickC
  · rw [if_pos h29]; exact Nat.zero_le _
  rw [if_neg h29]
  exact Nat.zero_le _

theorem next_token_pos_bound (lx : Lexer) (h : lx.pos ≤ lx.source.length) :
    lx.next_token.pos ≤ lx.source.length := by
  unfold Lexer.next_token
  have hws := spanWhile_le isSpaceC (lx.source.drop lx.pos)
  rw [List.length_drop] at hws
  cases hh : (lx.source.drop (lx.pos + spanWhile isSpaceC (lx.source.drop lx.pos))).head? with
  | none =>
      simp only [hh]
      have hnil := List.head?_eq_none_iff.mp hh
      have hlen := congrArg List.length hnil
      rw [List.length_drop] at hlen
      simp only [List.length_nil] at hlen
      omega
  | some c =>
      simp only [hh]
      have hextra := classify_extra_le c
        (lx.source.drop (lx.pos + spanWhile isSpaceC (lx.source.drop lx.pos) + 1))
      rw [List.length_drop] at hextra
      have hne : 1 ≤ (lx.source.drop (lx.pos + spanWhile isSpaceC (lx.source.drop lx.pos))).length :=
        head_some_len hh
      rw [List.length_drop] at hne
      omega

theorem next_token_progress (lx : Lexer) :
    (lx.next_token.cur_token.kind = TokenKind.End ∧
      lx.next_token.pos = lx.pos + spanWhile isSpaceC (lx.source.drop lx.pos)) ∨
      lx.pos < lx.next_token.pos := by
  unfold Lexer.next_token
  cases hh : (lx.source.drop (lx.pos + spanWhile isSpaceC (lx.source.drop lx.pos))).head? with
  | none =>
      left
      simp only [hh, Lexer.form_token]
      exact ⟨trivial, trivial⟩
  | some c =>
      right
      simp only [hh]
      show lx.pos < lx.pos + spanWhile isSpaceC (lx.source.drop lx.pos) + 1 +
        (classifyChar c (lx.source.drop (lx.pos + spanWhile isSpaceC (lx.source.drop lx.pos) + 1))).2
      omega

theorem next_token_dichotomy (lx : Lexer) (h : lx.pos ≤ lx.source.length) :
    (lx.next_token.cur_token.kind = TokenKind.End ∧ lx.next_token.pos = lx.source.length) ∨
      lx.pos < lx.next_token.pos := by
  unfold Lexer.next_token
  have hws := spanWhile_le isSpaceC (lx.source.drop lx.pos)
  rw [List.length_drop] at hws
  cases hh : (lx.source.drop (lx.pos + spanWhile isSpaceC (lx.source.drop lx.pos))).head? with
  | none =>
      left
      have hnil := List.head?_eq_none_iff.mp hh
      have hlen := congrArg List.length hnil
      rw [List.length_drop] at hlen
      simp only [List.length_nil] at hlen
      simp only [hh, Lexer.form_token]
      refine ⟨trivial, ?_⟩
      show lx.pos + spanWhile isSpaceC (lx.source.drop lx.pos) = lx.source.length
      omega
  | some c =>
      right
      simp only [hh]
      show lx.pos < lx.pos + spanWhile isSpaceC (lx.source.drop lx.pos) + 1 +
        (classifyChar c (lx.source.drop (lx.pos + spanWhile isSpaceC (lx.source.drop lx.pos) + 1))).2
      omega

theorem reach_end_aux : ∀ (m : Nat) (lx : Lexer), lx.source.length - lx.pos ≤ m →
    lx.pos ≤ lx.source.length →
    ∃ k, k ≤ m + 1 ∧ (iterate_next lx k).cur_token.kind = TokenKind.End := by
  intro m
  induction m with
  | zero =>
      intro lx _ h
      refine ⟨1, le_rfl, ?_⟩
      show lx.next_token.cur_token.kind = TokenKind.End
      rcases next_token_dichotomy lx h with ⟨hk, _⟩ | hp
      · exact hk
      · have hb := next_token_pos_bound lx h
        omega
  | succ n ih =>
      intro lx hm h
      rcases next_token_dichotomy lx h with ⟨hk, _⟩ | hp
      · exact ⟨1, by omega, hk⟩
      · have hb := next_token_pos_bound lx h
        have hs := next_token_source lx
        have h2 : lx.next_token.pos ≤ lx.next_token.source.length := by rw [hs]; exact hb
        have hm2 : lx.next_token.source.length - lx.next_token.pos ≤ n := by rw [hs]; omega
        obtain ⟨k, hk1, hk2⟩ := ih lx.next_token hm2 h2
        exact ⟨k + 1, by omega, hk2⟩

theorem lex_until_fold_stable_aux {α : Type} (cond : α → Token → Bool × α) (consume : Bool) :
    ∀ (n : Nat) (lx : Lexer) (acc : α),
      (iterate_next lx n).cur_token.kind = TokenKind.End →
      ∀ f1 f2 : Nat, n + 1 ≤ f1 → n + 1 ≤ f2 →
        Lexer.lex_until_fold cond consume lx acc f1 =
          Lexer.lex_until_fold cond consume lx acc f2 := by
  intro n
  induction n with
  | zero =>
      intro lx acc hend f1 f2 hf1 hf2
      obtain ⟨a, rfl⟩ : ∃ a, f1 = a + 1 := ⟨f1 - 1, by omega⟩
      obtain ⟨b, rfl⟩ : ∃ b, f2 = b + 1 := ⟨f2 - 1, by omega⟩
      have hise : lx.cur_token.is TokenKind.End = true := by
        simp only [Token.is]
        exact decide_eq_true hend
      simp only [Lexer.lex_until_fold, hise, if_true]
  | succ n ih =>
      intro lx acc hend f1 f2 hf1 hf2
      obtain ⟨a, rfl⟩ : ∃ a, f1 = a + 1 := ⟨f1 - 1, by omega⟩
      obtain ⟨b, rfl⟩ : ∃ b, f2 = b + 1 := ⟨f2 - 1, by omega⟩
      by_cases hise : lx.cur_token.is TokenKind.End = true
      · simp only [Lexer.lex_until_fold, hise, if_true]
      · simp only [Lexer.lex_until_fold, hise, if_false, Bool.false_eq_true]
        cases hc : cond acc lx.cur_token with
        | mk stop acc2 =>
            cases stop with
            | true => simp
            | false =>
                simp only
                exact ih lx.next_token acc2 hend a b (by omega) (by omega)

/-- C9: from any in-range cursor position, `Lexer::next_token` either forms the
`End` token with the cursor at end-of-input or strictly advances the cursor;
consequently iterated calls reach the `End` token within
`source.length - pos + 1` calls, and `lex_until` terminates on every input:
its fuel-indexed unfolding is independent of the fuel once the fuel exceeds
`source.length - pos + 1`. -/
theorem lexer_next_token_terminates (lx : Lexer) (h : lx.pos ≤ lx.source.length) :
    ((lx.next_token.cur_token.kind = TokenKind.End ∧ lx.next_token.pos = lx.source.length) ∨
       lx.pos < lx.next_token.pos) ∧
    (∃ k, k ≤ lx.source.length - lx.pos + 1 ∧
       (iterate_next lx k).cur_token.kind = TokenKind.End) ∧
    (∀ (α : Type) (cond : α → Token → Bool × α) (consume : Bool) (acc : α) (f1 f2 : Nat),
       lx.source.length - lx.pos + 2 ≤ f1 → lx.source.length - lx.pos + 2 ≤ f2 →
       Lexer.lex_until_fold cond consume lx acc f1 = Lexer.lex_until_fold cond consume lx acc f2) := by
  refine ⟨next_token_dichotomy lx h, reach_end_aux (lx.source.length - lx.pos) lx le_rfl h, ?_⟩
  intro α cond consume acc f1 f2 hf1 hf2
  obtain ⟨k, hk1, hk2⟩ := reach_end_aux (lx.source.length - lx.pos) lx le_rfl h
  exact lex_until_fold_stable_aux cond consume k lx acc hk2 f1 f2 (by omega) (by omega)

/-- C9 counterexample to the literal step bound: over the one-character source
`a`, the `End` token is not yet reached after `source.length = 1` calls to
`next_token`; it is reached after `source.length + 1 = 2` calls. -/
theorem lexer_step_bound_cex :
    (iterate_next (Lexer.init ['a']) 1).cur_token.kind ≠ TokenKind.End ∧
    (iterate_next (Lexer.init ['a']) 2).cur_token.kind = TokenKind.End := by
  decide

theorem lexer_next_token_terminates_witness :
    (Lexer.init [';']).pos ≤ (Lexer.init [';']).source.length ∧
    ((((Lexer.init [';']).next_token.cur_token.kind = TokenKind.End ∧
        (Lexer.init [';']).next_token.pos = (Lexer.init [';']).source.length) ∨
       (Lexer.init [';']).pos < (Lexer.init [';']).next_token.pos) ∧
    (∃ k, k ≤ (Lexer.init [';']).source.length - (Lexer.init [';']).pos + 1 ∧
       (iterate_next (Lexer.init [';']) k).cur_token.kind = TokenKind.End) ∧
    (∀ (α : Type) (cond : α → Token → Bool × α) (consume : Bool) (acc : α) (f1 f2 : Nat),
       (Lexer.init [';']).source.length - (Lexer.init [';']).pos + 2 ≤ f1 →
       (Lexer.init [';']).source.length - (Lexer.init [';']).pos + 2 ≤ f2 →
       Lexer.lex_until_fold cond consume (Lexer.init [';']) acc f1 =
         Lexer.lex_until_fold cond consume (Lexer.init [';']) acc f2)) :=
  ⟨by decide, lexer_next_token_terminates (Lexer.init [';']) (by decide)⟩

/-! ### C7: duplicate constants -/

theorem parse_constant_map_go_true_none (m : AssocMap Nat) (st : PState) (f : Nat) :
    (parse_constant_map_go m true st f).1 = none := by
  induction f generalizing m st with
  | zero => rfl
  | succ n ih =>
      simp only [parse_constant_map_go]
      repeat' split
      all_goals first | exact ih _ _ | rfl | simp_all

/-- C7: during `PARAMETERS`/`CONSTANTS` parsing, an entry whose identifier is
already a key of the constant map emits one `Duplicate constant name`
diagnostic, does not overwrite the first inserted value (`try_emplace`
returns `false` and leaves the map unchanged), and the loop continues with
the same map and the error flag set, so subsequent entries (and further
duplicates) are still processed; and once the error flag is set the section
as a whole returns `none` whatever follows. -/
theorem parse_constant_map_duplicate
    (m : AssocMap Nat) (he : Bool) (st stB st3 : PState) (fuel : Nat) (c v0 : Nat)
    (hid : st.next.cur.kind = TokenKind.Identifier)
    (hf1 : expect_next_token st.next TokenKind.PunctuatorEqual = (false, stB))
    (hc : expect_integer_constant stB.next stB.next.cur 32 true = (some c, st3))
    (hdup : AssocMap.find? m st.next.cur.content = some v0) :
    parse_constant_map_go m he st (fuel + 1) =
      parse_constant_map_go m true
        (st3.emit (create_diag_at_token st.next.cur DiagLevel.Error
          "Duplicate constant name" "" "")) fuel ∧
    AssocMap.try_emplace m st.next.cur.content (c % U32) = (false, m) ∧
    ∀ (m2 : AssocMap Nat) (st2 : PState) (f : Nat),
      (parse_constant_map_go m2 true st2 f).1 = none := by
  refine ⟨?_, ?_, fun m2 st2 f => parse_constant_map_go_true_none m2 st2 f⟩
  · simp only [parse_constant_map_go]
    rw [if_pos hid, hf1]
    simp only [hc, AssocMap.try_emplace, hdup]
  · simp only [AssocMap.try_emplace, hdup]

theorem parse_constant_map_duplicate_witness :
    (({ lx := Lexer.init [' ', 'a', ' ', '=', ' ', '2'], diags := [] } : PState).next.cur.kind =
        TokenKind.Identifier ∧
      expect_next_token
        ({ lx := Lexer.init [' ', 'a', ' ', '=', ' ', '2'], diags := [] } : PState).next
        TokenKind.PunctuatorEqual =
        (false, ({ lx := Lexer.init [' ', 'a', ' ', '=', ' ', '2'], diags := [] } : PState).next.next) ∧
      expect_integer_constant
        ({ lx := Lexer.init [' ', 'a', ' ', '=', ' ', '2'], diags := [] } : PState).next.next.next
        ({ lx := Lexer.init [' ', 'a', ' ', '=', ' ', '2'], diags := [] } : PState).next.next.next.cur
        32 true =
        (some 2, ({ lx := Lexer.init [' ', 'a', ' ', '=', ' ', '2'], diags := [] } : PState).next.next.next) ∧
      AssocMap.find? [(['a'], 1)]
        ({ lx := Lexer.init [' ', 'a', ' ', '=', ' ', '2'], diags := [] } : PState).next.cur.content =
        some 1) ∧
    (parse_constant_map_go [(['a'], 1)] false
        ({ lx := Lexer.init [' ', 'a', ' ', '=', ' ', '2'], diags := [] } : PState) (0 + 1) =
      parse_constant_map_go [(['a'], 1)] true
        ((({ lx := Lexer.init [' ', 'a', ' ', '=', ' ', '2'], diags := [] } : PState).next.next.next).emit
          (create_diag_at_token
            ({ lx := Lexer.init [' ', 'a', ' ', '=', ' ', '2'], diags := [] } : PState).next.cur
            DiagLevel.Error "Duplicate constant name" "" "")) 0 ∧
      AssocMap.try_emplace [(['a'], 1)]
        ({ lx := Lexer.init [' ', 'a', ' ', '=', ' ', '2'], diags := [] } : PState).next.cur.content
        (2 % U32) = (false, [(['a'], 1)]) ∧
      ∀ (m2 : AssocMap Nat) (st2 : PState) (f : Nat),
        (parse_constant_map_go m2 true st2 f).1 = none) :=
  ⟨⟨by decide, by decide, by decide, by decide⟩,
    parse_constant_map_duplicate [(['a'], 1)] false
      { lx := Lexer.init [' ', 'a', ' ', '=', ' ', '2'], diags := [] }
      ({ lx := Lexer.init [' ', 'a', ' ', '=', ' ', '2'], diags := [] } : PState).next.next
      ({ lx := Lexer.init [' ', 'a', ' ', '=', ' ', '2'], diags := [] } : PState).next.next.next
      0 2 1 (by decide) (by decide) (by decide) (by decide)⟩

/-! ### C4: integer width checks -/

theorem literal_value_acc_mono (base : Nat) (hb : 1 ≤ base) (l : List Char) :
    ∀ r : Nat, r ≤ literal_value_acc base r l := by
  induction l with
  | nil => intro r; exact le_rfl
  | cons c rest ih =>
      intro r
      simp only [literal_value_acc]
      split
      · exact ih r
      · refine le_trans ?_ (ih (r * base + digit_value c))
        have : r * 1 ≤ r * base := Nat.mul_le_mul_left r hb
        omega
  
theorem literal_value_acc_lt (base : Nat) (l : List Char)
    (hd : ∀ c ∈ l, is_separator c = false → digit_value c < base) :
    ∀ r : Nat, literal_value_acc base r l < (r + 1) * base ^ count_digits l := by
  induction l with
  | nil =>
      intro r
      simp only [literal_value_acc, count_digits, List.filter_nil, List.length_nil, pow_zero]
      omega
  | cons c rest ih =>
      intro r
      have hrest : ∀ x ∈ rest, is_separator x = false → digit_value x < base :=
        fun x hx => hd x (List.mem_cons_of_mem c hx)
      simp only [literal_value_acc]
      by_cases hs : is_separator c = true
      · rw [if_pos hs]
        have : count_digits (c :: rest) = count_digits rest := by
          simp only [count_digits, List.filter_cons, hs]
          simp
        rw [this]
        exact ih hrest r
      · rw [if_neg hs]
        have hsf : is_separator c = false := by simpa using hs
        have hcd : count_digits (c :: rest) = count_digits rest + 1 := by
          simp only [count_digits, List.filter_cons, hsf]
          simp
        rw [hcd]
        have hdc : digit_value c < base := hd c (List.mem_cons_self c rest) hsf
        have h2 := ih hrest (r * base + digit_value c)
        have hstep : (r * base + digit_value c + 1) ≤ (r + 1) * base := by
          have : (r + 1) * base = r * base + base := by ring
          omega
        calc literal_value_acc base (r * base + digit_value c) rest
            < (r * base + digit_value c + 1) * base ^ count_digits rest := h2
          _ ≤ ((r + 1) * base) * base ^ count_digits rest :=
              Nat.mul_le_mul_right _ hstep
          _ = (r + 1) * base ^ (count_digits rest + 1) := by ring

theorem digit_value_le (c : Char) : digit_value c ≤ 15 := by
  simp only [digit_value]
  repeat' split
  all_goals simp only [Bool.and_eq_true, decide_eq_true_eq] at *
  all_goals omega

theorem accum_fast_eq (base : Nat) (hb : 1 ≤ base) (l : List Char) :
    ∀ r : Nat, literal_value_acc base r l < U64 →
      accum_fast base r l = literal_value_acc base r l := by
  induction l with
  | nil => intro r _; rfl
  | cons c rest ih =>
      intro r hlt
      have hlv : literal_value_acc base r (c :: rest) =
          if is_separator c = true then literal_value_acc base r rest
          else literal_value_acc base (r * base + digit_value c) rest := rfl
      by_cases hs : is_separator c = true
      · rw [hlv, if_pos hs] at hlt ⊢
        simp only [accum_fast]
        rw [if_pos hs]
        exact ih r hlt
      · rw [hlv, if_neg hs] at hlt ⊢
        simp only [accum_fast]
        rw [if_neg hs]
        have hmid : r * base + digit_value c < U64 :=
          lt_of_le_of_lt (literal_value_acc_mono base hb rest _) hlt
        rw [Nat.mod_eq_of_lt hmid]
        exact ih _ hlt

theorem accum_checked_eq (base : Nat) (hb : 2 ≤ base) (l : List Char)
    (hd : ∀ c ∈ l, is_separator c = false → digit_value c < base) :
    ∀ r : Nat, r < U64 →
      accum_checked base r l =
        if literal_value_acc base r l < U64 then some (literal_value_acc base r l)
        else none := by
  induction l with
  | nil =>
      intro r hr
      simp only [accum_checked, literal_value_acc]
      rw [if_pos hr]
  | cons c rest ih =>
      intro r hr
      have hrest : ∀ x ∈ rest, is_separator x = false → digit_value x < base :=
        fun x hx => hd x (List.mem_cons_of_mem c hx)
      have hlv : literal_value_acc base r (c :: rest) =
          if is_separator c = true then literal_value_acc base r rest
          else literal_value_acc base (r * base + digit_value c) rest := rfl
      by_cases hs : is_separator c = true
      · rw [hlv, if_pos hs]
        simp only [accum_checked]
        rw [if_pos hs]
        exact ih hrest r hr
      · rw [hlv, if_neg hs]
        simp only [accum_checked]
        rw [if_neg hs]
        have hsf : is_separator c = false := by simpa using hs
        have hdc : digit_value c < base := hd c (List.mem_cons_self c rest) hsf
        have hb1 : 0 < base := by omega
        by_cases hov : r * base + digit_value c < U64
        · have hr1 : r * base < U64 := by omega
          have e1 : r * base % U64 = r * base := Nat.mod_eq_of_lt hr1
          have e2 : (r * base % U64 + digit_value c) % U64 = r * base + digit_value c := by
            rw [e1]; exact Nat.mod_eq_of_lt hov
          have hdiv : r * base % U64 / base = r := by
            rw [e1]; exact Nat.mul_div_cancel r hb1
          have hnov1 : decide (r * base % U64 / base ≠ r) = false := by
            simp [hdiv]
          have hnov2 : decide ((r * base % U64 + digit_value c) % U64 < digit_value c) = false := by
            rw [e2]
            simp
          rw [hnov1, hnov2]
          simp only [Bool.or_self, Bool.false_or, if_false, Bool.false_eq_true]
          rw [e2]
          exact ih hrest _ hov
        · have hge : U64 ≤ r * base + digit_value c := by omega
          have hfinal : U64 ≤ literal_value_acc base (r * base + digit_value c) rest :=
            le_trans hge (literal_value_acc_mono base (by omega) rest _)
          have hcond : ¬(literal_value_acc base (r * base + digit_value c) rest < U64) := by
            omega
          rw [if_neg hcond]
          by_cases hmul : r * base < U64
          · have e1 : r * base % U64 = r * base := Nat.mod_eq_of_lt hmul
            have hd15 : digit_value c ≤ 15 := digit_value_le c
            have hU16 : (16 : Nat) ≤ U64 := by norm_num [U64]
            have hdiv : r * base % U64 / base = r := by
              rw [e1]; exact Nat.mul_div_cancel r hb1
            have hnov1 : decide (r * base % U64 / base ≠ r) = false := by simp [hdiv]
            have e2 : (r * base % U64 + digit_value c) % U64 =
                r * base + digit_value c - U64 := by
              rw [e1]
              have h1 : r * base + digit_value c - U64 < U64 := by omega
              rw [Nat.mod_eq_sub_mod hge]
              exact Nat.mod_eq_of_lt h1
            have hnov2 : decide ((r * base % U64 + digit_value c) % U64 < digit_value c) = true := by
              rw [e2]
              simp only [decide_eq_true_eq]
              omega
            rw [hnov1, hnov2]
            simp
          · have hmul2 : U64 ≤ r * base := by omega
            have hlt2 : r * base % U64 < r * base :=
              lt_of_lt_of_le (Nat.mod_lt _ (by norm_num [U64])) hmul2
            have hdivlt : r * base % U64 / base < r := by
              rw [Nat.div_lt_iff_lt_mul hb1]
              exact lt_of_lt_of_le (Nat.mod_lt _ (by norm_num [U64])) hmul2
            have hnov1 : decide (r * base % U64 / base ≠ r) = true := by
              simp only [decide_eq_true_eq]
              omega
            rw [hnov1]
            simp

theorem count_digits_eq (l : List Char) :
    l.length - l.count '_' = count_digits l := by
  induction l with
  | nil => rfl
  | cons c rest ih =>
      have hle : rest.count '_' ≤ rest.length := List.count_le_length _ _
      by_cases h : c = '_' <;>
        simp [count_digits, List.filter_cons, List.count_cons, is_separator, h] at ih ⊢ <;>
        omega

theorem lit_lt_of_digits (base lim : Nat) (l : List Char)
    (hd : ∀ c ∈ l, is_separator c = false → digit_value c < base)
    (hcd : count_digits l ≤ lim) (hb : 1 ≤ base) (hpow : base ^ lim ≤ U64) :
    literal_value base l < U64 := by
  have hlt := literal_value_acc_lt base l hd 0
  simp only [literal_value]
  have h1 : (0 + 1) * base ^ count_digits l = base ^ count_digits l := by ring
  rw [h1] at hlt
  have h2 : base ^ count_digits l ≤ base ^ lim := Nat.pow_le_pow_right hb hcd
  omega

theorem always_fits_lt (ip : IntegerParser)
    (hbase : ip.base = 2 ∨ ip.base = 8 ∨ ip.base = 10 ∨ ip.base = 16)
    (hd : ∀ c ∈ ip.content, is_separator c = false → digit_value c < ip.base)
    (hfit : ip.always_fits_into_64bits = true) :
    literal_value ip.base ip.content < U64 := by
  have hcd := count_digits_eq ip.content
  unfold IntegerParser.always_fits_into_64bits at hfit
  rcases hbase with h | h | h | h <;> rw [h] at hfit hd ⊢ <;> norm_num at hfit
  · exact lit_lt_of_digits 2 64 _ hd (by omega) (by norm_num) (by norm_num [U64])
  · exact lit_lt_of_digits 8 21 _ hd (by omega) (by norm_num) (by norm_num [U64])
  · exact lit_lt_of_digits 10 19 _ hd (by omega) (by norm_num) (by norm_num [U64])
  · exact lit_lt_of_digits 16 16 _ hd (by omega) (by norm_num) (by norm_num [U64])


theorem parse_integer_eq (ip : IntegerParser)
    (hbase : ip.base = 2 ∨ ip.base = 8 ∨ ip.base = 10 ∨ ip.base = 16)
    (hwf : wf_digits ip.base ip.content)
    (hmax : ip.get_max_value < U64) :
    ip.parse_integer =
      if literal_value ip.base ip.content ≤ ip.get_max_value then
        some (if ip.negative then (U64 - literal_value ip.base ip.content) % U64
              else literal_value ip.base ip.content)
      else none := by
  have hd : ∀ c ∈ ip.content, is_separator c = false → digit_value c < ip.base :=
    fun c hc hs => (hwf c hc hs).2
  have hb2 : 2 ≤ ip.base := by rcases hbase with h | h | h | h <;> omega
  have main : ∀ v : Nat, v < U64 →
      (match (some v : Option Nat) with
        | none => none
        | some r =>
            if r > ip.get_max_value then none
            else if ip.negative then some ((U64 - r) % U64) else some r) =
        if v ≤ ip.get_max_value then
          some (if ip.negative then (U64 - v) % U64 else v)
        else none := by
    intro v _
    simp only []
    by_cases hle : v ≤ ip.get_max_value
    · rw [if_pos hle, if_neg (by omega)]
      cases ip.negative <;> simp
    · rw [if_neg hle, if_pos (by omega)]
  simp only [IntegerParser.parse_integer]
  by_cases hfit : ip.always_fits_into_64bits = true
  · rw [if_pos hfit]
    have hlt : literal_value ip.base ip.content < U64 := always_fits_lt ip hbase hd hfit
    have hfast : accum_fast ip.base 0 ip.content = literal_value ip.base ip.content :=
      accum_fast_eq ip.base (by omega) ip.content 0 hlt
    rw [hfast]
    exact main _ hlt
  · rw [if_neg hfit]
    have hchk : accum_checked ip.base 0 ip.content =
        if literal_value ip.base ip.content < U64
        then some (literal_value ip.base ip.content) else none := by
      have h := accum_checked_eq ip.base hb2 ip.content hd 0 (by norm_num [U64])
      simpa [literal_value] using h
    rw [hchk]
    by_cases hltU : literal_value ip.base ip.content < U64
    · rw [if_pos hltU]
      exact main _ hltU
    · rw [if_neg hltU]
      rw [if_neg (by omega)]

theorem parse_sign_fields (ip : IntegerParser) :
    (ip.parse_sign).bits = ip.bits ∧ (ip.parse_sign).signedness = ip.signedness ∧
      (ip.parse_sign).base = ip.base := by
  simp only [IntegerParser.parse_sign]
  repeat' split
  all_goals simp

theorem parse_base_fields (ip : IntegerParser) :
    (ip.parse_base).bits = ip.bits ∧ (ip.parse_base).signedness = ip.signedness ∧
      (ip.parse_base).negative = ip.negative := by
  simp only [IntegerParser.parse_base]
  repeat' split
  all_goals simp

theorem parse_base_base (ip : IntegerParser) (h : ip.base = 10) :
    (ip.parse_base).base = 2 ∨ (ip.parse_base).base = 8 ∨ (ip.parse_base).base = 10 ∨
      (ip.parse_base).base = 16 := by
  simp only [IntegerParser.parse_base]
  repeat' split
  all_goals simp [h]

theorem ipOf_bits (t : Token) (w : Nat) (sgn : Bool) : (ipOf t w sgn).bits = w := by
  have h1 := parse_base_fields ((IntegerParser.mk_init t w sgn).parse_sign)
  have h2 := parse_sign_fields (IntegerParser.mk_init t w sgn)
  simp only [ipOf]
  rw [h1.1, h2.1]
  rfl

theorem ipOf_signedness (t : Token) (w : Nat) (sgn : Bool) :
    (ipOf t w sgn).signedness = sgn := by
  have h1 := parse_base_fields ((IntegerParser.mk_init t w sgn).parse_sign)
  have h2 := parse_sign_fields (IntegerParser.mk_init t w sgn)
  simp only [ipOf]
  rw [h1.2.1, h2.2.1]
  rfl

theorem ipOf_base (t : Token) (w : Nat) (sgn : Bool) :
    (ipOf t w sgn).base = 2 ∨ (ipOf t w sgn).base = 8 ∨ (ipOf t w sgn).base = 10 ∨
      (ipOf t w sgn).base = 16 := by
  have h2 := parse_sign_fields (IntegerParser.mk_init t w sgn)
  exact parse_base_base _ h2.2.2

theorem get_max_value_char (ip : IntegerParser) (h1 : 1 ≤ ip.bits) (h64 : ip.bits ≤ 64) :
    (ip.negative = true → ip.get_max_value = 2 ^ (ip.bits - 1)) ∧
    (ip.negative = false → ip.signedness = true → ip.get_max_value = 2 ^ (ip.bits - 1) - 1) ∧
    (ip.negative = false → ip.signedness = false → ip.get_max_value = 2 ^ ip.bits - 1) ∧
    ip.get_max_value < U64 := by
  have hp : 2 ^ ip.bits ≤ 2 ^ 64 := Nat.pow_le_pow_right (by norm_num) h64
  have hp1 : 2 ^ (ip.bits - 1) ≤ 2 ^ 63 := Nat.pow_le_pow_right (by norm_num) (by omega)
  refine ⟨?_, ?_, ?_, ?_⟩
  · intro hneg
    simp [IntegerParser.get_max_value, hneg]
  · intro hneg hsgn
    simp [IntegerParser.get_max_value, hneg, hsgn]
  · intro hneg hsgn
    by_cases hb : ip.bits = 64
    · simp [IntegerParser.get_max_value, hneg, hsgn, hb, U64]
    · simp [IntegerParser.get_max_value, hneg, hsgn, hb]
  · simp only [IntegerParser.get_max_value]
    repeat' split
    all_goals simp only [U64] at *
    all_goals omega

/-- C4: for a well-formed integer literal token (all digits legal for the
parsed base, separator and digit checks passing) at width `w` in 1..64,
`get_integer_constant` succeeds exactly when the literal's magnitude is at
most the width's maximum — `2^w - 1` when no sign was parsed and the request
is unsigned, `2^(w-1) - 1` for a signed non-negative literal, and `2^(w-1)`
for a negative literal — returning the value, for negative literals in
64-bit two's-complement (sign-extended) form, and otherwise fails emitting
the overflow diagnostic whose notes spell the valid inclusive range. -/
theorem integer_width_check (st : PState) (t : Token) (w : Nat) (sgn : Bool)
    (h1 : 1 ≤ w) (h64 : w ≤ 64)
    (hwf : wf_digits (ipOf t w sgn).base (ipOf t w sgn).content)
    (hchk : int_checks (ipOf t w sgn) = none) :
    get_integer_constant st t w sgn =
      (if literal_value (ipOf t w sgn).base (ipOf t w sgn).content ≤
          (ipOf t w sgn).get_max_value
       then (some (if (ipOf t w sgn).negative
              then (U64 - literal_value (ipOf t w sgn).base (ipOf t w sgn).content) % U64
              else literal_value (ipOf t w sgn).base (ipOf t w sgn).content), st)
       else (none,
         st.emit { create_diag_at_token t .Error "Invalid integer constant" "" "" with
           notes := [(DiagLevel.Note, "because the integer constant overflows", []),
                     (DiagLevel.Note, valid_range_note w sgn, [])] })) ∧
    ((ipOf t w sgn).negative = true → (ipOf t w sgn).get_max_value = 2 ^ (w - 1)) ∧
    ((ipOf t w sgn).negative = false → sgn = true →
      (ipOf t w sgn).get_max_value = 2 ^ (w - 1) - 1) ∧
    ((ipOf t w sgn).negative = false → sgn = false →
      (ipOf t w sgn).get_max_value = 2 ^ w - 1) := by
  have hb1 : 1 ≤ (ipOf t w sgn).bits := by rw [ipOf_bits]; exact h1
  have hb64 : (ipOf t w sgn).bits ≤ 64 := by rw [ipOf_bits]; exact h64
  have hmc := get_max_value_char (ipOf t w sgn) hb1 hb64
  rw [ipOf_bits] at hmc
  have hpi := parse_integer_eq (ipOf t w sgn) (ipOf_base t w sgn) hwf hmc.2.2.2
  refine ⟨?_, hmc.1, ?_, ?_⟩
  · unfold get_integer_constant
    rw [show (((IntegerParser.mk_init t w sgn).parse_sign).parse_base) = ipOf t w sgn
        from rfl]
    rw [hchk, hpi]
    by_cases hle : literal_value (ipOf t w sgn).base (ipOf t w sgn).content ≤
        (ipOf t w sgn).get_max_value
    · rw [if_pos hle, if_pos hle]
    · rw [if_neg hle, if_neg hle]
  · intro hneg hsgn
    exact hmc.2.1 hneg (by rw [ipOf_signedness]; exact hsgn)
  · intro hneg hsgn
    exact hmc.2.2.1 hneg (by rw [ipOf_signedness]; exact hsgn)

/-- C4 counterexample to the example `-1 at width 8 signed yields 0xFF`:
the code returns the 64-bit sign extension `2^64 - 1`, not the 8-bit
pattern `0xFF = 255`. -/
theorem get_integer_constant_neg_one_cex :
    (get_integer_constant C4st C4tokm1 8 true).1 = some (U64 - 1) ∧ U64 - 1 ≠ 255 := by
  decide

theorem integer_width_check_witness :
    (1 ≤ 8 ∧ 8 ≤ 64 ∧
      wf_digits (ipOf C4tok1 8 false).base (ipOf C4tok1 8 false).content ∧
      int_checks (ipOf C4tok1 8 false) = none ∧
      wf_digits (ipOf C4tok2 8 false).base (ipOf C4tok2 8 false).content ∧
      int_checks (ipOf C4tok2 8 false) = none) ∧
    get_integer_constant C4st C4tok1 8 false = (some 31, C4st) ∧
    get_integer_constant C4st C4tok2 8 false =
      (none,
       C4st.emit { create_diag_at_token C4tok2 DiagLevel.Error
           "Invalid integer constant" "" "" with
         notes := [(DiagLevel.Note, "because the integer constant overflows", []),
                   (DiagLevel.Note, valid_range_note 8 false, [])] }) :=
  ⟨⟨by decide, by decide, by unfold wf_digits; decide, by decide,
    by unfold wf_digits; decide, by decide⟩,
   by
     have h := (integer_width_check C4st C4tok1 8 false (by decide) (by decide)
       (by unfold wf_digits; decide) (by decide)).1
     rw [h]
     decide,
   by
     have h := (integer_width_check C4st C4tok2 8 false (by decide) (by decide)
       (by unfold wf_digits; decide) (by decide)).1
     rw [h]
     decide⟩

/-! ### C1: diagnostics discipline of the driver -/

theorem emit_diags_len (st : PState) (d : Diag) :
    (st.emit d).diags.length = st.diags.length + 1 := rfl

theorem next_diags (st : PState) : (st.next).diags = st.diags := rfl

theorem expect_token_diags (st : PState) (t : Token) (k : TokenKind) :
    (expect_token st t k).2.diags.length =
      st.diags.length + (if (expect_token st t k).1 = true then 1 else 0) := by
  unfold expect_token
  split <;> simp [emit_diags_len]

theorem expect_token_many_diags (st : PState) (t : Token) (ks : List TokenKind) :
    (expect_token_many st t ks).2.diags.length =
      st.diags.length + (if (expect_token_many st t ks).1 = true then 1 else 0) := by
  unfold expect_token_many
  split <;> simp [emit_diags_len]

theorem expect_current_token_diags (st : PState) (k : TokenKind) :
    (expect_current_token st k).2.diags.length =
      st.diags.length + (if (expect_current_token st k).1 = true then 1 else 0) :=
  expect_token_diags st st.cur k

theorem expect_next_token_diags (st : PState) (k : TokenKind) :
    (expect_next_token st k).2.diags.length =
      st.diags.length + (if (expect_next_token st k).1 = true then 1 else 0) :=
  expect_token_diags st.next st.next.cur k

theorem expect_current_token_many_diags (st : PState) (ks : List TokenKind) :
    (expect_current_token_many st ks).2.diags.length =
      st.diags.length + (if (expect_current_token_many st ks).1 = true then 1 else 0) :=
  expect_token_many_diags st st.cur ks

theorem expect_next_token_many_diags (st : PState) (ks : List TokenKind) :
    (expect_next_token_many st ks).2.diags.length =
      st.diags.length + (if (expect_next_token_many st ks).1 = true then 1 else 0) :=
  expect_token_many_diags st.next st.next.cur ks

theorem get_string_literal_diags (st : PState) (t : Token) :
    (get_string_literal st t).2.diags.length =
      st.diags.length + (if (get_string_literal st t).1 = none then 1 else 0) := by
  unfold get_string_literal
  split <;> simp [emit_diags_len]

theorem expect_string_literal_diags (st : PState) (t : Token) :
    (expect_string_literal st t).2.diags.length =
      st.diags.length + (if (expect_string_literal st t).1 = none then 1 else 0) := by
  unfold expect_string_literal
  cases hq : expect_token st t TokenKind.String with
  | mk f st1 =>
      have h := expect_token_diags st t TokenKind.String
      rw [hq] at h
      cases f with
      | true => simpa using h
      | false =>
          simp at h
          simp only [Bool.false_eq_true, if_false]
          rw [get_string_literal_diags st1 t, h]

theorem get_identifier_or_string_diags (st : PState) (t : Token) :
    (get_identifier_or_string st t).2.diags.length =
      st.diags.length +
        (if (get_identifier_or_string st t).1 = none then 1 else 0) := by
  unfold get_identifier_or_string
  split
  · simp
  · exact get_string_literal_diags st t

theorem expect_identifier_or_string_diags (st : PState) (t : Token) :
    (expect_identifier_or_string st t).2.diags.length =
      st.diags.length +
        (if (expect_identifier_or_string st t).1 = none then 1 else 0) := by
  unfold expect_identifier_or_string
  cases hq : expect_token_many st t [TokenKind.Identifier, TokenKind.String] with
  | mk f st1 =>
      have h := expect_token_many_diags st t [TokenKind.Identifier, TokenKind.String]
      rw [hq] at h
      cases f with
      | true => simpa using h
      | false =>
          simp at h
          simp only [Bool.false_eq_true, if_false]
          rw [get_identifier_or_string_diags st1 t, h]

theorem get_integer_constant_diags (st : PState) (t : Token) (bits : Nat)
    (sgn : Bool) :
    (get_integer_constant st t bits sgn).2.diags.length =
      st.diags.length +
        (if (get_integer_constant st t bits sgn).1 = none then 1 else 0) := by
  unfold get_integer_constant
  split
  · simp [emit_diags_len]
  · split <;> simp [emit_diags_len]

theorem expect_integer_constant_diags (st : PState) (t : Token) (bits : Nat)
    (sgn : Bool) :
    (expect_integer_constant st t bits sgn).2.diags.length =
      st.diags.length +
        (if (expect_integer_constant st t bits sgn).1 = none then 1 else 0) := by
  unfold expect_integer_constant
  cases hq : expect_token st t TokenKind.Integer with
  | mk f st1 =>
      have h := expect_token_diags st t TokenKind.Integer
      rw [hq] at h
      cases f with
      | true => simpa using h
      | false =>
          simp at h
          simp only [Bool.false_eq_true, if_false]
          rw [get_integer_constant_diags st1 t bits sgn, h]

theorem recover_until_mono (st : PState) (k : TokenKind) (c : Bool) (fuel : Nat) :
    st.diags.length ≤ (recover_until st k c fuel).diags.length := by
  simp only [recover_until]
  split <;> simp [emit_diags_len]

theorem recover_to_keyword_diags (st : PState) (fuel : Nat) :
    (recover_to_keyword st fuel).diags = st.diags := rfl

theorem resolve_category_element_diags (rt : AssocMap RegisterGroup) (st : PState) :
    (resolve_category_element rt st).2.diags.length =
      st.diags.length +
        (if (resolve_category_element rt st).1 = none then 1 else 0) := by
  unfold resolve_category_element
  repeat' split
  case h_1.isTrue x stA heq hif =>
    have h := get_identifier_or_string_diags st st.cur
    rw [heq] at h
    simpa using h
  case h_1.isFalse x stA heq hif => exact absurd rfl hif
  case h_2.isTrue.h_1.isTrue x1 nm stA heq1 hAt x stB heq hif =>
    have h1 := get_identifier_or_string_diags st st.cur
    rw [heq1] at h1
    simp at h1
    have h2 := expect_identifier_or_string_diags stA.next.next stA.next.next.cur
    rw [heq] at h2
    simp at h2
    have hx : stA.next.next.diags.length = stA.diags.length := rfl
    show stB.diags.length = st.diags.length + 1
    omega
  case h_2.isTrue.h_1.isFalse x1 nm stA heq1 hAt x stB heq hif => exact absurd rfl hif
  case h_2.isTrue.h_2.h_1.isTrue.h_1 x3 nm1 stA heq3 hAt x2 nm stB heq2 x1 grp heqg hif x v heqv =>
    rw [heqv] at hif
    simp at hif
  case h_2.isTrue.h_2.h_1.isTrue.h_2 x3 nm1 stA heq3 hAt x2 nm stB heq2 x1 grp heqg hif x heqv =>
    have h1 := get_identifier_or_string_diags st st.cur
    rw [heq3] at h1
    simp at h1
    have h2 := expect_identifier_or_string_diags stA.next.next stA.next.next.cur
    rw [heq2] at h2
    simp at h2
    have hx : stA.next.next.diags.length = stA.diags.length := rfl
    show (stB.emit _).diags.length = st.diags.length + 1
    rw [emit_diags_len]
    omega
  case h_2.isTrue.h_2.h_1.isFalse.h_1 x3 nm1 stA heq3 hAt x2 nm stB heq2 x1 grp heqg hif x v heqv =>
    have h1 := get_identifier_or_string_diags st st.cur
    rw [heq3] at h1
    simp at h1
    have h2 := expect_identifier_or_string_diags stA.next.next stA.next.next.cur
    rw [heq2] at h2
    simp at h2
    have hx : stA.next.next.diags.length = stA.diags.length := rfl
    show stB.diags.length = st.diags.length + 0
    omega
  case h_2.isTrue.h_2.h_1.isFalse.h_2 x3 nm1 stA heq3 hAt x2 nm stB heq2 x1 grp heqg hif x heqv =>
    rw [heqv] at hif
    simp at hif
  case h_2.isTrue.h_2.h_2.isTrue x2 nm1 stA heq2 hAt x1 nm stB heq1 x heqf hif =>
    have h1 := get_identifier_or_string_diags st st.cur
    rw [heq2] at h1
    simp at h1
    have h2 := expect_identifier_or_string_diags stA.next.next stA.next.next.cur
    rw [heq1] at h2
    simp at h2
    have hx : stA.next.next.diags.length = stA.diags.length := rfl
    show (stB.emit _).diags.length = st.diags.length + 1
    rw [emit_diags_len]
    omega
  case h_2.isTrue.h_2.h_2.isFalse x2 nm1 stA heq2 hAt x1 nm stB heq1 x heqf hif =>
    exact absurd rfl hif
  case h_2.isFalse.h_1.isTrue x stA hAt cat c heq hif => simp at hif
  case h_2.isFalse.h_1.isFalse x stA hAt cat c heq hif =>
    have h1 := get_identifier_or_string_diags st st.cur
    rw [heq] at h1
    simp at h1
    show stA.next.diags.length = st.diags.length + 0
    rw [show stA.next.diags = stA.diags from rfl]
    omega
  case h_2.isFalse.h_2.isTrue x1 nm stA heq hAt cat hnotc hif =>
    have h1 := get_identifier_or_string_diags st st.cur
    rw [heq] at h1
    simp at h1
    show (stA.next.emit _).diags.length = st.diags.length + 1
    rw [emit_diags_len]
    rw [show stA.next.diags = stA.diags from rfl]
    omega
  case h_2.isFalse.h_2.isFalse x1 nm stA heq hAt cat hnotc hif => exact absurd rfl hif

theorem expect_token_many_false (st : PState) (t : Token) (ks : List TokenKind)
    (h : (expect_token_many st t ks).1 = false) :
    ks.contains t.kind = true ∧ (expect_token_many st t ks).2 = st := by
  unfold expect_token_many at h ⊢
  split at h
  · split
    · exact ⟨by assumption, rfl⟩
    · simp_all
  · simp at h

theorem resolve_table_element_core_diags (rt : AssocMap RegisterGroup) (st : PState)
    (hk : st.cur.kind = TokenKind.Integer ∨ st.cur.kind = TokenKind.Identifier ∨
      st.cur.kind = TokenKind.String ∨ st.cur.kind = TokenKind.PunctuatorMinus) :
    (resolve_table_element_core rt st).2.diags.length =
      st.diags.length +
        (if (resolve_table_element_core rt st).1 = none then 1 else 0) := by
  unfold resolve_table_element_core
  rcases hk with h | h | h | h <;> simp only [h]
  · exact expect_integer_constant_diags st st.cur 32 false
  · exact resolve_category_element_diags rt st
  · exact resolve_category_element_diags rt st
  · simp

theorem resolve_table_element_diags (rt : AssocMap RegisterGroup) (st : PState) :
    (resolve_table_element rt st).2.diags.length =
      st.diags.length +
        (if (resolve_table_element rt st).1 = none then 1 else 0) := by
  unfold resolve_table_element
  cases hq : expect_current_token_many st
      [TokenKind.Integer, TokenKind.Identifier, TokenKind.String,
        TokenKind.PunctuatorMinus] with
  | mk f st1 =>
      have h := expect_current_token_many_diags st
        [TokenKind.Integer, TokenKind.Identifier, TokenKind.String,
          TokenKind.PunctuatorMinus]
      rw [hq] at h
      cases f with
      | true => simpa using h
      | false =>
          simp at h
          have hq2 : expect_token_many st st.cur
              [TokenKind.Integer, TokenKind.Identifier, TokenKind.String,
                TokenKind.PunctuatorMinus] = (false, st1) := hq
          obtain ⟨hc, hst⟩ := expect_token_many_false st st.cur
            [TokenKind.Integer, TokenKind.Identifier, TokenKind.String,
              TokenKind.PunctuatorMinus] (by rw [hq2])
          rw [hq2] at hst
          simp at hst
          subst hst
          have hmem : st1.cur.kind ∈ [TokenKind.Integer, TokenKind.Identifier,
              TokenKind.String, TokenKind.PunctuatorMinus] := by simpa using hc
          have hk : st1.cur.kind = TokenKind.Integer ∨
              st1.cur.kind = TokenKind.Identifier ∨ st1.cur.kind = TokenKind.String ∨
              st1.cur.kind = TokenKind.PunctuatorMinus := by simpa using hmem
          cases hcore : resolve_table_element_core rt st1 with
          | mk r st2 =>
              have hcd := resolve_table_element_core_diags rt st1 hk
              rw [hcore] at hcd
              simp at hcd
              simp only [hcore]
              cases r with
              | none =>
                  simp at hcd
                  simp [next_diags]
                  omega
              | some v =>
                  simp at hcd
                  simp [next_diags]
                  omega

theorem parse_identifier_list_go_diags :
    ∀ (fuel : Nat) (res : List (List Char)) (st : PState),
      st.diags.length ≤ (parse_identifier_list_go res st fuel).2.diags.length ∧
      ((parse_identifier_list_go res st fuel).1 = none →
        st.diags.length < (parse_identifier_list_go res st fuel).2.diags.length) := by
  intro fuel
  induction fuel with
  | zero =>
      intro res st
      exact ⟨le_rfl, by intro h; simp [parse_identifier_list_go] at h⟩
  | succ n ih =>
      intro res st
      simp only [parse_identifier_list_go]
      cases hq : expect_current_token_many st
          [TokenKind.Identifier, TokenKind.PunctuatorSemi] with
      | mk f st1 =>
          have h := expect_current_token_many_diags st
            [TokenKind.Identifier, TokenKind.PunctuatorSemi]
          rw [hq] at h
          cases f with
          | true =>
              simp at h
              have hr := recover_until_mono st1 TokenKind.PunctuatorSemi true n
              constructor
              · simp
                omega
              · intro _
                simp
                omega
          | false =>
              simp at h
              simp only [Bool.false_eq_true, if_false]
              split
              · have hrec := ih (res ++ [st1.cur.content]) st1.next
                have hnx : st1.next.diags.length = st1.diags.length := rfl
                exact ⟨by omega, fun hn => by have h2 := hrec.2 hn; omega⟩
              · refine ⟨?_, fun hn => by simp at hn⟩
                rw [show st1.next.next.diags = st1.diags from rfl]
                omega

theorem parse_encoding_width_diags (st : PState) (fuel : Nat) :
    st.diags.length ≤ (parse_encoding_width st fuel).2.diags.length ∧
    ((parse_encoding_width st fuel).1 = none →
      st.diags.length < (parse_encoding_width st fuel).2.diags.length) := by
  simp only [parse_encoding_width]
  cases hq : expect_integer_constant st st.cur 32 false with
  | mk v? st1 =>
      have h := expect_integer_constant_diags st st.cur 32 false
      rw [hq] at h
      cases v? with
      | none =>
          simp at h
          have hr := recover_until_mono st1 TokenKind.PunctuatorSemi false fuel
          exact ⟨by simp; omega, fun _ => by simp; omega⟩
      | some v =>
          simp at h
          simp only []
          split
          · have hr := recover_until_mono
              (st1.emit (create_diag_at_token st1.cur DiagLevel.Error
                "Invalid encoding width" "" "")) TokenKind.PunctuatorSemi false fuel
            rw [emit_diags_len] at hr
            exact ⟨by simp; omega, fun _ => by simp; omega⟩
          · cases hq2 : expect_next_token st1 TokenKind.PunctuatorSemi with
            | mk f st2 =>
                have h2 := expect_next_token_diags st1 TokenKind.PunctuatorSemi
                rw [hq2] at h2
                cases f with
                | true =>
                    simp at h2
                    have hr := recover_until_mono st2 TokenKind.PunctuatorSemi false fuel
                    exact ⟨by simp; omega, fun _ => by simp; omega⟩
                | false =>
                    simp at h2
                    exact ⟨by simp; omega, fun hn => by simp at hn⟩

theorem parse_bitmask_diags (w : Nat) (st : PState) :
    st.diags.length ≤ (parse_bitmask w st).2.diags.length ∧
    ((parse_bitmask w st).1 = none →
      st.diags.length < (parse_bitmask w st).2.diags.length) := by
  simp only [parse_bitmask]
  cases hq : get_string_literal st st.cur with
  | mk s? st1 =>
      have h := get_string_literal_diags st st.cur
      rw [hq] at h
      cases s? with
      | none =>
          simp at h
          exact ⟨by simp; omega, fun _ => by simp; omega⟩
      | some s =>
          simp at h
          simp only []
          split
          · exact ⟨by simp [emit_diags_len]; omega, fun _ => by simp [emit_diags_len]; omega⟩
          · split
            · exact ⟨by simp [emit_diags_len]; omega, fun _ => by simp [emit_diags_len]; omega⟩
            · exact ⟨by simp; omega, fun hn => by simp at hn⟩


theorem parse_range_expr_diags (st : PState) :
    st.diags.length ≤ (parse_range_expr st).2.diags.length ∧
    ((parse_range_expr st).1 = none →
      st.diags.length < (parse_range_expr st).2.diags.length) := by
  unfold parse_range_expr
  cases hq : expect_integer_constant st.next st.next.cur 32 false with
  | mk b? st2 =>
      have h := expect_integer_constant_diags st.next st.next.cur 32 false
      rw [hq] at h
      have hnx : st.next.diags.length = st.diags.length := rfl
      cases b? with
      | none =>
          simp at h
          exact ⟨by simp; omega, fun _ => by simp; omega⟩
      | some bval =>
          simp at h
          cases hq2 : expect_next_token st2 TokenKind.PunctuatorDotDot with
          | mk f1 st3 =>
              try simp only [hq2]
              have h2 := expect_next_token_diags st2 TokenKind.PunctuatorDotDot
              rw [hq2] at h2
              cases f1 with
              | true =>
                  simp at h2
                  exact ⟨by simp; omega, fun _ => by simp; omega⟩
              | false =>
                  simp at h2
                  cases hq3 : expect_integer_constant st3.next st3.next.cur 32 false with
                  | mk e? st5 =>
                      try simp only [hq3]
                      have h3 := expect_integer_constant_diags st3.next st3.next.cur 32 false
                      rw [hq3] at h3
                      have hnx3 : st3.next.diags.length = st3.diags.length := rfl
                      cases e? with
                      | none =>
                          simp at h3
                          exact ⟨by simp; omega, fun _ => by simp; omega⟩
                      | some ev =>
                          simp at h3
                          cases hq4 : expect_next_token st5 TokenKind.PunctuatorRightParen with
                          | mk f2 st6 =>
                              try simp only [hq4]
                              have h4 := expect_next_token_diags st5 TokenKind.PunctuatorRightParen
                              rw [hq4] at h4
                              cases f2 with
                              | true =>
                                  simp at h4
                                  exact ⟨by simp; omega, fun _ => by simp; omega⟩
                              | false =>
                                  simp at h4
                                  have hnx6 : st6.next.diags.length = st6.diags.length := rfl
                                  simp only []
                                  split
                                  · exact ⟨by simp [emit_diags_len]; omega,
                                      fun _ => by simp [emit_diags_len]; omega⟩
                                  · exact ⟨by simp; omega, fun hn => by simp at hn⟩

theorem parse_register_name_diags (st : PState) :
    st.diags.length ≤ (parse_register_name st).2.diags.length ∧
    ((parse_register_name st).1 = none →
      st.diags.length < (parse_register_name st).2.diags.length) := by
  unfold parse_register_name
  cases hq : get_identifier_or_string st st.cur with
  | mk n? st1 =>
      try simp only [hq]
      have h := get_identifier_or_string_diags st st.cur
      rw [hq] at h
      cases n? with
      | none =>
          simp at h
          exact ⟨by simp; omega, fun _ => by simp; omega⟩
      | some nm =>
          simp at h
          simp only []
          split
          · cases hq2 : parse_range_expr st1.next with
            | mk r? st3 =>
                try simp only [hq2]
                have h2 := parse_range_expr_diags st1.next
                rw [hq2] at h2
                have hnx : st1.next.diags.length = st1.diags.length := rfl
                cases r? with
                | none =>
                    have h2s := h2.2 rfl
                    simp at h2s
                    exact ⟨by simp; omega, fun _ => by simp; omega⟩
                | some r =>
                    have h2m := h2.1
                    simp at h2m
                    exact ⟨by simp; omega, fun hn => by simp at hn⟩
          · refine ⟨?_, fun hn => by simp at hn⟩
            rw [show st1.next.next.diags = st1.diags from rfl]
            try simp
            omega
          · refine ⟨?_, fun hn => by simp at hn⟩
            rw [show st1.next.diags = st1.diags from rfl]
            try simp
            omega

theorem parse_register_value_diags (st : PState) :
    st.diags.length ≤ (parse_register_value st).2.diags.length ∧
    ((parse_register_value st).1 = none →
      st.diags.length < (parse_register_value st).2.diags.length) := by
  unfold parse_register_value
  cases hq : expect_current_token_many st
      [TokenKind.PunctuatorLeftParen, TokenKind.Integer] with
  | mk f st1 =>
      try simp only [hq]
      have h := expect_current_token_many_diags st
        [TokenKind.PunctuatorLeftParen, TokenKind.Integer]
      rw [hq] at h
      cases f with
      | true =>
          simp at h
          exact ⟨by simp; omega, fun _ => by simp; omega⟩
      | false =>
          simp at h
          simp only []
          split
          · have h2 := parse_range_expr_diags st1
            exact ⟨by omega, fun hn => by have h3 := h2.2 hn; omega⟩
          · cases hq2 : expect_integer_constant st1 st1.cur 32 false with
            | mk v? st2 =>
                try simp only [hq2]
                have h2 := expect_integer_constant_diags st1 st1.cur 32 false
                rw [hq2] at h2
                cases v? with
                | some v =>
                    simp at h2
                    refine ⟨?_, fun hn => by simp at hn⟩
                    rw [show st2.next.diags = st2.diags from rfl]
                    try simp
                    omega
                | none =>
                    simp at h2
                    exact ⟨by simp; omega, fun _ => by simp; omega⟩

theorem parse_register_list_go_diags :
    ∀ (fuel : Nat) (res : RegisterGroup) (st : PState),
      st.diags.length ≤ (parse_register_list_go res st fuel).2.diags.length ∧
      ((parse_register_list_go res st fuel).1 = none →
        st.diags.length < (parse_register_list_go res st fuel).2.diags.length) := by
  intro fuel
  induction fuel with
  | zero =>
      intro res st
      exact ⟨le_rfl, by intro h; simp [parse_register_list_go] at h⟩
  | succ n ih =>
      intro res st
      simp only [parse_register_list_go]
      cases hq : parse_register_name st with
      | mk names? st1 =>
          try simp only [hq]
          have h := parse_register_name_diags st
          rw [hq] at h
          cases names? with
          | none =>
              have hs := h.2 rfl
              simp at hs
              exact ⟨by simp; omega, fun _ => by simp; omega⟩
          | some names =>
              have hm := h.1
              simp at hm
              simp only []
              split
              · cases hq2 : parse_register_value st1.next with
                | mk values? st3 =>
                    try simp only [hq2]
                    have h2 := parse_register_value_diags st1.next
                    rw [hq2] at h2
                    have hnx : st1.next.diags.length = st1.diags.length := rfl
                    cases values? with
                    | none =>
                        have h2s := h2.2 rfl
                        simp at h2s
                        exact ⟨by simp; omega, fun _ => by simp; omega⟩
                    | some values =>
                        have h2m := h2.1
                        simp at h2m
                        simp only []
                        split
                        · exact ⟨by simp [emit_diags_len]; omega,
                            fun _ => by simp [emit_diags_len]; omega⟩
                        · split
                          · have hrec := ih
                              (if names.has_associated_range then
                                append_indexed res names.name_prefix
                                  names.range.lo values.lo names.name_count
                              else res.append_register names.name_prefix
                                values.lo) st3.next
                            have hnx3 : st3.next.diags.length = st3.diags.length := rfl
                            exact ⟨by omega, fun hn => by have h4 := hrec.2 hn; omega⟩
                          · exact ⟨by simp; omega, fun hn => by simp at hn⟩
              · split
                · have hrec := ih
                    (if names.has_associated_range then
                      append_auto_indexed res names.name_prefix names.range.lo
                        names.range.size
                    else res.append_register_default names.name_prefix)
                    st1.next
                  have hnx1 : st1.next.diags.length = st1.diags.length := rfl
                  exact ⟨by omega, fun hn => by have h4 := hrec.2 hn; omega⟩
                · exact ⟨by simp; omega, fun hn => by simp at hn⟩

theorem parse_register_category_concatenation_go_diags :
    ∀ (fuel : Nat) (rt : AssocMap RegisterGroup) (res : RegisterGroup) (st : PState),
      st.diags.length ≤
        (parse_register_category_concatenation_go rt res st fuel).2.diags.length ∧
      ((parse_register_category_concatenation_go rt res st fuel).1 = none →
        st.diags.length <
          (parse_register_category_concatenation_go rt res st fuel).2.diags.length) := by
  intro fuel
  induction fuel with
  | zero =>
      intro rt res st
      exact ⟨le_rfl,
        by intro h; simp [parse_register_category_concatenation_go] at h⟩
  | succ n ih =>
      intro rt res st
      simp only [parse_register_category_concatenation_go]
      cases hq : expect_next_token st TokenKind.Identifier with
      | mk f st1 =>
          try simp only [hq]
          have h := expect_next_token_diags st TokenKind.Identifier
          rw [hq] at h
          cases f with
          | true =>
              simp at h
              exact ⟨by simp; omega, fun _ => by simp; omega⟩
          | false =>
              simp at h
              simp only []
              cases hfind : rt.find? st1.cur.content with
              | some grp =>
                  try simp only [hfind]
                  split
                  · have hrec := ih rt (res.concat_with grp) st1.next
                    have hnx : st1.next.diags.length = st1.diags.length := rfl
                    exact ⟨by omega, fun hn => by have h4 := hrec.2 hn; omega⟩
                  · refine ⟨?_, fun hn => by simp at hn⟩
                    rw [show st1.next.diags = st1.diags from rfl]
                    try simp
                    omega
              | none =>
                  try simp only [hfind]
                  exact ⟨by simp [emit_diags_len]; omega,
                    fun _ => by simp [emit_diags_len]; omega⟩

theorem parse_register_category_diags (rt : AssocMap RegisterGroup) (st : PState)
    (fuel : Nat) :
    st.diags.length ≤ (parse_register_category rt st fuel).2.diags.length ∧
    ((parse_register_category rt st fuel).1 = none →
      st.diags.length < (parse_register_category rt st fuel).2.diags.length) := by
  unfold parse_register_category
  cases hq : expect_next_token_many st
      [TokenKind.Identifier, TokenKind.PunctuatorEqual, TokenKind.String] with
  | mk f st1 =>
      try simp only [hq]
      have h := expect_next_token_many_diags st
        [TokenKind.Identifier, TokenKind.PunctuatorEqual, TokenKind.String]
      rw [hq] at h
      cases f with
      | true =>
          simp at h
          exact ⟨by simp; omega, fun _ => by simp; omega⟩
      | false =>
          simp at h
          simp only []
          split
          · have hrec := parse_register_category_concatenation_go_diags fuel rt
              RegisterGroup.empty st1
            exact ⟨by simp only [parse_register_category_concatenation]; omega,
              fun hn => by
                have h4 := hrec.2 (by simpa [parse_register_category_concatenation] using hn)
                simp only [parse_register_category_concatenation]
                omega⟩
          · have hrec := parse_register_list_go_diags fuel RegisterGroup.empty st1
            exact ⟨by simp only [parse_register_list]; omega,
              fun hn => by
                have h4 := hrec.2 (by simpa [parse_register_list] using hn)
                simp only [parse_register_list]
                omega⟩

theorem parse_registers_go_diags :
    ∀ (fuel : Nat) (res : AssocMap RegisterGroup) (he : Bool) (st : PState),
      st.diags.length ≤ (parse_registers_go res he st fuel).2.diags.length ∧
      ((parse_registers_go res he st fuel).1 = none →
        he = true ∨
          st.diags.length < (parse_registers_go res he st fuel).2.diags.length) := by
  intro fuel
  induction fuel with
  | zero =>
      intro res he st
      refine ⟨le_rfl, fun hn => ?_⟩
      cases he
      · simp [parse_registers_go] at hn
      · exact Or.inl rfl
  | succ n ih =>
      intro res he st
      simp only [parse_registers_go]
      have hnx : st.next.diags.length = st.diags.length := rfl
      split
      · cases hq : parse_register_category res st.next n with
        | mk grp? st1 =>
            try simp only [hq]
            have h := parse_register_category_diags res st.next n
            rw [hq] at h
            cases grp? with
            | none =>
                have hs := h.2 rfl
                simp at hs
                have hr := recover_until_mono st1 TokenKind.PunctuatorSemi false n
                have hrec := ih res true
                  (recover_until st1 TokenKind.PunctuatorSemi false n)
                refine ⟨?_, fun _ => Or.inr ?_⟩
                · show st.diags.length ≤ (parse_registers_go res true
                    (recover_until st1 TokenKind.PunctuatorSemi false n) n).2.diags.length
                  omega
                · show st.diags.length < (parse_registers_go res true
                    (recover_until st1 TokenKind.PunctuatorSemi false n) n).2.diags.length
                  omega
            | some grp =>
                have hm := h.1
                simp at hm
                try simp only []
                cases htr : res.try_emplace st.next.cur.content grp with
                | mk ins res2 =>
                    try simp only [htr]
                    cases ins with
                    | true =>
                        simp only []
                        cases hsemi : expect_current_token st1 TokenKind.PunctuatorSemi with
                        | mk fs st3 =>
                            try simp only [hsemi]
                            have h2 := expect_current_token_diags st1 TokenKind.PunctuatorSemi
                            rw [hsemi] at h2
                            cases fs with
                            | false =>
                                simp at h2
                                have hrec := ih res2 he st3
                                refine ⟨?_, fun hn => ?_⟩
                                · show st.diags.length ≤
                                    (parse_registers_go res2 he st3 n).2.diags.length
                                  omega
                                · replace hn : (parse_registers_go res2 he st3 n).1 = none := hn
                                  refine (hrec.2 hn).elim Or.inl (fun hs => Or.inr ?_)
                                  show st.diags.length <
                                    (parse_registers_go res2 he st3 n).2.diags.length
                                  omega
                            | true =>
                                simp at h2
                                have hr := recover_until_mono st3 TokenKind.PunctuatorSemi false n
                                have hrec := ih res2 true
                                  (recover_until st3 TokenKind.PunctuatorSemi false n)
                                refine ⟨?_, fun _ => Or.inr ?_⟩
                                · show st.diags.length ≤ (parse_registers_go res2 true
                                    (recover_until st3 TokenKind.PunctuatorSemi false n) n).2.diags.length
                                  omega
                                · show st.diags.length < (parse_registers_go res2 true
                                    (recover_until st3 TokenKind.PunctuatorSemi false n) n).2.diags.length
                                  omega
                    | false =>
                        simp only []
                        cases hsemi : expect_current_token
                            (st1.emit (create_diag_at_token st.next.cur DiagLevel.Error
                              "Duplicate register category name" "" ""))
                            TokenKind.PunctuatorSemi with
                        | mk fs st3 =>
                            try simp only [hsemi]
                            have h2 := expect_current_token_diags
                              (st1.emit (create_diag_at_token st.next.cur DiagLevel.Error
                                "Duplicate register category name" "" ""))
                              TokenKind.PunctuatorSemi
                            rw [hsemi] at h2
                            rw [emit_diags_len] at h2
                            cases fs with
                            | false =>
                                simp at h2
                                have hrec := ih res2 true st3
                                refine ⟨?_, fun _ => Or.inr ?_⟩
                                · show st.diags.length ≤
                                    (parse_registers_go res2 true st3 n).2.diags.length
                                  omega
                                · show st.diags.length <
                                    (parse_registers_go res2 true st3 n).2.diags.length
                                  omega
                            | true =>
                                simp at h2
                                have hr := recover_until_mono st3 TokenKind.PunctuatorSemi false n
                                have hrec := ih res2 true
                                  (recover_until st3 TokenKind.PunctuatorSemi false n)
                                refine ⟨?_, fun _ => Or.inr ?_⟩
                                · show st.diags.length ≤ (parse_registers_go res2 true
                                    (recover_until st3 TokenKind.PunctuatorSemi false n) n).2.diags.length
                                  omega
                                · show st.diags.length < (parse_registers_go res2 true
                                    (recover_until st3 TokenKind.PunctuatorSemi false n) n).2.diags.length
                                  omega
      · refine ⟨le_of_eq hnx.symm, fun hn => ?_⟩
        cases he
        · simp at hn
        · exact Or.inl rfl

theorem parse_registers_diags (st : PState) (fuel : Nat) :
    st.diags.length ≤ (parse_registers st fuel).2.diags.length ∧
    ((parse_registers st fuel).1 = none →
      st.diags.length < (parse_registers st fuel).2.diags.length) := by
  have h := parse_registers_go_diags fuel [] false st
  refine ⟨h.1, fun hn => ?_⟩
  rcases h.2 hn with h2 | h2
  · simp at h2
  · exact h2

theorem collect_keys_go_diags :
    ∀ (fuel : Nat) (rt : AssocMap RegisterGroup) (ks : List Nat)
      (krs : List (Nat × Nat)) (st : PState),
      st.diags.length ≤ (collect_keys_go rt ks krs st fuel).2.diags.length ∧
      ((collect_keys_go rt ks krs st fuel).1 = none →
        st.diags.length < (collect_keys_go rt ks krs st fuel).2.diags.length) := by
  intro fuel
  induction fuel with
  | zero =>
      intro rt ks krs st
      exact ⟨le_rfl, by intro h; simp [collect_keys_go] at h⟩
  | succ n ih =>
      intro rt ks krs st
      simp only [collect_keys_go]
      split
      · cases hq : resolve_table_element rt st with
        | mk k? st1 =>
            try simp only [hq]
            have h := resolve_table_element_diags rt st
            rw [hq] at h
            cases k? with
            | some k =>
                simp at h
                have hrec := ih rt (ks ++ [k])
                  (krs ++ [(st.cur.location_begin, st.cur.location_end)]) st1
                refine ⟨?_, fun hn => ?_⟩
                · show st.diags.length ≤ (collect_keys_go rt (ks ++ [k])
                    (krs ++ [(st.cur.location_begin, st.cur.location_end)]) st1 n).2.diags.length
                  omega
                · replace hn : (collect_keys_go rt (ks ++ [k])
                    (krs ++ [(st.cur.location_begin, st.cur.location_end)]) st1 n).1 = none := hn
                  have h4 := hrec.2 hn
                  show st.diags.length < (collect_keys_go rt (ks ++ [k])
                    (krs ++ [(st.cur.location_begin, st.cur.location_end)]) st1 n).2.diags.length
                  omega
            | none =>
                simp at h
                exact ⟨by simp; omega, fun _ => by simp; omega⟩
      · exact ⟨le_rfl, fun hn => by simp at hn⟩

theorem parse_single_table_go_diags :
    ∀ (fuel : Nat) (rt : AssocMap RegisterGroup) (res : Table) (st : PState),
      st.diags.length ≤ (parse_single_table_go rt res st fuel).2.diags.length ∧
      ((parse_single_table_go rt res st fuel).1 = none →
        st.diags.length < (parse_single_table_go rt res st fuel).2.diags.length) := by
  intro fuel
  induction fuel with
  | zero =>
      intro rt res st
      exact ⟨le_rfl, by intro h; simp [parse_single_table_go] at h⟩
  | succ n ih =>
      intro rt res st
      simp only [parse_single_table_go]
      split
      · cases hq : collect_keys_go rt [] [] st n with
        | mk kk? st1 =>
            try simp only [hq]
            have h := collect_keys_go_diags n rt [] [] st
            rw [hq] at h
            cases kk? with
            | none =>
                have hs := h.2 rfl
                simp at hs
                have hr := recover_until_mono st1 TokenKind.PunctuatorSemi false n
                exact ⟨by simp; omega, fun _ => by simp; omega⟩
            | some kk =>
                have hm := h.1
                simp at hm
                cases kk with
                | mk keys krs =>
                    have hnx : st1.next.diags.length = st1.diags.length := rfl
                    simp only []
                    split
                    · cases hq2 : resolve_table_element rt st1.next with
                      | mk v? st3 =>
                          try simp only [hq2]
                          have h2 := resolve_table_element_diags rt st1.next
                          rw [hq2] at h2
                          cases v? with
                          | some v =>
                              simp at h2
                              have hrec := ih rt
                                ((res.set_key_size keys.length).append_item keys v) st3
                              refine ⟨?_, fun hn => ?_⟩
                              · show st.diags.length ≤ (parse_single_table_go rt
                                  ((res.set_key_size keys.length).append_item keys v)
                                  st3 n).2.diags.length
                                omega
                              · replace hn : (parse_single_table_go rt
                                  ((res.set_key_size keys.length).append_item keys v)
                                  st3 n).1 = none := hn
                                have h4 := hrec.2 hn
                                show st.diags.length < (parse_single_table_go rt
                                  ((res.set_key_size keys.length).append_item keys v)
                                  st3 n).2.diags.length
                                omega
                          | none =>
                              simp at h2
                              have hr := recover_until_mono st3 TokenKind.PunctuatorSemi false n
                              exact ⟨by simp; omega, fun _ => by simp; omega⟩
                    · split
                      · have hr := recover_until_mono
                          (st1.emit (key_count_diag res.key_size keys krs))
                          TokenKind.PunctuatorSemi false n
                        rw [emit_diags_len] at hr
                        exact ⟨by simp; omega, fun _ => by simp; omega⟩
                      · cases hq2 : resolve_table_element rt st1.next with
                        | mk v? st3 =>
                            try simp only [hq2]
                            have h2 := resolve_table_element_diags rt st1.next
                            rw [hq2] at h2
                            cases v? with
                            | some v =>
                                simp at h2
                                have hrec := ih rt (res.append_item keys v) st3
                                refine ⟨?_, fun hn => ?_⟩
                                · show st.diags.length ≤ (parse_single_table_go rt
                                    (res.append_item keys v) st3 n).2.diags.length
                                  omega
                                · replace hn : (parse_single_table_go rt
                                    (res.append_item keys v) st3 n).1 = none := hn
                                  have h4 := hrec.2 hn
                                  show st.diags.length < (parse_single_table_go rt
                                    (res.append_item keys v) st3 n).2.diags.length
                                  omega
                            | none =>
                                simp at h2
                                have hr := recover_until_mono st3 TokenKind.PunctuatorSemi false n
                                exact ⟨by simp; omega, fun _ => by simp; omega⟩
      · exact ⟨le_rfl, fun hn => by simp at hn⟩

theorem parse_tables_go_diags :
    ∀ (fuel : Nat) (rt : AssocMap RegisterGroup) (res : AssocMap Table)
      (he : Bool) (st : PState),
      st.diags.length ≤ (parse_tables_go rt res he st fuel).2.diags.length ∧
      ((parse_tables_go rt res he st fuel).1 = none →
        he = true ∨
          st.diags.length < (parse_tables_go rt res he st fuel).2.diags.length) := by
  intro fuel
  induction fuel with
  | zero =>
      intro rt res he st
      refine ⟨le_rfl, fun hn => ?_⟩
      cases he
      · simp [parse_tables_go] at hn
      · exact Or.inl rfl
  | succ n ih =>
      intro rt res he st
      simp only [parse_tables_go]
      have hnx : st.next.diags.length = st.diags.length := rfl
      have hnx2 : st.next.next.diags.length = st.diags.length := rfl
      split
      · cases hq : parse_single_table rt st.next.next n with
        | mk t? st2 =>
            try simp only [hq]
            have h : st.next.next.diags.length ≤ (t?, st2).2.diags.length ∧
                ((t?, st2).1 = none →
                  st.next.next.diags.length < (t?, st2).2.diags.length) := by
              rw [← hq]
              exact parse_single_table_go_diags n rt Table.empty st.next.next
            cases t? with
            | none =>
                have hs := h.2 rfl
                simp at hs
                have hrec := ih rt res true st2
                refine ⟨?_, fun _ => Or.inr ?_⟩
                · show st.diags.length ≤ (parse_tables_go rt res true st2 n).2.diags.length
                  omega
                · show st.diags.length < (parse_tables_go rt res true st2 n).2.diags.length
                  omega
            | some tbl =>
                have hm := h.1
                simp at hm
                cases htr : res.try_emplace st.next.cur.content tbl with
                | mk ins res2 =>
                    try simp only [htr]
                    cases ins with
                    | true =>
                        have hrec := ih rt res2 he st2
                        refine ⟨?_, fun hn => ?_⟩
                        · show st.diags.length ≤
                            (parse_tables_go rt res2 he st2 n).2.diags.length
                          omega
                        · replace hn : (parse_tables_go rt res2 he st2 n).1 = none := hn
                          refine (hrec.2 hn).elim Or.inl (fun hs => Or.inr ?_)
                          show st.diags.length <
                            (parse_tables_go rt res2 he st2 n).2.diags.length
                          omega
                    | false =>
                        have hrec := ih rt res2 true
                          (st2.emit (create_diag_at_token st.next.cur DiagLevel.Error
                            "Duplicate table name" "" ""))
                        have he2 : (st2.emit (create_diag_at_token st.next.cur DiagLevel.Error
                            "Duplicate table name" "" "")).diags.length =
                            st2.diags.length + 1 := rfl
                        refine ⟨?_, fun _ => Or.inr ?_⟩
                        · show st.diags.length ≤ (parse_tables_go rt res2 true
                            (st2.emit (create_diag_at_token st.next.cur DiagLevel.Error
                              "Duplicate table name" "" "")) n).2.diags.length
                          omega
                        · show st.diags.length < (parse_tables_go rt res2 true
                            (st2.emit (create_diag_at_token st.next.cur DiagLevel.Error
                              "Duplicate table name" "" "")) n).2.diags.length
                          omega
      · refine ⟨le_of_eq hnx.symm, fun hn => ?_⟩
        cases he
        · simp at hn
        · exact Or.inl rfl

theorem parse_condition_types_go_diags :
    ∀ (fuel : Nat) (res : List ConditionType) (he : Bool) (st : PState),
      st.diags.length ≤ (parse_condition_types_go res he st fuel).2.diags.length ∧
      ((parse_condition_types_go res he st fuel).1 = none →
        he = true ∨
          st.diags.length < (parse_condition_types_go res he st fuel).2.diags.length) := by
  intro fuel
  induction fuel with
  | zero =>
      intro res he st
      refine ⟨le_rfl, fun hn => ?_⟩
      cases he
      · simp [parse_condition_types_go] at hn
      · exact Or.inl rfl
  | succ n ih =>
      intro res he st
      simp only [parse_condition_types_go]
      have hnx : st.next.diags.length = st.diags.length := rfl
      split
      · cases hq : expect_next_token st.next TokenKind.PunctuatorColon with
        | mk f1 st1 =>
            try simp only [hq]
            have h := expect_next_token_diags st.next TokenKind.PunctuatorColon
            rw [hq] at h
            cases f1 with
            | true =>
                simp at h
                exact ⟨by simp; omega, fun _ => Or.inr (by simp; omega)⟩
            | false =>
                simp at h
                cases hq2 : expect_next_token st1 TokenKind.Identifier with
                | mk f2 st2 =>
                    try simp only [hq2]
                    have h2 := expect_next_token_diags st1 TokenKind.Identifier
                    rw [hq2] at h2
                    cases f2 with
                    | true =>
                        simp at h2
                        exact ⟨by simp; omega, fun _ => Or.inr (by simp; omega)⟩
                    | false =>
                        simp at h2
                        try simp only []
                        split
                        · rename_i ct hct
                          have hrec := ih (res ++ [ct]) he st2
                          refine ⟨?_, fun hn => ?_⟩
                          · show st.diags.length ≤
                              (parse_condition_types_go (res ++ [ct]) he st2 n).2.diags.length
                            omega
                          · replace hn : (parse_condition_types_go (res ++ [ct])
                              he st2 n).1 = none := hn
                            refine (hrec.2 hn).elim Or.inl (fun hs => Or.inr ?_)
                            show st.diags.length <
                              (parse_condition_types_go (res ++ [ct]) he st2 n).2.diags.length
                            omega
                        · have hrec := ih res true
                            (st2.emit (create_diag_at_token st2.cur DiagLevel.Error
                              "Invalid kind of condition type" ""
                              "Valid kinds are: `ERROR`, `WARNING`, `INFO`"))
                          have he2 : (st2.emit (create_diag_at_token st2.cur DiagLevel.Error
                              "Invalid kind of condition type" ""
                              "Valid kinds are: `ERROR`, `WARNING`, `INFO`")).diags.length =
                              st2.diags.length + 1 := rfl
                          refine ⟨?_, fun _ => Or.inr ?_⟩
                          · show st.diags.length ≤ (parse_condition_types_go res true
                              (st2.emit (create_diag_at_token st2.cur DiagLevel.Error
                                "Invalid kind of condition type" ""
                                "Valid kinds are: `ERROR`, `WARNING`, `INFO`")) n).2.diags.length
                            omega
                          · show st.diags.length < (parse_condition_types_go res true
                              (st2.emit (create_diag_at_token st2.cur DiagLevel.Error
                                "Invalid kind of condition type" ""
                                "Valid kinds are: `ERROR`, `WARNING`, `INFO`")) n).2.diags.length
                            omega
      · refine ⟨le_of_eq hnx.symm, fun hn => ?_⟩
        cases he
        · simp at hn
        · exact Or.inl rfl

theorem parse_constant_map_go_diags :
    ∀ (fuel : Nat) (m : AssocMap Nat) (he : Bool) (st : PState),
      st.diags.length ≤ (parse_constant_map_go m he st fuel).2.diags.length ∧
      ((parse_constant_map_go m he st fuel).1 = none →
        he = true ∨
          st.diags.length < (parse_constant_map_go m he st fuel).2.diags.length) := by
  intro fuel
  induction fuel with
  | zero =>
      intro m he st
      refine ⟨le_rfl, fun hn => ?_⟩
      cases he
      · simp [parse_constant_map_go] at hn
      · exact Or.inl rfl
  | succ n ih =>
      intro m he st
      simp only [parse_constant_map_go]
      have hnx : st.next.diags.length = st.diags.length := rfl
      split
      · cases hq : expect_next_token st.next TokenKind.PunctuatorEqual with
        | mk f1 st1 =>
            try simp only [hq]
            have h := expect_next_token_diags st.next TokenKind.PunctuatorEqual
            rw [hq] at h
            cases f1 with
            | true =>
                simp at h
                have hrec := ih m true st1
                refine ⟨?_, fun _ => Or.inr ?_⟩
                · show st.diags.length ≤
                    (parse_constant_map_go m true st1 n).2.diags.length
                  omega
                · show st.diags.length <
                    (parse_constant_map_go m true st1 n).2.diags.length
                  omega
            | false =>
                simp at h
                try simp only []
                cases hq2 : expect_integer_constant st1.next st1.next.cur 32 true with
                | mk c? st3 =>
                    try simp only [hq2]
                    have h2 := expect_integer_constant_diags st1.next st1.next.cur 32 true
                    rw [hq2] at h2
                    have hnx1 : st1.next.diags.length = st1.diags.length := rfl
                    cases c? with
                    | none =>
                        simp at h2
                        have hrec := ih m true st3
                        refine ⟨?_, fun _ => Or.inr ?_⟩
                        · show st.diags.length ≤
                            (parse_constant_map_go m true st3 n).2.diags.length
                          omega
                        · show st.diags.length <
                            (parse_constant_map_go m true st3 n).2.diags.length
                          omega
                    | some c =>
                        simp at h2
                        try simp only []
                        cases htr : m.try_emplace st.next.cur.content (c % U32) with
                        | mk ins m2 =>
                            try simp only [htr]
                            cases ins with
                            | true =>
                                have hrec := ih m2 he st3
                                refine ⟨?_, fun hn => ?_⟩
                                · show st.diags.length ≤
                                    (parse_constant_map_go m2 he st3 n).2.diags.length
                                  omega
                                · replace hn :
                                    (parse_constant_map_go m2 he st3 n).1 = none := hn
                                  refine (hrec.2 hn).elim Or.inl (fun hs => Or.inr ?_)
                                  show st.diags.length <
                                    (parse_constant_map_go m2 he st3 n).2.diags.length
                                  omega
                            | false =>
                                have hrec := ih m true
                                  (st3.emit (create_diag_at_token st.next.cur
                                    DiagLevel.Error "Duplicate constant name" "" ""))
                                have he2 : (st3.emit (create_diag_at_token st.next.cur
                                    DiagLevel.Error "Duplicate constant name" "" "")).diags.length =
                                    st3.diags.length + 1 := rfl
                                refine ⟨?_, fun _ => Or.inr ?_⟩
                                · show st.diags.length ≤ (parse_constant_map_go m true
                                    (st3.emit (create_diag_at_token st.next.cur
                                      DiagLevel.Error "Duplicate constant name" "" "")) n).2.diags.length
                                  omega
                                · show st.diags.length < (parse_constant_map_go m true
                                    (st3.emit (create_diag_at_token st.next.cur
                                      DiagLevel.Error "Duplicate constant name" "" "")) n).2.diags.length
                                  omega
      · refine ⟨le_of_eq hnx.symm, fun hn => ?_⟩
        cases he
        · simp at hn
        · exact Or.inl rfl

theorem parse_string_map_go_diags :
    ∀ (fuel : Nat) (m : AssocMap (List Char)) (he : Bool) (st : PState),
      st.diags.length ≤ (parse_string_map_go m he st fuel).2.diags.length ∧
      ((parse_string_map_go m he st fuel).1 = none →
        he = true ∨
          st.diags.length < (parse_string_map_go m he st fuel).2.diags.length) := by
  intro fuel
  induction fuel with
  | zero =>
      intro m he st
      refine ⟨le_rfl, fun hn => ?_⟩
      cases he
      · simp [parse_string_map_go] at hn
      · exact Or.inl rfl
  | succ n ih =>
      intro m he st
      simp only [parse_string_map_go]
      have hnx : st.next.diags.length = st.diags.length := rfl
      split
      · cases hq : expect_next_token st.next TokenKind.PunctuatorArrow with
        | mk f1 st1 =>
            try simp only [hq]
            have h := expect_next_token_diags st.next TokenKind.PunctuatorArrow
            rw [hq] at h
            cases f1 with
            | true =>
                simp at h
                have hrec := ih m true st1
                refine ⟨?_, fun _ => Or.inr ?_⟩
                · show st.diags.length ≤
                    (parse_string_map_go m true st1 n).2.diags.length
                  omega
                · show st.diags.length <
                    (parse_string_map_go m true st1 n).2.diags.length
                  omega
            | false =>
                simp at h
                try simp only []
                cases hq2 : expect_next_token st1 TokenKind.Identifier with
                | mk f2 st2 =>
                    try simp only [hq2]
                    have h2 := expect_next_token_diags st1 TokenKind.Identifier
                    rw [hq2] at h2
                    cases f2 with
                    | true =>
                        simp at h2
                        have hrec := ih m true st2
                        refine ⟨?_, fun _ => Or.inr ?_⟩
                        · show st.diags.length ≤
                            (parse_string_map_go m true st2 n).2.diags.length
                          omega
                        · show st.diags.length <
                            (parse_string_map_go m true st2 n).2.diags.length
                          omega
                    | false =>
                        simp at h2
                        try simp only []
                        cases htr : m.try_emplace st.next.cur.content st2.cur.content with
                        | mk ins m2 =>
                            try simp only [htr]
                            cases ins with
                            | true =>
                                have hrec := ih m2 he st2
                                refine ⟨?_, fun hn => ?_⟩
                                · show st.diags.length ≤
                                    (parse_string_map_go m2 he st2 n).2.diags.length
                                  omega
                                · replace hn :
                                    (parse_string_map_go m2 he st2 n).1 = none := hn
                                  refine (hrec.2 hn).elim Or.inl (fun hs => Or.inr ?_)
                                  show st.diags.length <
                                    (parse_string_map_go m2 he st2 n).2.diags.length
                                  omega
                            | false =>
                                have hrec := ih m true
                                  (st2.emit (create_diag_at_token st.next.cur
                                    DiagLevel.Error "Duplicate string map item" "" ""))
                                have he2 : (st2.emit (create_diag_at_token st.next.cur
                                    DiagLevel.Error "Duplicate string map item" "" "")).diags.length =
                                    st2.diags.length + 1 := rfl
                                refine ⟨?_, fun _ => Or.inr ?_⟩
                                · show st.diags.length ≤ (parse_string_map_go m true
                                    (st2.emit (create_diag_at_token st.next.cur
                                      DiagLevel.Error "Duplicate string map item" "" "")) n).2.diags.length
                                  omega
                                · show st.diags.length < (parse_string_map_go m true
                                    (st2.emit (create_diag_at_token st.next.cur
                                      DiagLevel.Error "Duplicate string map item" "" "")) n).2.diags.length
                                  omega
      · refine ⟨le_of_eq hnx.symm, fun hn => ?_⟩
        cases he
        · simp at hn
        · exact Or.inl rfl

theorem parse_architecture_go_diags :
    ∀ (fuel : Nat) (res : Architecture) (he : Bool) (st : PState),
      st.diags.length ≤ (parse_architecture_go res he st fuel).2.diags.length ∧
      ((parse_architecture_go res he st fuel).1 = none →
        he = true ∨
          st.diags.length < (parse_architecture_go res he st fuel).2.diags.length) := by
  intro fuel
  induction fuel with
  | zero =>
      intro res he st
      refine ⟨le_rfl, fun hn => ?_⟩
      cases he
      · simp [parse_architecture_go] at hn
      · exact Or.inl rfl
  | succ n ih =>
      intro res he st
      simp only [parse_architecture_go]
      have hnx : st.next.diags.length = st.diags.length := rfl
      have hnx2 : st.next.next.diags.length = st.diags.length := rfl
      split
      · split
        · have hrec := ih res true
            (st.next.next.emit (create_diag_at_token st.next.next.cur DiagLevel.Error
              "Expected content" "missing value for architecture item" ""))
          have he2 : (st.next.next.emit (create_diag_at_token st.next.next.cur
              DiagLevel.Error "Expected content"
              "missing value for architecture item" "")).diags.length =
              st.next.next.diags.length + 1 := rfl
          refine ⟨?_, fun _ => Or.inr ?_⟩
          · show st.diags.length ≤ (parse_architecture_go res true
              (st.next.next.emit (create_diag_at_token st.next.next.cur DiagLevel.Error
                "Expected content" "missing value for architecture item" "")) n).2.diags.length
            omega
          · show st.diags.length < (parse_architecture_go res true
              (st.next.next.emit (create_diag_at_token st.next.next.cur DiagLevel.Error
                "Expected content" "missing value for architecture item" "")) n).2.diags.length
            omega
        · split
          · rename_i item_value lx2 heq
            have hrec := ih
              { res with details := res.details ++
                  [{ name := st.next.cur.content, value := item_value.content }] }
              he { lx := lx2, diags := st.next.next.diags }
            have hlx : ({ lx := lx2, diags := st.next.next.diags } : PState).diags.length =
                st.diags.length := rfl
            refine ⟨?_, fun hn => ?_⟩
            · show st.diags.length ≤ (parse_architecture_go
                { res with details := res.details ++
                    [{ name := st.next.cur.content, value := item_value.content }] }
                he { lx := lx2, diags := st.next.next.diags } n).2.diags.length
              omega
            · replace hn : (parse_architecture_go
                { res with details := res.details ++
                    [{ name := st.next.cur.content, value := item_value.content }] }
                he { lx := lx2, diags := st.next.next.diags } n).1 = none := hn
              refine (hrec.2 hn).elim Or.inl (fun hs => Or.inr ?_)
              show st.diags.length < (parse_architecture_go
                { res with details := res.details ++
                    [{ name := st.next.cur.content, value := item_value.content }] }
                he { lx := lx2, diags := st.next.next.diags } n).2.diags.length
              omega
          · rename_i item_value lx2 heq
            have hrec := ih res true
              (({ lx := lx2, diags := st.next.next.diags } : PState).emit
                (create_diag_at_token item_value DiagLevel.Error "Expected `;`" "" ""))
            have he2 : (({ lx := lx2, diags := st.next.next.diags } : PState).emit
                (create_diag_at_token item_value DiagLevel.Error
                  "Expected `;`" "" "")).diags.length = st.diags.length + 1 := rfl
            refine ⟨?_, fun _ => Or.inr ?_⟩
            · show st.diags.length ≤ (parse_architecture_go res true
                (({ lx := lx2, diags := st.next.next.diags } : PState).emit
                  (create_diag_at_token item_value DiagLevel.Error
                    "Expected `;`" "" "")) n).2.diags.length
              omega
            · show st.diags.length < (parse_architecture_go res true
                (({ lx := lx2, diags := st.next.next.diags } : PState).emit
                  (create_diag_at_token item_value DiagLevel.Error
                    "Expected `;`" "" "")) n).2.diags.length
              omega
      · refine ⟨le_of_eq hnx.symm, fun hn => ?_⟩
        cases he
        · simp at hn
        · exact Or.inl rfl

theorem parse_architecture_diags (st : PState) (fuel : Nat) :
    st.diags.length ≤ (parse_architecture st fuel).2.diags.length ∧
    ((parse_architecture st fuel).1 = none →
      st.diags.length < (parse_architecture st fuel).2.diags.length) := by
  unfold parse_architecture
  cases hq : expect_string_literal st.next st.next.cur with
  | mk n? st2 =>
      try simp only [hq]
      have h := expect_string_literal_diags st.next st.next.cur
      rw [hq] at h
      have hnx : st.next.diags.length = st.diags.length := rfl
      cases n? with
      | some nm =>
          simp at h
          have hrec := parse_architecture_go_diags fuel
            { Architecture.init with name := nm } false st2
          refine ⟨?_, fun hn => ?_⟩
          · show st.diags.length ≤ (parse_architecture_go
              { Architecture.init with name := nm } false st2 fuel).2.diags.length
            omega
          · replace hn : (parse_architecture_go
              { Architecture.init with name := nm } false st2 fuel).1 = none := hn
            rcases hrec.2 hn with h2 | h2
            · simp at h2
            · show st.diags.length < (parse_architecture_go
                { Architecture.init with name := nm } false st2 fuel).2.diags.length
              omega
      | none =>
          simp at h
          have hrec := parse_architecture_go_diags fuel Architecture.init true st2
          refine ⟨?_, fun _ => ?_⟩
          · show st.diags.length ≤ (parse_architecture_go Architecture.init
              true st2 fuel).2.diags.length
            omega
          · show st.diags.length < (parse_architecture_go Architecture.init
              true st2 fuel).2.diags.length
            omega

theorem parse_condition_types_diags (st : PState) (fuel : Nat) :
    st.diags.length ≤ (parse_condition_types st fuel).2.diags.length ∧
    ((parse_condition_types st fuel).1 = none →
      st.diags.length < (parse_condition_types st fuel).2.diags.length) := by
  have h := parse_condition_types_go_diags fuel [] false st
  refine ⟨h.1, fun hn => ?_⟩
  rcases h.2 hn with h2 | h2
  · simp at h2
  · exact h2

theorem parse_constant_map_diags (st : PState) (fuel : Nat) :
    st.diags.length ≤ (parse_constant_map st fuel).2.diags.length ∧
    ((parse_constant_map st fuel).1 = none →
      st.diags.length < (parse_constant_map st fuel).2.diags.length) := by
  have h := parse_constant_map_go_diags fuel [] false st
  refine ⟨h.1, fun hn => ?_⟩
  rcases h.2 hn with h2 | h2
  · simp at h2
  · exact h2

theorem parse_string_map_diags (st : PState) (fuel : Nat) :
    st.diags.length ≤ (parse_string_map st fuel).2.diags.length ∧
    ((parse_string_map st fuel).1 = none →
      st.diags.length < (parse_string_map st fuel).2.diags.length) := by
  have h := parse_string_map_go_diags fuel [] false st
  refine ⟨h.1, fun hn => ?_⟩
  rcases h.2 hn with h2 | h2
  · simp at h2
  · exact h2

theorem parse_tables_diags (rt : AssocMap RegisterGroup) (st : PState) (fuel : Nat) :
    st.diags.length ≤ (parse_tables rt st fuel).2.diags.length ∧
    ((parse_tables rt st fuel).1 = none →
      st.diags.length < (parse_tables rt st fuel).2.diags.length) := by
  have h := parse_tables_go_diags fuel rt [] false st
  refine ⟨h.1, fun hn => ?_⟩
  rcases h.2 hn with h2 | h2
  · simp at h2
  · exact h2

theorem parse_operation_properties_diags (st : PState) (fuel : Nat) :
    st.diags.length ≤ (parse_operation_properties st fuel).2.diags.length ∧
    ((parse_operation_properties st fuel).1 = none →
      st.diags.length < (parse_operation_properties st fuel).2.diags.length) := by
  have h := parse_identifier_list_go_diags fuel [] st.next
  have hnx : st.next.diags.length = st.diags.length := rfl
  refine ⟨?_, fun hn => ?_⟩
  · show st.diags.length ≤ (parse_identifier_list_go [] st.next fuel).2.diags.length
    omega
  · replace hn : (parse_identifier_list_go [] st.next fuel).1 = none := hn
    have h2 := h.2 hn
    show st.diags.length < (parse_identifier_list_go [] st.next fuel).2.diags.length
    omega

theorem parse_operation_predicates_diags (st : PState) (fuel : Nat) :
    st.diags.length ≤ (parse_operation_predicates st fuel).2.diags.length ∧
    ((parse_operation_predicates st fuel).1 = none →
      st.diags.length < (parse_operation_predicates st fuel).2.diags.length) := by
  have h := parse_identifier_list_go_diags fuel [] st.next
  have hnx : st.next.diags.length = st.diags.length := rfl
  refine ⟨?_, fun hn => ?_⟩
  · show st.diags.length ≤ (parse_identifier_list_go [] st.next fuel).2.diags.length
    omega
  · replace hn : (parse_identifier_list_go [] st.next fuel).1 = none := hn
    have h2 := h.2 hn
    show st.diags.length < (parse_identifier_list_go [] st.next fuel).2.diags.length
    omega

theorem parse_functional_unit_go_diags :
    ∀ (fuel : Nat) (res : FunctionalUnit) (he : Bool) (st : PState),
      st.diags.length ≤ (parse_functional_unit_go res he st fuel).2.diags.length ∧
      ((parse_functional_unit_go res he st fuel).1 = none →
        he = true ∨
          st.diags.length < (parse_functional_unit_go res he st fuel).2.diags.length) := by
  intro fuel
  induction fuel with
  | zero =>
      intro res he st
      refine ⟨le_rfl, fun hn => ?_⟩
      cases he
      · simp [parse_functional_unit_go] at hn
      · exact Or.inl rfl
  | succ n ih =>
      intro res he st
      simp only [parse_functional_unit_go]
      have hnx : st.next.diags.length = st.diags.length := rfl
      have hnx2 : st.next.next.diags.length = st.diags.length := rfl
      split
      · generalize hR : Lexer.lex_until_fold
          (fun acc tok =>
            if tok.is TokenKind.Identifier = true then
              (false, Token.merge st.next.next.lx.source acc tok TokenKind.Identifier)
            else (true, acc))
          false st.next.next.lx st.next.cur n = R
        obtain ⟨rb, item_name, lx2⟩ := R
        try simp only []
        have hlx : ({ lx := lx2, diags := st.next.next.diags } : PState).diags.length =
            st.diags.length := rfl
        split
        · split
          · rename_i w st3 heq
            have h := parse_encoding_width_diags
              ({ lx := lx2, diags := st.next.next.diags } : PState) n
            rw [heq] at h
            have hm := h.1
            simp at hm
            have hrec := ih (res.set_encoding_width w) he st3
            refine ⟨?_, fun hn => ?_⟩
            · show st.diags.length ≤ (parse_functional_unit_go
                (res.set_encoding_width w) he st3 n).2.diags.length
              omega
            · replace hn : (parse_functional_unit_go
                (res.set_encoding_width w) he st3 n).1 = none := hn
              refine (hrec.2 hn).elim Or.inl (fun hs => Or.inr ?_)
              show st.diags.length < (parse_functional_unit_go
                (res.set_encoding_width w) he st3 n).2.diags.length
              omega
          · rename_i st3 heq
            have h := parse_encoding_width_diags
              ({ lx := lx2, diags := st.next.next.diags } : PState) n
            rw [heq] at h
            have hs := h.2 rfl
            simp at hs
            have hrec := ih res true st3
            refine ⟨?_, fun _ => Or.inr ?_⟩
            · show st.diags.length ≤
                (parse_functional_unit_go res true st3 n).2.diags.length
              omega
            · show st.diags.length <
                (parse_functional_unit_go res true st3 n).2.diags.length
              omega
        · split
          · split
            · rename_i bm st3 heq
              have h := parse_bitmask_diags res.encoding_width
                ({ lx := lx2, diags := st.next.next.diags } : PState)
              rw [heq] at h
              have hm := h.1
              simp at hm
              try simp only []
              split
              · rename_i res2 htr
                have hrec := ih res2 he st3
                refine ⟨?_, fun hn => ?_⟩
                · show st.diags.length ≤
                    (parse_functional_unit_go res2 he st3 n).2.diags.length
                  omega
                · replace hn : (parse_functional_unit_go res2 he st3 n).1 = none := hn
                  refine (hrec.2 hn).elim Or.inl (fun hs => Or.inr ?_)
                  show st.diags.length <
                    (parse_functional_unit_go res2 he st3 n).2.diags.length
                  omega
              · rename_i res2 htr
                have hrec := ih res2 true
                  (st3.emit (create_diag_at_token item_name DiagLevel.Error
                    "Duplicate bitmask name" "" ""))
                have he2 : (st3.emit (create_diag_at_token item_name DiagLevel.Error
                    "Duplicate bitmask name" "" "")).diags.length =
                    st3.diags.length + 1 := rfl
                refine ⟨?_, fun _ => Or.inr ?_⟩
                · show st.diags.length ≤ (parse_functional_unit_go res2 true
                    (st3.emit (create_diag_at_token item_name DiagLevel.Error
                      "Duplicate bitmask name" "" "")) n).2.diags.length
                  omega
                · show st.diags.length < (parse_functional_unit_go res2 true
                    (st3.emit (create_diag_at_token item_name DiagLevel.Error
                      "Duplicate bitmask name" "" "")) n).2.diags.length
                  omega
            · rename_i st3 heq
              have h := parse_bitmask_diags res.encoding_width
                ({ lx := lx2, diags := st.next.next.diags } : PState)
              rw [heq] at h
              have hs := h.2 rfl
              simp at hs
              have hrec := ih res true st3
              refine ⟨?_, fun _ => Or.inr ?_⟩
              · show st.diags.length ≤
                  (parse_functional_unit_go res true st3 n).2.diags.length
                omega
              · show st.diags.length <
                  (parse_functional_unit_go res true st3 n).2.diags.length
                omega
          · have hr := recover_until_mono
              ({ lx := lx2, diags := st.next.next.diags } : PState)
              TokenKind.PunctuatorSemi false n
            have hrec := ih res he
              (recover_until ({ lx := lx2, diags := st.next.next.diags } : PState)
                TokenKind.PunctuatorSemi false n)
            refine ⟨?_, fun hn => ?_⟩
            · show st.diags.length ≤ (parse_functional_unit_go res he
                (recover_until ({ lx := lx2, diags := st.next.next.diags } : PState)
                  TokenKind.PunctuatorSemi false n) n).2.diags.length
              omega
            · replace hn : (parse_functional_unit_go res he
                (recover_until ({ lx := lx2, diags := st.next.next.diags } : PState)
                  TokenKind.PunctuatorSemi false n) n).1 = none := hn
              refine (hrec.2 hn).elim Or.inl (fun hs => Or.inr ?_)
              show st.diags.length < (parse_functional_unit_go res he
                (recover_until ({ lx := lx2, diags := st.next.next.diags } : PState)
                  TokenKind.PunctuatorSemi false n) n).2.diags.length
              omega
      · refine ⟨le_of_eq hnx.symm, fun hn => ?_⟩
        cases he
        · simp at hn
        · exact Or.inl rfl

theorem parse_functional_unit_diags (w0 : Nat) (st : PState) (fuel : Nat) :
    st.diags.length ≤ (parse_functional_unit w0 st fuel).2.diags.length ∧
    ((parse_functional_unit w0 st fuel).1 = none →
      st.diags.length < (parse_functional_unit w0 st fuel).2.diags.length) := by
  unfold parse_functional_unit
  cases hq : expect_next_token st TokenKind.Identifier with
  | mk f st1 =>
      try simp only [hq]
      have h := expect_next_token_diags st TokenKind.Identifier
      rw [hq] at h
      cases f with
      | true =>
          simp at h
          have hrec := parse_functional_unit_go_diags fuel (FunctionalUnit.init w0) true st1
          refine ⟨?_, fun _ => ?_⟩
          · show st.diags.length ≤ (parse_functional_unit_go (FunctionalUnit.init w0)
              true st1 fuel).2.diags.length
            omega
          · show st.diags.length < (parse_functional_unit_go (FunctionalUnit.init w0)
              true st1 fuel).2.diags.length
            omega
      | false =>
          simp at h
          have hrec := parse_functional_unit_go_diags fuel
            ((FunctionalUnit.init w0).set_name st1.cur.content) false st1
          refine ⟨?_, fun hn => ?_⟩
          · show st.diags.length ≤ (parse_functional_unit_go
              ((FunctionalUnit.init w0).set_name st1.cur.content) false st1 fuel).2.diags.length
            omega
          · replace hn : (parse_functional_unit_go
              ((FunctionalUnit.init w0).set_name st1.cur.content) false st1 fuel).1 = none := hn
            rcases hrec.2 hn with h2 | h2
            · simp at h2
            · show st.diags.length < (parse_functional_unit_go
                ((FunctionalUnit.init w0).set_name st1.cur.content) false st1 fuel).2.diags.length
              omega

theorem parse_parameters_diags (st : PState) (fuel : Nat) :
    st.diags.length ≤ (parse_parameters st fuel).2.diags.length ∧
    ((parse_parameters st fuel).1 = none →
      st.diags.length < (parse_parameters st fuel).2.diags.length) :=
  parse_constant_map_diags st fuel

theorem parse_constants_diags (st : PState) (fuel : Nat) :
    st.diags.length ≤ (parse_constants st fuel).2.diags.length ∧
    ((parse_constants st fuel).1 = none →
      st.diags.length < (parse_constants st fuel).2.diags.length) :=
  parse_constant_map_diags st fuel

theorem parse_go_diags :
    ∀ (w0 : Nat) (fuel : Nat) (res : ISA) (he : Bool) (st : PState),
      st.diags.length ≤ (parse_go w0 res he st fuel).2.diags.length ∧
      ((parse_go w0 res he st fuel).1 = none →
        he = true ∨ st.diags.length < (parse_go w0 res he st fuel).2.diags.length) := by
  intro w0 fuel
  induction fuel with
  | zero =>
      intro res he st
      refine ⟨le_rfl, fun hn => ?_⟩
      cases he
      · simp [parse_go] at hn
      · exact Or.inl rfl
  | succ n ih =>
      intro res he st
      simp only [parse_go]
      split
      · split
        · refine ⟨?_, fun _ => Or.inr ?_⟩
          · show st.diags.length ≤ (st.emit (create_diag_at_token st.cur DiagLevel.Error
              "Unexpected token" ("expected a keyword, but got `" ++
                kind_description st.cur.kind ++ "`") "")).diags.length
            rw [emit_diags_len]
            omega
          · show st.diags.length < (st.emit (create_diag_at_token st.cur DiagLevel.Error
              "Unexpected token" ("expected a keyword, but got `" ++
                kind_description st.cur.kind ++ "`") "")).diags.length
            rw [emit_diags_len]
            omega
        · split
          · split
            · rename_i a st1 heq
              have h := parse_architecture_diags st n
              rw [heq] at h
              have hm := h.1
              simp at hm
              have hrec := ih { res with architecture := a } he st1
              refine ⟨?_, fun hn => ?_⟩
              · show st.diags.length ≤ (parse_go w0 { res with architecture := a } he st1 n).2.diags.length
                omega
              · replace hn : (parse_go w0 { res with architecture := a } he st1 n).1 = none := hn
                refine (hrec.2 hn).elim Or.inl (fun hs => Or.inr ?_)
                show st.diags.length < (parse_go w0 { res with architecture := a } he st1 n).2.diags.length
                omega
            · rename_i st1 heq
              have h := parse_architecture_diags st n
              rw [heq] at h
              have hs := h.2 rfl
              simp at hs
              have hk : (recover_to_keyword st1 n).diags.length = st1.diags.length := rfl
              have hrec := ih res true (recover_to_keyword st1 n)
              refine ⟨?_, fun _ => Or.inr ?_⟩
              · show st.diags.length ≤
                  (parse_go w0 res true (recover_to_keyword st1 n) n).2.diags.length
                omega
              · show st.diags.length <
                  (parse_go w0 res true (recover_to_keyword st1 n) n).2.diags.length
                omega
          · split
            · rename_i a st1 heq
              have h := parse_parameters_diags st n
              rw [heq] at h
              have hm := h.1
              simp at hm
              have hrec := ih { res with parameters := a } he st1
              refine ⟨?_, fun hn => ?_⟩
              · show st.diags.length ≤ (parse_go w0 { res with parameters := a } he st1 n).2.diags.length
                omega
              · replace hn : (parse_go w0 { res with parameters := a } he st1 n).1 = none := hn
                refine (hrec.2 hn).elim Or.inl (fun hs => Or.inr ?_)
                show st.diags.length < (parse_go w0 { res with parameters := a } he st1 n).2.diags.length
                omega
            · rename_i st1 heq
              have h := parse_parameters_diags st n
              rw [heq] at h
              have hs := h.2 rfl
              simp at hs
              have hk : (recover_to_keyword st1 n).diags.length = st1.diags.length := rfl
              have hrec := ih res true (recover_to_keyword st1 n)
              refine ⟨?_, fun _ => Or.inr ?_⟩
              · show st.diags.length ≤
                  (parse_go w0 res true (recover_to_keyword st1 n) n).2.diags.length
                omega
              · show st.diags.length <
                  (parse_go w0 res true (recover_to_keyword st1 n) n).2.diags.length
                omega
          · split
            · rename_i a st1 heq
              have h := parse_constants_diags st n
              rw [heq] at h
              have hm := h.1
              simp at hm
              have hrec := ih { res with constants := a } he st1
              refine ⟨?_, fun hn => ?_⟩
              · show st.diags.length ≤ (parse_go w0 { res with constants := a } he st1 n).2.diags.length
                omega
              · replace hn : (parse_go w0 { res with constants := a } he st1 n).1 = none := hn
                refine (hrec.2 hn).elim Or.inl (fun hs => Or.inr ?_)
                show st.diags.length < (parse_go w0 { res with constants := a } he st1 n).2.diags.length
                omega
            · rename_i st1 heq
              have h := parse_constants_diags st n
              rw [heq] at h
              have hs := h.2 rfl
              simp at hs
              have hk : (recover_to_keyword st1 n).diags.length = st1.diags.length := rfl
              have hrec := ih res true (recover_to_keyword st1 n)
              refine ⟨?_, fun _ => Or.inr ?_⟩
              · show st.diags.length ≤
                  (parse_go w0 res true (recover_to_keyword st1 n) n).2.diags.length
                omega
              · show st.diags.length <
                  (parse_go w0 res true (recover_to_keyword st1 n) n).2.diags.length
                omega
          · split
            · rename_i a st1 heq
              have h := parse_string_map_diags st n
              rw [heq] at h
              have hm := h.1
              simp at hm
              have hrec := ih { res with string_map := a } he st1
              refine ⟨?_, fun hn => ?_⟩
              · show st.diags.length ≤ (parse_go w0 { res with string_map := a } he st1 n).2.diags.length
                omega
              · replace hn : (parse_go w0 { res with string_map := a } he st1 n).1 = none := hn
                refine (hrec.2 hn).elim Or.inl (fun hs => Or.inr ?_)
                show st.diags.length < (parse_go w0 { res with string_map := a } he st1 n).2.diags.length
                omega
            · rename_i st1 heq
              have h := parse_string_map_diags st n
              rw [heq] at h
              have hs := h.2 rfl
              simp at hs
              have hk : (recover_to_keyword st1 n).diags.length = st1.diags.length := rfl
              have hrec := ih res true (recover_to_keyword st1 n)
              refine ⟨?_, fun _ => Or.inr ?_⟩
              · show st.diags.length ≤
                  (parse_go w0 res true (recover_to_keyword st1 n) n).2.diags.length
                omega
              · show st.diags.length <
                  (parse_go w0 res true (recover_to_keyword st1 n) n).2.diags.length
                omega
          · split
            · rename_i a st1 heq
              have h := parse_registers_diags st n
              rw [heq] at h
              have hm := h.1
              simp at hm
              have hrec := ih { res with registers := a } he st1
              refine ⟨?_, fun hn => ?_⟩
              · show st.diags.length ≤ (parse_go w0 { res with registers := a } he st1 n).2.diags.length
                omega
              · replace hn : (parse_go w0 { res with registers := a } he st1 n).1 = none := hn
                refine (hrec.2 hn).elim Or.inl (fun hs => Or.inr ?_)
                show st.diags.length < (parse_go w0 { res with registers := a } he st1 n).2.diags.length
                omega
            · rename_i st1 heq
              have h := parse_registers_diags st n
              rw [heq] at h
              have hs := h.2 rfl
              simp at hs
              have hk : (recover_to_keyword st1 n).diags.length = st1.diags.length := rfl
              have hrec := ih res true (recover_to_keyword st1 n)
              refine ⟨?_, fun _ => Or.inr ?_⟩
              · show st.diags.length ≤
                  (parse_go w0 res true (recover_to_keyword st1 n) n).2.diags.length
                omega
              · show st.diags.length <
                  (parse_go w0 res true (recover_to_keyword st1 n) n).2.diags.length
                omega
          · split
            · rename_i a st1 heq
              have h := parse_functional_unit_diags w0 st n
              rw [heq] at h
              have hm := h.1
              simp at hm
              have hrec := ih { res with functional_unit := a } he st1
              refine ⟨?_, fun hn => ?_⟩
              · show st.diags.length ≤ (parse_go w0 { res with functional_unit := a } he st1 n).2.diags.length
                omega
              · replace hn : (parse_go w0 { res with functional_unit := a } he st1 n).1 = none := hn
                refine (hrec.2 hn).elim Or.inl (fun hs => Or.inr ?_)
                show st.diags.length < (parse_go w0 { res with functional_unit := a } he st1 n).2.diags.length
                omega
            · rename_i st1 heq
              have h := parse_functional_unit_diags w0 st n
              rw [heq] at h
              have hs := h.2 rfl
              simp at hs
              have hk : (recover_to_keyword st1 n).diags.length = st1.diags.length := rfl
              have hrec := ih res true (recover_to_keyword st1 n)
              refine ⟨?_, fun _ => Or.inr ?_⟩
              · show st.diags.length ≤
                  (parse_go w0 res true (recover_to_keyword st1 n) n).2.diags.length
                omega
              · show st.diags.length <
                  (parse_go w0 res true (recover_to_keyword st1 n) n).2.diags.length
                omega
          · split
            · rename_i stE hexp
              have hx : stE.diags.length = st.diags.length := by
                have he2 := expect_next_token_diags st TokenKind.KeywordTypes
                rw [hexp] at he2
                simpa using he2
              split
              · rename_i a st2 heq
                have h := parse_condition_types_diags stE n
                rw [heq] at h
                have hm := h.1
                simp at hm
                have hrec := ih { res with condition_types := a } he st2
                refine ⟨?_, fun hn => ?_⟩
                · show st.diags.length ≤
                    (parse_go w0 { res with condition_types := a } he st2 n).2.diags.length
                  omega
                · replace hn : (parse_go w0 { res with condition_types := a }
                    he st2 n).1 = none := hn
                  refine (hrec.2 hn).elim Or.inl (fun hs => Or.inr ?_)
                  show st.diags.length <
                    (parse_go w0 { res with condition_types := a } he st2 n).2.diags.length
                  omega
              · rename_i st2 heq
                have h := parse_condition_types_diags stE n
                rw [heq] at h
                have hs := h.2 rfl
                simp at hs
                have hk : (recover_to_keyword st2 n).diags.length = st2.diags.length := rfl
                have hrec := ih res true (recover_to_keyword st2 n)
                refine ⟨?_, fun _ => Or.inr ?_⟩
                · show st.diags.length ≤
                    (parse_go w0 res true (recover_to_keyword st2 n) n).2.diags.length
                  omega
                · show st.diags.length <
                    (parse_go w0 res true (recover_to_keyword st2 n) n).2.diags.length
                  omega
            · rename_i stE hexp
              have hx : stE.diags.length = st.diags.length + 1 := by
                have he2 := expect_next_token_diags st TokenKind.KeywordTypes
                rw [hexp] at he2
                simpa using he2
              have hk : (recover_to_keyword stE n).diags.length = stE.diags.length := rfl
              have hrec := ih res true (recover_to_keyword stE n)
              refine ⟨?_, fun _ => Or.inr ?_⟩
              · show st.diags.length ≤
                  (parse_go w0 res true (recover_to_keyword stE n) n).2.diags.length
                omega
              · show st.diags.length <
                  (parse_go w0 res true (recover_to_keyword stE n) n).2.diags.length
                omega
          · split
            · rename_i a st1 heq
              have h := parse_tables_diags res.registers st n
              rw [heq] at h
              have hm := h.1
              simp at hm
              have hrec := ih { res with tables := a } he st1
              refine ⟨?_, fun hn => ?_⟩
              · show st.diags.length ≤ (parse_go w0 { res with tables := a } he st1 n).2.diags.length
                omega
              · replace hn : (parse_go w0 { res with tables := a } he st1 n).1 = none := hn
                refine (hrec.2 hn).elim Or.inl (fun hs => Or.inr ?_)
                show st.diags.length < (parse_go w0 { res with tables := a } he st1 n).2.diags.length
                omega
            · rename_i st1 heq
              have h := parse_tables_diags res.registers st n
              rw [heq] at h
              have hs := h.2 rfl
              simp at hs
              have hk : (recover_to_keyword st1 n).diags.length = st1.diags.length := rfl
              have hrec := ih res true (recover_to_keyword st1 n)
              refine ⟨?_, fun _ => Or.inr ?_⟩
              · show st.diags.length ≤
                  (parse_go w0 res true (recover_to_keyword st1 n) n).2.diags.length
                omega
              · show st.diags.length <
                  (parse_go w0 res true (recover_to_keyword st1 n) n).2.diags.length
                omega
          · split
            · rename_i st1 hexp
              have hx : st1.diags.length = st.diags.length := by
                have he2 := expect_next_token_many_diags st
                  [TokenKind.KeywordProperties, TokenKind.KeywordPredicates]
                rw [hexp] at he2
                simpa using he2
              split
              · split
                · rename_i a st2 heq
                  have h := parse_operation_properties_diags st1 n
                  rw [heq] at h
                  have hm := h.1
                  simp at hm
                  have hrec := ih { res with operation_properties := a } he st2
                  refine ⟨?_, fun hn => ?_⟩
                  · show st.diags.length ≤
                      (parse_go w0 { res with operation_properties := a } he st2 n).2.diags.length
                    omega
                  · replace hn : (parse_go w0 { res with operation_properties := a } he st2 n).1 = none := hn
                    refine (hrec.2 hn).elim Or.inl (fun hs => Or.inr ?_)
                    show st.diags.length <
                      (parse_go w0 { res with operation_properties := a } he st2 n).2.diags.length
                    omega
                · rename_i st2 heq
                  have h := parse_operation_properties_diags st1 n
                  rw [heq] at h
                  have hs := h.2 rfl
                  simp at hs
                  have hk : (recover_to_keyword st2 n).diags.length = st2.diags.length := rfl
                  have hrec := ih res true (recover_to_keyword st2 n)
                  refine ⟨?_, fun _ => Or.inr ?_⟩
                  · show st.diags.length ≤
                      (parse_go w0 res true (recover_to_keyword st2 n) n).2.diags.length
                    omega
                  · show st.diags.length <
                      (parse_go w0 res true (recover_to_keyword st2 n) n).2.diags.length
                    omega
              · split
                · rename_i a st2 heq
                  have h := parse_operation_predicates_diags st1 n
                  rw [heq] at h
                  have hm := h.1
                  simp at hm
                  have hrec := ih { res with operation_predicates := a } he st2
                  refine ⟨?_, fun hn => ?_⟩
                  · show st.diags.length ≤
                      (parse_go w0 { res with operation_predicates := a } he st2 n).2.diags.length
                    omega
                  · replace hn : (parse_go w0 { res with operation_predicates := a } he st2 n).1 = none := hn
                    refine (hrec.2 hn).elim Or.inl (fun hs => Or.inr ?_)
                    show st.diags.length <
                      (parse_go w0 { res with operation_predicates := a } he st2 n).2.diags.length
                    omega
                · rename_i st2 heq
                  have h := parse_operation_predicates_diags st1 n
                  rw [heq] at h
                  have hs := h.2 rfl
                  simp at hs
                  have hk : (recover_to_keyword st2 n).diags.length = st2.diags.length := rfl
                  have hrec := ih res true (recover_to_keyword st2 n)
                  refine ⟨?_, fun _ => Or.inr ?_⟩
                  · show st.diags.length ≤
                      (parse_go w0 res true (recover_to_keyword st2 n) n).2.diags.length
                    omega
                  · show st.diags.length <
                      (parse_go w0 res true (recover_to_keyword st2 n) n).2.diags.length
                    omega
            · rename_i st1 hexp
              have hx : st1.diags.length = st.diags.length + 1 := by
                have he2 := expect_next_token_many_diags st
                  [TokenKind.KeywordProperties, TokenKind.KeywordPredicates]
                rw [hexp] at he2
                simpa using he2
              have hk : (recover_to_keyword st1 n).diags.length = st1.diags.length := rfl
              have hrec := ih res true (recover_to_keyword st1 n)
              refine ⟨?_, fun _ => Or.inr ?_⟩
              · show st.diags.length ≤
                  (parse_go w0 res true (recover_to_keyword st1 n) n).2.diags.length
                omega
              · show st.diags.length <
                  (parse_go w0 res true (recover_to_keyword st1 n) n).2.diags.length
                omega
          · refine ⟨le_rfl, fun hn => ?_⟩
            cases he
            · simp at hn
            · exact Or.inl rfl
      · refine ⟨le_rfl, fun hn => ?_⟩
        cases he
        · simp at hn
        · exact Or.inl rfl

/-- C1: if the top-level parse returns no model, at least one diagnostic was
produced during the parse.  (This is the true half of the claim; the claimed
converse — a returned model implies an empty diagnostics list — is refuted
by `isa_parse_some_with_diags_cex`.) -/
theorem isa_parse_none_has_diags (w0 : Nat) (source : List Char)
    (h : (parseISA w0 source).1 = none) : (parseISA w0 source).2.diags ≠ [] := by
  have hd := parse_go_diags w0 (2 * source.length + 64) (ISA.init w0) false
    { lx := (Lexer.init source).next_token, diags := [] }
  replace h : (parse_go w0 (ISA.init w0) false
      { lx := (Lexer.init source).next_token, diags := [] }
      (2 * source.length + 64)).1 = none := h
  rcases hd.2 h with hfa | hlt
  · simp at hfa
  · show (parse_go w0 (ISA.init w0) false
      { lx := (Lexer.init source).next_token, diags := [] }
      (2 * source.length + 64)).2.diags ≠ []
    intro hnil
    rw [hnil] at hlt
    simp at hlt

/-- Counterexample to the claimed all-or-nothing contract: on
`FUNIT uC foo 123` the parse returns a model even though a diagnostic
(`Expected ;`) was emitted, because the functional-unit routine recovers
from a missing semicolon without recording a section failure.  The
uninitialized `encoding_width_` cell is never read on this input, so its
modelled contents are instantiated at 0. -/
theorem isa_parse_some_with_diags_cex :
    (parseISA 0 C1cex).1.isSome = true ∧ (parseISA 0 C1cex).2.diags ≠ [] := by
  refine ⟨rfl, ?_⟩
  intro hnil
  have hlen : (parseISA 0 C1cex).2.diags.length = 1 := rfl
  rw [hnil] at hlen
  simp at hlen

/-- Witness: on the single-character source `x` the parse fails and the
diagnostics list is indeed nonempty. -/
theorem isa_parse_none_has_diags_witness :
    (parseISA 0 ['x']).1 = none ∧ (parseISA 0 ['x']).2.diags ≠ [] :=
  ⟨rfl, isa_parse_none_has_diags 0 ['x'] rfl⟩
